import Mathlib

/-!
# osctrl: query targeting, execution tracking and permissions

A shallow embedding of the Go sources of the repository.

Conventions of the embedding

* A table of the persistent store is the list of its rows in primary-key order; the
  auto-increment counter of a table is kept next to it.  Of the columns contributed by
  `gorm.Model` the primary key `ID` is kept; `created_at`, `updated_at` and `deleted_at`
  are kept only where a function of the sources reads them.
* The store is reliable: a statement either takes effect or is refused by a constraint the
  schema declares.  Connection failures of the database are outside the model, except where
  a function takes the failure of one of its statements as an argument.
* Text in a WHERE clause is compared as the same text.  `Nodes.Collated` repeats the
  lookups of nodes with the comparison of the collation as an argument.
* Go `int` is `Int` reduced to 64 bits where the sources do arithmetic on it.
* A Go `map[string]V` is an association list with at most one entry per key.
-/

namespace Osctrl

/-! ## Go primitives -/

/-- Go map with string keys, as an association list holding at most one entry per key. -/
abbrev GoMap (V : Type) := List (String × V)

namespace GoMap

/-- Comma-ok lookup `v, ok := m[k]`. -/
def get? {V : Type} (m : GoMap V) (k : String) : Option V :=
  (m.find? (fun e => e.1 == k)).map (fun e => e.2)

/-- Assignment `m[k] = v`. -/
def set {V : Type} (m : GoMap V) (k : String) (v : V) : GoMap V :=
  (k, v) :: m.filter (fun e => !(e.1 == k))

/-- Key set of the map. -/
def keys {V : Type} (m : GoMap V) : List String := m.map (fun e => e.1)

end GoMap

/-- Two's-complement reduction of an integer to the range of a 64-bit Go `int`. -/
def goInt (x : Int) : Int := (x + 2 ^ 63) % 2 ^ 64 - 2 ^ 63

/-! ## Node records (src/nodes/nodes.go) -/

namespace Nodes

/-- OsqueryNode as abstraction of a node. An instant is a number of nanoseconds counted
from the zero time.Time, 0 for the blank value. -/
structure OsqueryNode where
  ID : Nat := 0
  CreatedAt : Nat := 0
  UpdatedAt : Nat := 0
  NodeKey : String := ""
  UUID : String := ""
  Platform : String := ""
  PlatformVersion : String := ""
  OsqueryVersion : String := ""
  Hostname : String := ""
  Localname : String := ""
  IPAddress : String := ""
  Username : String := ""
  OsqueryUser : String := ""
  Environment : String := ""
  CPU : String := ""
  Memory : String := ""
  HardwareSerial : String := ""
  DaemonHash : String := ""
  ConfigHash : String := ""
  RawEnrollment : String := ""
  LastStatus : Nat := 0
  LastResult : Nat := 0
  LastConfig : Nat := 0
  LastQueryRead : Nat := 0
  LastQueryWrite : Nat := 0
deriving DecidableEq, Repr

/-! ### The registry (src/nodes/nodes.go)

An instant is a number of nanoseconds counted from the zero time.Time; the instant 0 is the
blank value. The functions that read the clock take the reading `now` as an argument. No
function of the sources soft-deletes a row, so `deleted_at` is null throughout and the
condition gorm adds on it is left out. A comparison of the database on a text column is
equality of the strings. -/

/-- NodeHistoryIPAddress to keep track of all IP Addresses for nodes. -/
structure NodeHistoryIPAddress where
  ID : Nat := 0
  CreatedAt : Nat := 0
  UpdatedAt : Nat := 0
  UUID : String := ""
  IPAddress : String := ""
  Count : Int := 0
deriving DecidableEq, Repr

/-- NodeHistoryHostname to keep track of all hostnames for nodes. -/
structure NodeHistoryHostname where
  ID : Nat := 0
  CreatedAt : Nat := 0
  UpdatedAt : Nat := 0
  UUID : String := ""
  Hostname : String := ""
  Count : Int := 0
deriving DecidableEq, Repr

/-- NodeHistoryLocalname to keep track of all localnames for nodes. -/
structure NodeHistoryLocalname where
  ID : Nat := 0
  CreatedAt : Nat := 0
  UpdatedAt : Nat := 0
  UUID : String := ""
  Localname : String := ""
  Count : Int := 0
deriving DecidableEq, Repr

/-- NodeHistoryUsername to keep track of all usernames for nodes. -/
structure NodeHistoryUsername where
  ID : Nat := 0
  CreatedAt : Nat := 0
  UpdatedAt : Nat := 0
  UUID : String := ""
  Username : String := ""
  Count : Int := 0
deriving DecidableEq, Repr

/-- ArchiveOsqueryNode as abstraction of an archived node. -/
structure ArchiveOsqueryNode where
  ID : Nat := 0
  CreatedAt : Nat := 0
  UpdatedAt : Nat := 0
  NodeKey : String := ""
  UUID : String := ""
  Trigger : String := ""
  Platform : String := ""
  PlatformVersion : String := ""
  OsqueryVersion : String := ""
  Hostname : String := ""
  Localname : String := ""
  IPAddress : String := ""
  Username : String := ""
  OsqueryUser : String := ""
  Environment : String := ""
  CPU : String := ""
  Memory : String := ""
  HardwareSerial : String := ""
  ConfigHash : String := ""
  DaemonHash : String := ""
  RawEnrollment : String := ""
  LastStatus : Nat := 0
  LastResult : Nat := 0
  LastConfig : Nat := 0
  LastQueryRead : Nat := 0
  LastQueryWrite : Nat := 0
deriving DecidableEq, Repr

/-- StatsData to display node stats. -/
structure StatsData where
  Total : Int := 0
  Active : Int := 0
  Inactive : Int := 0
deriving DecidableEq, Repr

/-- NodeMetadata, the argument of UpdateMetadataByUUID. Another file of package nodes
declares the type; these are the fields that nodes.go reads. -/
structure NodeMetadata where
  IPAddress : String := ""
  Username : String := ""
  OsqueryUser : String := ""
  Hostname : String := ""
  Localname : String := ""
  ConfigHash : String := ""
  DaemonHash : String := ""
  OsqueryVersion : String := ""
deriving DecidableEq, Repr

/-- The tables behind `NodeManager.DB` that the functions below touch, each with its
auto-increment counter. -/
structure Store where
  nodes : List OsqueryNode := []
  historyIPAddress : List NodeHistoryIPAddress := []
  historyHostname : List NodeHistoryHostname := []
  historyLocalname : List NodeHistoryLocalname := []
  historyUsername : List NodeHistoryUsername := []
  nodeSeq : Nat := 0
  ipAddressSeq : Nat := 0
  hostnameSeq : Nat := 0
  localnameSeq : Nat := 0
  usernameSeq : Nat := 0
  archive : List ArchiveOsqueryNode := []
  archiveSeq : Nat := 0
deriving DecidableEq, Repr

/-- Schema invariant of the table of nodes: primary keys are distinct, positive and were
handed out by the counter. The table declares no unique index on uuid or node_key. -/
def Store.WF (s : Store) : Prop :=
  (s.nodes.map (fun n => n.ID)).Nodup ∧ ∀ n ∈ s.nodes, 0 < n.ID ∧ n.ID ≤ s.nodeSeq

instance (s : Store) : Decidable s.WF := by
  unfold Store.WF
  infer_instance

/-- Errors returned by the functions of the node registry. -/
inductive Error where
  /-- The error gorm.ErrRecordNotFound. -/
  | recordNotFound
  /-- The error "n.DB.NewRecord did not return true". -/
  | notNewRecord
  /-- The statement is refused by the database as malformed. -/
  | sql
  /-- The error `fmt.Errorf(context + " %v", err)`. -/
  | wrap (context : String) (err : Error)
deriving DecidableEq, Repr

/-- A function of the node manager that writes: from the store, the value returned or the
error, and the store it leaves. An error ends the function and keeps what was written
before it. -/
def DB (α : Type) : Type := Store → Except Error α × Store

/-- Return of a value. -/
def DB.pure {α : Type} (a : α) : DB α := fun s => (.ok a, s)

/-- Sequencing: the rest runs on the store left, unless an error was returned. -/
def DB.bind {α β : Type} (m : DB α) (f : α → DB β) : DB β := fun s =>
  match m s with
  | (.ok a, s1) => f a s1
  | (.error err, s1) => (.error err, s1)

instance : Monad DB where
  pure := DB.pure
  bind := DB.bind

/-- A read of the store. -/
def DB.read {α : Type} (f : Store → Except Error α) : DB α := fun s => (f s, s)

/-- A write that the store does not refuse. -/
def DB.write (f : Store → Store) : DB Unit := fun s => (.ok (), f s)

/-- The pattern `if err := m; err != nil { return fmt.Errorf(context + " %v", err) }`. -/
def DB.orWrap {α : Type} (context : String) (m : DB α) : DB α := fun s =>
  match m s with
  | (.ok a, s1) => (.ok a, s1)
  | (.error err, s1) => (.error (.wrap context err), s1)

/-- The function strings.ToUpper, on the letters a to z: every other character is left as
it is, where Go maps the letters of every script. -/
def toUpper (s : String) : String := String.mk (s.data.map Char.toUpper)

/-- The function strings.ToLower, on the letters A to Z: every other character is left as
it is, where Go maps the letters of every script. -/
def toLower (s : String) : String := String.mk (s.data.map Char.toLower)

/-- The check `DB.NewRecord(value)`: the primary key of the value is blank. -/
def NewRecord (id : Nat) : Bool := id == 0

/-- The timestamp gorm writes on insert: the clock reading, unless the value carries one. -/
def stamp (given now : Nat) : Nat := if given = 0 then now else given

/-- CheckByKey to check if node exists by node_key. -/
def CheckByKey (s : Store) (nodeKey : String) : Bool :=
  let results := (s.nodes.filter (fun n => n.NodeKey == toLower nodeKey)).length
  decide (results > 0)

/-- CheckByUUID to check if node exists by UUID. -/
def CheckByUUID (s : Store) (uuid : String) : Bool :=
  let results := (s.nodes.filter (fun n => n.UUID == toUpper uuid)).length
  decide (results > 0)

/-- CheckByUUIDEnv to check if node exists by UUID in a specific environment. -/
def CheckByUUIDEnv (s : Store) (uuid environment : String) : Bool :=
  let results :=
    (s.nodes.filter (fun n => n.UUID == toUpper uuid && n.Environment == environment)).length
  decide (results > 0)

/-- CheckByHost to check if node exists by Hostname. -/
def CheckByHost (s : Store) (host : String) : Bool :=
  let results := (s.nodes.filter (fun n => n.Hostname == host || n.Localname == host)).length
  decide (results > 0)

/-- GetByKey to retrieve full node object from DB, by node_key: the first row in primary-key
order. -/
def GetByKey (s : Store) (nodekey : String) : Except Error OsqueryNode :=
  match s.nodes.find? (fun n => n.NodeKey == toLower nodekey) with
  | some node => .ok node
  | none => .error .recordNotFound

/-- GetByUUID to retrieve full node object from DB, by uuid: the first row in primary-key
order. -/
def GetByUUID (s : Store) (uuid : String) : Except Error OsqueryNode :=
  match s.nodes.find? (fun n => n.UUID == toUpper uuid) with
  | some node => .ok node
  | none => .error .recordNotFound

/-! ### The lookups under a collation

The comparison `column = ?` of a text column is made by the collation of the column, which
the configuration of the database server fixes and the sources do not name: the connection
string of package backend sets the character set only. The four lookups are repeated here
with the comparison as an argument; the definitions above are the lookups under the binary
collation. -/

namespace Collated

/-- The binary collation: two texts are equal when they are the same text. -/
def binary (a b : String) : Bool := a == b

/-- A collation without regard to the letter case of the letters a to z. -/
def caseInsensitive (a b : String) : Bool := toLower a == toLower b

/-- CheckByKey to check if node exists by node_key, the comparison being that of the
collation. -/
def CheckByKey (same : String → String → Bool) (s : Store) (nodeKey : String) : Bool :=
  let results := (s.nodes.filter (fun n => same n.NodeKey (toLower nodeKey))).length
  decide (results > 0)

/-- CheckByUUID to check if node exists by UUID, the comparison being that of the
collation. -/
def CheckByUUID (same : String → String → Bool) (s : Store) (uuid : String) : Bool :=
  let results := (s.nodes.filter (fun n => same n.UUID (toUpper uuid))).length
  decide (results > 0)

/-- GetByKey to retrieve full node object from DB, by node_key, the comparison being that of
the collation. -/
def GetByKey (same : String → String → Bool) (s : Store) (nodekey : String) :
    Except Error OsqueryNode :=
  match s.nodes.find? (fun n => same n.NodeKey (toLower nodekey)) with
  | some node => .ok node
  | none => .error .recordNotFound

/-- GetByUUID to retrieve full node object from DB, by uuid, the comparison being that of
the collation. -/
def GetByUUID (same : String → String → Bool) (s : Store) (uuid : String) :
    Except Error OsqueryNode :=
  match s.nodes.find? (fun n => same n.UUID (toUpper uuid)) with
  | some node => .ok node
  | none => .error .recordNotFound

end Collated

/-- The instant `time.Now().Add(time.Duration(hours)*time.Hour)`: the product is an int64
of nanoseconds. -/
def hoursFrom (now : Nat) (hours : Int) : Int := (now : Int) + goInt (hours * 3600000000000)

/-- GetBySelector to retrieve target nodes by selector. A selector type other than
environment and platform leaves the column name empty, and the statement is malformed. -/
def GetBySelector (s : Store) (now : Nat) (stype selector target : String) (hours : Int) :
    Except Error (List OsqueryNode) :=
  let column : Option (OsqueryNode → String) :=
    match stype with
    | "environment" => some (fun n => n.Environment)
    | "platform" => some (fun n => n.Platform)
    | _ => none
  let find (cond : OsqueryNode → Bool) : Except Error (List OsqueryNode) :=
    match column with
    | some col => .ok (s.nodes.filter (fun n => col n == selector && cond n))
    | none => .error .sql
  match target with
  | "all" => find (fun _ => true)
  | "active" => find (fun n => decide ((n.UpdatedAt : Int) > hoursFrom now hours))
  | "inactive" => find (fun n => decide ((n.UpdatedAt : Int) < hoursFrom now hours))
  | _ => .ok []

/-- Gets to retrieve all/active/inactive nodes. -/
def Gets (s : Store) (now : Nat) (target : String) (hours : Int) : List OsqueryNode :=
  match target with
  | "all" => s.nodes
  | "active" => s.nodes.filter (fun n => decide ((n.UpdatedAt : Int) > hoursFrom now hours))
  | "inactive" => s.nodes.filter (fun n => decide ((n.UpdatedAt : Int) < hoursFrom now hours))
  | _ => []

/-- GetByEnv to retrieve target nodes by environment. -/
def GetByEnv (s : Store) (now : Nat) (environment target : String) (hours : Int) :
    Except Error (List OsqueryNode) :=
  GetBySelector s now "environment" environment target hours

/-- GetByPlatform to retrieve target nodes by platform. -/
def GetByPlatform (s : Store) (now : Nat) (platform target : String) (hours : Int) :
    Except Error (List OsqueryNode) :=
  GetBySelector s now "platform" platform target hours

/-- GetAllPlatforms to get all different platform with nodes in them. When the statement
fails the function returns the empty list and no error. -/
def GetAllPlatforms (s : Store) (rowsFail : Bool) : Except Error (List String) :=
  if rowsFail then .ok []
  else .ok (s.nodes.map (fun n => n.Platform)).eraseDups

/-- The row after `Updates(data)` with a struct: every column whose field in data is not
blank takes that value, and updated_at takes the clock reading. -/
def OsqueryNode.updates (row data : OsqueryNode) (now : Nat) : OsqueryNode :=
  let str (old new : String) : String := if new = "" then old else new
  let num (old new : Nat) : Nat := if new = 0 then old else new
  { ID := num row.ID data.ID
    CreatedAt := num row.CreatedAt data.CreatedAt
    UpdatedAt := now
    NodeKey := str row.NodeKey data.NodeKey
    UUID := str row.UUID data.UUID
    Platform := str row.Platform data.Platform
    PlatformVersion := str row.PlatformVersion data.PlatformVersion
    OsqueryVersion := str row.OsqueryVersion data.OsqueryVersion
    Hostname := str row.Hostname data.Hostname
    Localname := str row.Localname data.Localname
    IPAddress := str row.IPAddress data.IPAddress
    Username := str row.Username data.Username
    OsqueryUser := str row.OsqueryUser data.OsqueryUser
    Environment := str row.Environment data.Environment
    CPU := str row.CPU data.CPU
    Memory := str row.Memory data.Memory
    HardwareSerial := str row.HardwareSerial data.HardwareSerial
    DaemonHash := str row.DaemonHash data.DaemonHash
    ConfigHash := str row.ConfigHash data.ConfigHash
    RawEnrollment := str row.RawEnrollment data.RawEnrollment
    LastStatus := num row.LastStatus data.LastStatus
    LastResult := num row.LastResult data.LastResult
    LastConfig := num row.LastConfig data.LastConfig
    LastQueryRead := num row.LastQueryRead data.LastQueryRead
    LastQueryWrite := num row.LastQueryWrite data.LastQueryWrite }

/-- The statement `DB.Model(&node).Updates(data)` with a struct: UPDATE of the row whose
primary key is that of the model value (of every row when that key is blank). When every
field of data is blank gorm issues no statement. -/
def Updates (now : Nat) (id : Nat) (data : OsqueryNode) : DB Unit :=
  DB.write (fun s =>
    if data = {} then s
    else { s with nodes := s.nodes.map (fun r =>
      if id = 0 ∨ r.ID = id then r.updates data now else r) })

/-- NewHistoryHostname to insert new entry for the history of Hostnames. -/
def NewHistoryHostname (now : Nat) (entry : NodeHistoryHostname) : DB Unit :=
  if NewRecord entry.ID then
    DB.write (fun s => { s with
      historyHostname := s.historyHostname ++ [{ entry with
        ID := s.hostnameSeq + 1
        CreatedAt := stamp entry.CreatedAt now
        UpdatedAt := stamp entry.UpdatedAt now }]
      hostnameSeq := s.hostnameSeq + 1 })
  else fun s => (.error .notNewRecord, s)

/-- NewHistoryLocalname to insert new entry for the history of Localnames. -/
def NewHistoryLocalname (now : Nat) (entry : NodeHistoryLocalname) : DB Unit :=
  if NewRecord entry.ID then
    DB.write (fun s => { s with
      historyLocalname := s.historyLocalname ++ [{ entry with
        ID := s.localnameSeq + 1
        CreatedAt := stamp entry.CreatedAt now
        UpdatedAt := stamp entry.UpdatedAt now }]
      localnameSeq := s.localnameSeq + 1 })
  else fun s => (.error .notNewRecord, s)

/-- NewHistoryUsername to insert new entry for the history of Usernames. -/
def NewHistoryUsername (now : Nat) (entry : NodeHistoryUsername) : DB Unit :=
  if NewRecord entry.ID then
    DB.write (fun s => { s with
      historyUsername := s.historyUsername ++ [{ entry with
        ID := s.usernameSeq + 1
        CreatedAt := stamp entry.CreatedAt now
        UpdatedAt := stamp entry.UpdatedAt now }]
      usernameSeq := s.usernameSeq + 1 })
  else fun s => (.error .notNewRecord, s)

/-- NewHistoryIPAddress to insert new entry for the history of IP Addresses. -/
def NewHistoryIPAddress (now : Nat) (entry : NodeHistoryIPAddress) : DB Unit :=
  if NewRecord entry.ID then
    DB.write (fun s => { s with
      historyIPAddress := s.historyIPAddress ++ [{ entry with
        ID := s.ipAddressSeq + 1
        CreatedAt := stamp entry.CreatedAt now
        UpdatedAt := stamp entry.UpdatedAt now }]
      ipAddressSeq := s.ipAddressSeq + 1 })
  else fun s => (.error .notNewRecord, s)

/-- The row that `ORDER BY updated_at, id LIMIT 1` selects: `Order("updated_at")` is
ascending, and First appends the primary key to the ordering. -/
def firstByUpdatedAt : List NodeHistoryIPAddress → Option NodeHistoryIPAddress
  | [] => none
  | e :: es =>
    match firstByUpdatedAt es with
    | none => some e
    | some m =>
      if e.UpdatedAt < m.UpdatedAt ∨ (e.UpdatedAt = m.UpdatedAt ∧ e.ID ≤ m.ID) then some e
      else some m

/-- GetHistoryIPAddress to retrieve the History IP Address record by UUID and the IP
Address. -/
def GetHistoryIPAddress (s : Store) (uuid ipaddress : String) :
    Except Error NodeHistoryIPAddress :=
  match firstByUpdatedAt
      (s.historyIPAddress.filter (fun e => e.UUID == uuid && e.IPAddress == ipaddress)) with
  | some nodeip => .ok nodeip
  | none => .error .recordNotFound

/-- IncHistoryIPAddress to increase the count for this IP Address. The update of the column
count writes updated_at as well. -/
def IncHistoryIPAddress (now : Nat) (uuid ipaddress : String) : DB Unit := do
  let nodeip ← DB.orWrap "getNodeHistoryIPAddress"
    (DB.read (fun s => GetHistoryIPAddress s uuid ipaddress))
  DB.write (fun s => { s with historyIPAddress := s.historyIPAddress.map (fun r =>
    if nodeip.ID = 0 ∨ r.ID = nodeip.ID then
      { r with Count := goInt (nodeip.Count + 1), UpdatedAt := now }
    else r) })

/-- UpdateMetadataByUUID to update node metadata by UUID. Each `if` statement of the source
is one step, which yields the struct `data` as it leaves it. This is the run in which the
database refuses no statement; `Unreliable.UpdateMetadataByUUID` below takes the refusals as
an argument. -/
def UpdateMetadataByUUID (now : Nat) (uuid : String) (metadata : NodeMetadata) : DB Unit := do
  let node ← DB.orWrap "getNodeByUUID" (DB.read (fun s => GetByUUID s uuid))
  let data : OsqueryNode := {}
  let data ←
    (if metadata.Username ≠ "" ∧ metadata.Username ≠ node.Username then do
      DB.orWrap "newNodeHistoryUsername"
        (NewHistoryUsername now { UUID := node.UUID, Username := metadata.Username })
      pure { data with Username := metadata.Username }
    else pure data)
  let data ←
    (if metadata.OsqueryUser ≠ "" ∧ metadata.OsqueryUser ≠ node.OsqueryUser then
      pure { data with OsqueryUser := metadata.OsqueryUser }
    else pure data)
  let data ←
    (if metadata.Hostname ≠ "" ∧ metadata.Hostname ≠ node.Hostname then do
      DB.orWrap "newNodeHistoryHostname"
        (NewHistoryHostname now { UUID := node.UUID, Hostname := metadata.Hostname })
      pure { data with Hostname := metadata.Hostname }
    else pure data)
  let data ←
    (if metadata.Localname ≠ "" ∧ metadata.Localname ≠ node.Localname then do
      DB.orWrap "newNodeHistoryLocalname"
        (NewHistoryLocalname now { UUID := node.UUID, Localname := metadata.Localname })
      pure { data with Localname := metadata.Localname }
    else pure data)
  let data ←
    (if metadata.IPAddress ≠ "" ∧ metadata.IPAddress ≠ node.IPAddress then do
      DB.orWrap "newNodeHistoryIPAddress"
        (NewHistoryIPAddress now
          { UUID := node.UUID, IPAddress := metadata.IPAddress, Count := 1 })
      pure { data with IPAddress := metadata.IPAddress }
    else do
      DB.orWrap "incNodeHistoryIPAddress"
        (IncHistoryIPAddress now node.UUID metadata.IPAddress)
      pure data)
  let data ←
    (if metadata.ConfigHash ≠ "" ∧ metadata.ConfigHash ≠ node.ConfigHash then
      pure { data with ConfigHash := metadata.ConfigHash }
    else pure data)
  let data ←
    (if metadata.DaemonHash ≠ "" ∧ metadata.DaemonHash ≠ node.DaemonHash then
      pure { data with DaemonHash := metadata.DaemonHash }
    else pure data)
  let data ←
    (if metadata.OsqueryVersion ≠ "" ∧ metadata.OsqueryVersion ≠ node.OsqueryVersion then
      pure { data with OsqueryVersion := metadata.OsqueryVersion }
    else pure data)
  DB.orWrap "Updates" (Updates now node.ID data)

/-! ### The update of the metadata when the database refuses a statement

Every statement of UpdateMetadataByUUID has an error return in the sources. Here the
function is repeated with, for each statement, the error with which the database refuses
it, if it does; a statement that is refused has no effect. `UpdateMetadataByUUID` above is
the run in which no statement is refused. -/

/-- A statement that the database may refuse: refused, it returns the error and leaves the
store as it is. -/
def DB.attempt {α : Type} (refused : Option Error) (m : DB α) : DB α := fun s =>
  match refused with
  | some err => (.error err, s)
  | none => m s

/-- The statements of UpdateMetadataByUUID in the order of the sources, each with the error
it is refused with: the lookup of the node, the inserts of the four history entries, the
lookup of the IP-address history entry, the update of its count, and the final update of
the node. -/
structure Refusals where
  getNode : Option Error := none
  createUsername : Option Error := none
  createHostname : Option Error := none
  createLocalname : Option Error := none
  createIPAddress : Option Error := none
  getHistoryIPAddress : Option Error := none
  updateCount : Option Error := none
  updates : Option Error := none
deriving DecidableEq, Repr

namespace Unreliable

/-- NewHistoryHostname to insert new entry for the history of Hostnames. -/
def NewHistoryHostname (refused : Option Error) (now : Nat) (entry : NodeHistoryHostname) :
    DB Unit :=
  if NewRecord entry.ID then
    DB.orWrap "Create newNodeHistoryHostname" (DB.attempt refused
      (DB.write (fun s => { s with
        historyHostname := s.historyHostname ++ [{ entry with
          ID := s.hostnameSeq + 1
          CreatedAt := stamp entry.CreatedAt now
          UpdatedAt := stamp entry.UpdatedAt now }]
        hostnameSeq := s.hostnameSeq + 1 })))
  else fun s => (.error .notNewRecord, s)

/-- NewHistoryLocalname to insert new entry for the history of Localnames. -/
def NewHistoryLocalname (refused : Option Error) (now : Nat) (entry : NodeHistoryLocalname) :
    DB Unit :=
  if NewRecord entry.ID then
    DB.orWrap "Create newNodeHistoryLocalname" (DB.attempt refused
      (DB.write (fun s => { s with
        historyLocalname := s.historyLocalname ++ [{ entry with
          ID := s.localnameSeq + 1
          CreatedAt := stamp entry.CreatedAt now
          UpdatedAt := stamp entry.UpdatedAt now }]
        localnameSeq := s.localnameSeq + 1 })))
  else fun s => (.error .notNewRecord, s)

/-- NewHistoryUsername to insert new entry for the history of Usernames. -/
def NewHistoryUsername (refused : Option Error) (now : Nat) (entry : NodeHistoryUsername) :
    DB Unit :=
  if NewRecord entry.ID then
    DB.orWrap "Create newNodeHistoryUsername" (DB.attempt refused
      (DB.write (fun s => { s with
        historyUsername := s.historyUsername ++ [{ entry with
          ID := s.usernameSeq + 1
          CreatedAt := stamp entry.CreatedAt now
          UpdatedAt := stamp entry.UpdatedAt now }]
        usernameSeq := s.usernameSeq + 1 })))
  else fun s => (.error .notNewRecord, s)

/-- NewHistoryIPAddress to insert new entry for the history of IP Addresses. The error of
the insert is returned as it is. -/
def NewHistoryIPAddress (refused : Option Error) (now : Nat) (entry : NodeHistoryIPAddress) :
    DB Unit :=
  if NewRecord entry.ID then
    DB.attempt refused
      (DB.write (fun s => { s with
        historyIPAddress := s.historyIPAddress ++ [{ entry with
          ID := s.ipAddressSeq + 1
          CreatedAt := stamp entry.CreatedAt now
          UpdatedAt := stamp entry.UpdatedAt now }]
        ipAddressSeq := s.ipAddressSeq + 1 }))
  else fun s => (.error .notNewRecord, s)

/-- IncHistoryIPAddress to increase the count for this IP Address. -/
def IncHistoryIPAddress (refusedGet refusedUpdate : Option Error) (now : Nat)
    (uuid ipaddress : String) : DB Unit := do
  let nodeip ← DB.orWrap "getNodeHistoryIPAddress"
    (DB.attempt refusedGet (DB.read (fun s => GetHistoryIPAddress s uuid ipaddress)))
  DB.orWrap "Update" (DB.attempt refusedUpdate
    (DB.write (fun s => { s with historyIPAddress := s.historyIPAddress.map (fun r =>
      if nodeip.ID = 0 ∨ r.ID = nodeip.ID then
        { r with Count := goInt (nodeip.Count + 1), UpdatedAt := now }
      else r) })))

/-- UpdateMetadataByUUID to update node metadata by UUID. Each `if` statement of the source
is one step, which yields the struct `data` as it leaves it. -/
def UpdateMetadataByUUID (r : Refusals) (now : Nat) (uuid : String)
    (metadata : NodeMetadata) : DB Unit := do
  let node ← DB.orWrap "getNodeByUUID"
    (DB.attempt r.getNode (DB.read (fun s => GetByUUID s uuid)))
  let data : OsqueryNode := {}
  let data ←
    (if metadata.Username ≠ "" ∧ metadata.Username ≠ node.Username then do
      DB.orWrap "newNodeHistoryUsername"
        (NewHistoryUsername r.createUsername now
          { UUID := node.UUID, Username := metadata.Username })
      pure { data with Username := metadata.Username }
    else pure data)
  let data ←
    (if metadata.OsqueryUser ≠ "" ∧ metadata.OsqueryUser ≠ node.OsqueryUser then
      pure { data with OsqueryUser := metadata.OsqueryUser }
    else pure data)
  let data ←
    (if metadata.Hostname ≠ "" ∧ metadata.Hostname ≠ node.Hostname then do
      DB.orWrap "newNodeHistoryHostname"
        (NewHistoryHostname r.createHostname now
          { UUID := node.UUID, Hostname := metadata.Hostname })
      pure { data with Hostname := metadata.Hostname }
    else pure data)
  let data ←
    (if metadata.Localname ≠ "" ∧ metadata.Localname ≠ node.Localname then do
      DB.orWrap "newNodeHistoryLocalname"
        (NewHistoryLocalname r.createLocalname now
          { UUID := node.UUID, Localname := metadata.Localname })
      pure { data with Localname := metadata.Localname }
    else pure data)
  let data ←
    (if metadata.IPAddress ≠ "" ∧ metadata.IPAddress ≠ node.IPAddress then do
      DB.orWrap "newNodeHistoryIPAddress"
        (NewHistoryIPAddress r.createIPAddress now
          { UUID := node.UUID, IPAddress := metadata.IPAddress, Count := 1 })
      pure { data with IPAddress := metadata.IPAddress }
    else do
      DB.orWrap "incNodeHistoryIPAddress"
        (IncHistoryIPAddress r.getHistoryIPAddress r.updateCount now node.UUID
          metadata.IPAddress)
      pure data)
  let data ←
    (if metadata.ConfigHash ≠ "" ∧ metadata.ConfigHash ≠ node.ConfigHash then
      pure { data with ConfigHash := metadata.ConfigHash }
    else pure data)
  let data ←
    (if metadata.DaemonHash ≠ "" ∧ metadata.DaemonHash ≠ node.DaemonHash then
      pure { data with DaemonHash := metadata.DaemonHash }
    else pure data)
  let data ←
    (if metadata.OsqueryVersion ≠ "" ∧ metadata.OsqueryVersion ≠ node.OsqueryVersion then
      pure { data with OsqueryVersion := metadata.OsqueryVersion }
    else pure data)
  DB.orWrap "Updates" (DB.attempt r.updates (Updates now node.ID data))

end Unreliable

/-- UpdateIPAddress to update the node IP Address. -/
def UpdateIPAddress (now : Nat) (ipaddress : String) (node : OsqueryNode) : DB Unit := do
  if ipaddress ≠ "" ∧ ipaddress ≠ node.IPAddress then
    DB.orWrap "newNodeHistoryIPAddress"
      (NewHistoryIPAddress now { UUID := node.UUID, IPAddress := ipaddress, Count := 1 })
    DB.orWrap "Updates" (Updates now node.ID { IPAddress := ipaddress })
  else
    DB.orWrap "incNodeHistoryIPAddress" (IncHistoryIPAddress now node.UUID ipaddress)
    DB.orWrap "Update" (DB.write (fun s => { s with nodes := s.nodes.map (fun r =>
      if node.ID = 0 ∨ r.ID = node.ID then { r with UpdatedAt := now } else r) }))

/-- UpdateIPAddressByUUID to update node IP Address by UUID. -/
def UpdateIPAddressByUUID (now : Nat) (ipaddress uuid : String) : DB Unit := do
  let node ← DB.orWrap "getNodeByUUID" (DB.read (fun s => GetByUUID s uuid))
  UpdateIPAddress now ipaddress node

/-- UpdateIPAddressByKey to update node IP Address by node_key. -/
def UpdateIPAddressByKey (now : Nat) (ipaddress nodekey : String) : DB Unit := do
  let node ← DB.orWrap "getNodeByKey" (DB.read (fun s => GetByKey s nodekey))
  UpdateIPAddress now ipaddress node

/-- Create to insert new osquery node generating new node_key. -/
def Create (now : Nat) (node : OsqueryNode) : DB Unit := do
  if NewRecord node.ID then
    DB.orWrap "Create" (DB.write (fun s => { s with
      nodes := s.nodes ++ [{ node with
        ID := s.nodeSeq + 1
        CreatedAt := stamp node.CreatedAt now
        UpdatedAt := stamp node.UpdatedAt now }]
      nodeSeq := s.nodeSeq + 1 }))
    DB.orWrap "newNodeHistoryHostname"
      (NewHistoryHostname now { UUID := node.UUID, Hostname := node.Hostname })
    DB.orWrap "newNodeHistoryLocalname"
      (NewHistoryLocalname now { UUID := node.UUID, Localname := node.Localname })
    DB.orWrap "newNodeHistoryIPAddress"
      (NewHistoryIPAddress now { UUID := node.UUID, IPAddress := node.IPAddress, Count := 1 })
    DB.orWrap "newNodeHistoryUsername"
      (NewHistoryUsername now { UUID := node.UUID, Username := node.Username })
  else
    fun s => (.error .notNewRecord, s)

/-- GetStatsByEnv to populate table stats about nodes by environment. -/
def GetStatsByEnv (s : Store) (now : Nat) (environment : String) (hours : Int) : StatsData :=
  let tHours := hoursFrom now hours
  { Total := (s.nodes.filter (fun n => n.Environment == environment)).length
    Active := (s.nodes.filter (fun n =>
      n.Environment == environment && decide ((n.UpdatedAt : Int) > tHours))).length
    Inactive := (s.nodes.filter (fun n =>
      n.Environment == environment && decide ((n.UpdatedAt : Int) < tHours))).length }

/-- GetStatsByPlatform to populate table stats about nodes by platform. -/
def GetStatsByPlatform (s : Store) (now : Nat) (platform : String) (hours : Int) : StatsData :=
  let tHours := hoursFrom now hours
  { Total := (s.nodes.filter (fun n => n.Platform == platform)).length
    Active := (s.nodes.filter (fun n =>
      n.Platform == platform && decide ((n.UpdatedAt : Int) > tHours))).length
    Inactive := (s.nodes.filter (fun n =>
      n.Platform == platform && decide ((n.UpdatedAt : Int) < tHours))).length }

/-- Helper to convert an enrolled osquery node into an archived osquery node. -/
def nodeArchiveFromNode (node : OsqueryNode) (trigger : String) : ArchiveOsqueryNode :=
  { NodeKey := node.NodeKey
    UUID := node.UUID
    Trigger := trigger
    Platform := node.Platform
    PlatformVersion := node.PlatformVersion
    OsqueryVersion := node.OsqueryVersion
    Hostname := node.Hostname
    Localname := node.Localname
    IPAddress := node.IPAddress
    Username := node.Username
    OsqueryUser := node.OsqueryUser
    Environment := node.Environment
    CPU := node.CPU
    Memory := node.Memory
    HardwareSerial := node.HardwareSerial
    DaemonHash := node.DaemonHash
    ConfigHash := node.ConfigHash
    RawEnrollment := node.RawEnrollment
    LastStatus := node.LastStatus
    LastResult := node.LastResult
    LastConfig := node.LastConfig
    LastQueryRead := node.LastQueryRead
    LastQueryWrite := node.LastQueryWrite }

/-- The statement `DB.Create(&archivedNode)`. The argument createErr is the error with which
the database fails the statement, if it does. -/
def createArchive (now : Nat) (createErr : Option Error) (archivedNode : ArchiveOsqueryNode) :
    DB Unit := fun s =>
  match createErr with
  | some err => (.error err, s)
  | none => (.ok (), { s with
      archive := s.archive ++ [{ archivedNode with
        ID := s.archiveSeq + 1
        CreatedAt := stamp archivedNode.CreatedAt now
        UpdatedAt := stamp archivedNode.UpdatedAt now }]
      archiveSeq := s.archiveSeq + 1 })

/-- Archive to archive osquery node by UUID. -/
def Archive (now : Nat) (createErr : Option Error) (uuid trigger : String) : DB Unit := do
  let node ← DB.orWrap "getNodeByUUID" (DB.read (fun s => GetByUUID s uuid))
  let archivedNode := nodeArchiveFromNode node trigger
  if NewRecord archivedNode.ID then
    DB.orWrap "Create" (createArchive now createErr archivedNode)
  else
    fun s => (.error .notNewRecord, s)

/-- UpdateByUUID to update an existing node record by UUID. -/
def UpdateByUUID (now : Nat) (data : OsqueryNode) (uuid : String) : DB Unit := do
  let node ← DB.orWrap "getNodeByUUID" (DB.read (fun s => GetByUUID s uuid))
  DB.orWrap "Updates" (Updates now node.ID data)

/-- The statement `DB.Unscoped().Delete(&node)`: DELETE of the row whose primary key is that
of the value (of every row when that key is blank). -/
def hardDelete (id : Nat) : DB Unit :=
  DB.write (fun s => { s with nodes := s.nodes.filter (fun r => !(id == 0 || r.ID == id)) })

/-- ArchiveDeleteByUUID to archive and delete an existing node record by UUID. -/
def ArchiveDeleteByUUID (now : Nat) (createErr : Option Error) (uuid : String) : DB Unit := do
  let node ← DB.orWrap "getNodeByUUID" (DB.read (fun s => GetByUUID s uuid))
  let archivedNode := nodeArchiveFromNode node "delete"
  (if NewRecord archivedNode.ID then
    DB.orWrap "Create" (createArchive now createErr archivedNode)
  else
    fun s => (.error .notNewRecord, s))
  DB.orWrap "Delete" (hardDelete node.ID)

/-- The statement `DB.Model(&node).Update(event, time.Now())`: the column that event names
takes the clock reading, and so does updated_at. The sources pass the names of the five
columns last_status, last_result, last_config, last_query_read and last_query_write; gorm
resolves the name of the column and the name of the Go field alike. For a name that is no
field of the struct gorm issues no statement, and the model does so for every name other
than those of the five event fields. -/
def updateEvent (now : Nat) (id : Nat) (event : String) : DB Unit :=
  let set (f : OsqueryNode → OsqueryNode) : DB Unit :=
    DB.write (fun s => { s with nodes := s.nodes.map (fun r =>
      if id = 0 ∨ r.ID = id then f r else r) })
  match event with
  | "last_status" => set (fun r => { r with LastStatus := now, UpdatedAt := now })
  | "LastStatus" => set (fun r => { r with LastStatus := now, UpdatedAt := now })
  | "last_result" => set (fun r => { r with LastResult := now, UpdatedAt := now })
  | "LastResult" => set (fun r => { r with LastResult := now, UpdatedAt := now })
  | "last_config" => set (fun r => { r with LastConfig := now, UpdatedAt := now })
  | "LastConfig" => set (fun r => { r with LastConfig := now, UpdatedAt := now })
  | "last_query_read" => set (fun r => { r with LastQueryRead := now, UpdatedAt := now })
  | "LastQueryRead" => set (fun r => { r with LastQueryRead := now, UpdatedAt := now })
  | "last_query_write" => set (fun r => { r with LastQueryWrite := now, UpdatedAt := now })
  | "LastQueryWrite" => set (fun r => { r with LastQueryWrite := now, UpdatedAt := now })
  | _ => DB.write (fun s => s)

/-- RefreshLastEventByUUID to refresh the last status log for this node. -/
def RefreshLastEventByUUID (now : Nat) (uuid event : String) : DB Unit := do
  let node ← DB.orWrap "getNodeByUUID" (DB.read (fun s => GetByUUID s uuid))
  DB.orWrap "Update" (updateEvent now node.ID event)

/-- RefreshLastEventByKey to refresh the last status log for this node. -/
def RefreshLastEventByKey (now : Nat) (nodeKey event : String) : DB Unit := do
  let node ← DB.read (fun s => GetByKey s nodeKey)
  DB.orWrap "Update" (updateEvent now node.ID event)

/-- RefreshLastStatus to refresh the last status log for this node. -/
def RefreshLastStatus (now : Nat) (uuid : String) : DB Unit :=
  RefreshLastEventByUUID now uuid "last_status"

/-- RefreshLastResult to refresh the last result log for this node. -/
def RefreshLastResult (now : Nat) (uuid : String) : DB Unit :=
  RefreshLastEventByUUID now uuid "last_result"

/-- RefreshLastConfig to refresh the last configuration for this node. -/
def RefreshLastConfig (now : Nat) (nodeKey : String) : DB Unit :=
  RefreshLastEventByKey now nodeKey "last_config"

/-- RefreshLastQueryRead to refresh the last on-demand query read for this node. -/
def RefreshLastQueryRead (now : Nat) (nodeKey : String) : DB Unit :=
  RefreshLastEventByKey now nodeKey "last_query_read"

/-- RefreshLastQueryWrite to refresh the last on-demand query write for this node. -/
def RefreshLastQueryWrite (now : Nat) (uuid : String) : DB Unit :=
  RefreshLastEventByUUID now uuid "last_query_write"

/-! ### A node and its history -/

/-- A node record as the enrollment handler builds it, before it is stored. -/
def sampleNode : OsqueryNode :=
  { NodeKey := "k1", UUID := "N1", Platform := "ubuntu", Hostname := "host1",
    Localname := "host1.local", IPAddress := "10.0.0.1", Username := "alice",
    Environment := "prod" }

/-- The registry after Create(sampleNode) at instant 100 on the empty store. -/
def sampleEnrolled : Store := (Create 100 sampleNode {}).2

/-- The registry after the address of N1 changed to 10.0.0.2 at instant 200 and back to
10.0.0.1 at instant 300. -/
def sampleRoamed : Store :=
  (UpdateMetadataByUUID 300 "N1" { IPAddress := "10.0.0.1" }
    (UpdateMetadataByUUID 200 "N1" { IPAddress := "10.0.0.2" } sampleEnrolled).2).2

/-- The row of N1 as Create stored it. -/
def sampleStored : OsqueryNode := { sampleNode with ID := 1, CreatedAt := 100, UpdatedAt := 100 }

/-- Report of N1 at instant 200: a new hostname, the address unchanged. -/
def sampleReport : NodeMetadata := { Hostname := "host2", IPAddress := "10.0.0.1" }

/-- The registry after N1 has sent the report. -/
def sampleRenamed : Store := (UpdateMetadataByUUID 200 "N1" sampleReport sampleEnrolled).2

/-- The registry after a second Create of the same record at instant 150: two rows carry
the UUID N1. -/
def sampleTwins : Store := (Create 150 sampleNode sampleEnrolled).2

/-- A node record whose UUID and node key are not in the case the lookups expect. -/
def sampleMixedCase : OsqueryNode :=
  { NodeKey := "K2", UUID := "n2", Platform := "darwin", Hostname := "host2",
    Environment := "dev" }

end Nodes

/-! ## Query store (src/pkg/queries/queries.go) -/

namespace Queries

open Nodes

/-- QueryTargetPlatform defines platform as target. -/
def QueryTargetPlatform : String := "platform"

/-- QueryTargetLocalname defines localname as target. -/
def QueryTargetLocalname : String := "localname"

/-- QueryTargetContext defines context as target. -/
def QueryTargetContext : String := "context"

/-- QueryTargetUUID defines uuid as target. -/
def QueryTargetUUID : String := "uuid"

/-- StandardQueryType defines a regular query. -/
def StandardQueryType : String := "query"

/-- CarveQueryType defines a carve query. -/
def CarveQueryType : String := "carve"

/-- MetadataQueryType defines a metadata query. -/
def MetadataQueryType : String := "metadata"

/-- DistributedQuery as abstraction of a distributed query (field Type is spelled Type_). -/
structure DistributedQuery where
  ID : Nat := 0
  Name : String := ""
  Creator : String := ""
  Query : String := ""
  Executions : Int := 0
  Errors : Int := 0
  Active : Bool := false
  Completed : Bool := false
  Deleted : Bool := false
  Repeat : Nat := 0
  Type_ : String := ""
  File : String := ""
deriving DecidableEq, Repr

/-- DistributedQueryTarget to keep target logic for queries. -/
structure DistributedQueryTarget where
  ID : Nat := 0
  Name : String := ""
  Type_ : String := ""
  Value : String := ""
deriving DecidableEq, Repr

/-- DistributedQueryExecution to keep track of queries executing. -/
structure DistributedQueryExecution where
  ID : Nat := 0
  Name : String := ""
  UUID : String := ""
  Result : Int := 0
deriving DecidableEq, Repr

/-- QueryReadQueries to hold the on-demand queries: query name to query text. -/
abbrev QueryReadQueries := GoMap String

/-- The three tables behind `Queries.DB`, each with its auto-increment counter. -/
structure Store where
  queries : List DistributedQuery := []
  targets : List DistributedQueryTarget := []
  executions : List DistributedQueryExecution := []
  querySeq : Nat := 0
  targetSeq : Nat := 0
  executionSeq : Nat := 0
deriving DecidableEq, Repr

/-- Errors returned by the functions of the query store. -/
inductive Error where
  /-- The error gorm.ErrRecordNotFound. -/
  | recordNotFound
  /-- The error "db.NewRecord did not return true". -/
  | notNewRecord
  /-- The insert is refused by the unique index on the column name. -/
  | duplicateEntry
deriving DecidableEq, Repr

/-- The check `DB.NewRecord(value)`: the primary key of the value is blank. -/
def NewRecord (id : Nat) : Bool := id == 0

/-- Schema invariant of the table of queries: primary keys are distinct, positive and were
handed out by the counter, and names are distinct (gorm tag `unique` on Name). -/
def Store.WF (s : Store) : Prop :=
  (s.queries.map (fun q => q.ID)).Nodup ∧ (s.queries.map (fun q => q.Name)).Nodup ∧
    ∀ q ∈ s.queries, 0 < q.ID ∧ q.ID ≤ s.querySeq

instance (s : Store) : Decidable s.WF := by
  unfold Store.WF
  infer_instance

/-- Gets all queries by target (active/completed/all/deleted). -/
def Gets (s : Store) (target : String) : List DistributedQuery :=
  match target with
  | "active" =>
    s.queries.filter (fun q => q.Active == true && q.Completed == false && q.Deleted == false)
  | "completed" =>
    s.queries.filter (fun q => q.Active == false && q.Completed == true && q.Deleted == false)
  | "all" => s.queries.filter (fun q => q.Deleted == false)
  | "deleted" => s.queries.filter (fun q => q.Deleted == true)
  | _ => []

/-- Get to get a query by name: `Where("name = ?", name).Find(&query)` scans every matching
row into the one destination struct, so the last row read is returned, and no row read is
gorm.ErrRecordNotFound. -/
def Get (s : Store) (name : String) : Except Error DistributedQuery :=
  match (s.queries.filter (fun q => q.Name == name)).getLast? with
  | some query => .ok query
  | none => .error .recordNotFound

/-- The statement `DB.Model(&query).Updates(...)`: UPDATE of the row whose primary key is
that of the model value; gorm leaves the condition out when that primary key is blank. -/
def updateQuery (s : Store) (id : Nat) (f : DistributedQuery → DistributedQuery) : Store :=
  { s with queries := s.queries.map (fun q => if id = 0 ∨ q.ID = id then f q else q) }

/-- Complete to mark query as completed. -/
def Complete (s : Store) (name : String) : Except Error Store :=
  match Get s name with
  | .error err => .error err
  | .ok query => .ok (updateQuery s query.ID (fun q => { q with Completed := true, Active := false }))

/-- Activate to mark query as active. -/
def Activate (s : Store) (name : String) : Except Error Store :=
  match Get s name with
  | .error err => .error err
  | .ok query => .ok (updateQuery s query.ID (fun q => { q with Completed := false, Active := true }))

/-- Delete to mark query as deleted. -/
def Delete (s : Store) (name : String) : Except Error Store :=
  match Get s name with
  | .error err => .error err
  | .ok query => .ok (updateQuery s query.ID (fun q => { q with Deleted := true, Active := false }))

/-- Create to create new query to be served to nodes. -/
def Create (s : Store) (query : DistributedQuery) : Except Error Store :=
  if NewRecord query.ID then
    if s.queries.any (fun q => q.Name == query.Name) then .error .duplicateEntry
    else .ok { s with
      queries := s.queries ++ [{ query with ID := s.querySeq + 1 }]
      querySeq := s.querySeq + 1 }
  else .error .notNewRecord

/-- CreateTarget to create target entry for a given query. -/
def CreateTarget (s : Store) (name targetType targetValue : String) : Except Error Store :=
  let queryTarget : DistributedQueryTarget := { Name := name, Type_ := targetType, Value := targetValue }
  if NewRecord queryTarget.ID then
    .ok { s with
      targets := s.targets ++ [{ queryTarget with ID := s.targetSeq + 1 }]
      targetSeq := s.targetSeq + 1 }
  else .error .notNewRecord

/-- GetTargets to retrieve targets for a given query. -/
def GetTargets (s : Store) (name : String) : List DistributedQueryTarget :=
  s.targets.filter (fun t => t.Name == name)

/-- NotYetExecuted to check if query already executed. -/
def NotYetExecuted (s : Store) (name uuid : String) : Bool :=
  let results := (s.executions.filter (fun e => e.Name == name && e.UUID == uuid)).length
  results == 0

/-- IncExecution to increase the execution count for this query. -/
def IncExecution (s : Store) (name : String) : Except Error Store :=
  match Get s name with
  | .error err => .error err
  | .ok query =>
    .ok (updateQuery s query.ID (fun q => { q with Executions := goInt (query.Executions + 1) }))

/-- IncError to increase the error count for this query. -/
def IncError (s : Store) (name : String) : Except Error Store :=
  match Get s name with
  | .error err => .error err
  | .ok query =>
    .ok (updateQuery s query.ID (fun q => { q with Errors := goInt (query.Errors + 1) }))

/-- TrackExecution to keep track of where queries have already ran. -/
def TrackExecution (s : Store) (name uuid : String) (result : Int) : Except Error Store :=
  let queryExecution : DistributedQueryExecution := { Name := name, UUID := uuid, Result := result }
  if NewRecord queryExecution.ID then
    .ok { s with
      executions := s.executions ++ [{ queryExecution with ID := s.executionSeq + 1 }]
      executionSeq := s.executionSeq + 1 }
  else .error .notNewRecord

/-- NodeQueries to get all queries that belong to the provided node. The helper
`isQueryTarget`, which the function calls and which another file of the package declares,
is its first argument. -/
def NodeQueries (isQueryTarget : OsqueryNode → List DistributedQueryTarget → Bool)
    (s : Store) (node : OsqueryNode) : QueryReadQueries :=
  (Gets s "active").foldl
    (fun qs q =>
      let targets := GetTargets s q.Name
      if isQueryTarget node targets && NotYetExecuted s q.Name node.UUID then
        qs.set q.Name q.Query
      else qs)
    []

/-- Modelled from the spec: the target kind for environments. src/pkg/queries/queries.go
declares no such constant (it has QueryTargetContext); the handlers refer to it as
queries.QueryTargetEnvironment and the spec names the kind `environment`. -/
def QueryTargetEnvironment : String := "environment"

/-- Modelled from the spec: the helper isQueryTarget of package queries, missing from the
sources. Section 4.3 of the spec: "A query matches the node if any target satisfies:
(kind=uuid and value=node.UUID) or (kind=environment and value=node.Environment) or
(kind=platform and value=node.Platform) or (kind=localname and (value=node.Hostname or
value=node.Localname))". -/
def isQueryTarget (node : OsqueryNode) (targets : List DistributedQueryTarget) : Bool :=
  targets.any (fun t =>
    (t.Type_ == QueryTargetUUID && t.Value == node.UUID) ||
    (t.Type_ == QueryTargetEnvironment && t.Value == node.Environment) ||
    (t.Type_ == QueryTargetPlatform && t.Value == node.Platform) ||
    (t.Type_ == QueryTargetLocalname && (t.Value == node.Hostname || t.Value == node.Localname)))

/-- A call of one of the mutating functions of the query store. -/
inductive Op where
  | Create (query : DistributedQuery)
  | CreateTarget (name targetType targetValue : String)
  | Activate (name : String)
  | Complete (name : String)
  | Delete (name : String)
  | IncExecution (name : String)
  | IncError (name : String)
  | TrackExecution (name uuid : String) (result : Int)
deriving DecidableEq, Repr

/-- Result of the call on the store: the new store, or the error it returns. -/
def Op.call (s : Store) : Op → Except Error Store
  | .Create query => Queries.Create s query
  | .CreateTarget name targetType targetValue => Queries.CreateTarget s name targetType targetValue
  | .Activate name => Queries.Activate s name
  | .Complete name => Queries.Complete s name
  | .Delete name => Queries.Delete s name
  | .IncExecution name => Queries.IncExecution s name
  | .IncError name => Queries.IncError s name
  | .TrackExecution name uuid result => Queries.TrackExecution s name uuid result

/-- Store after the call: a call that returns an error has written nothing. -/
def step (s : Store) (op : Op) : Store :=
  match op.call s with
  | .ok s1 => s1
  | .error _ => s

/-- Store after a sequence of calls. -/
def run (s : Store) (ops : List Op) : Store := ops.foldl step s

/-! ### The scenario of the spec: query Q1 for environment prod, nodes N1 (prod), N2 (staging) -/

/-- Query Q1 as stored. -/
def scenarioQ1 : DistributedQuery :=
  { ID := 1, Name := "Q1", Creator := "admin", Query := "SELECT 1;", Active := true,
    Type_ := StandardQueryType }

/-- Store holding Q1 with the single target (environment, prod) and no execution record. -/
def scenarioStore : Store :=
  { queries := [scenarioQ1]
    targets := [{ ID := 1, Name := "Q1", Type_ := QueryTargetEnvironment, Value := "prod" }]
    querySeq := 1
    targetSeq := 1 }

/-- Node N1 of environment prod. -/
def scenarioN1 : OsqueryNode :=
  { ID := 1, NodeKey := "k1", UUID := "N1", Platform := "ubuntu", Hostname := "host1",
    Localname := "host1.local", Environment := "prod" }

/-- Node N2 of environment staging. -/
def scenarioN2 : OsqueryNode :=
  { ID := 2, NodeKey := "k2", UUID := "N2", Platform := "ubuntu", Hostname := "host2",
    Localname := "host2.local", Environment := "staging" }

/-- The scenario store after node N1 has reported a result for Q1 with code 0. -/
def scenarioTracked : Store :=
  { scenarioStore with
    executions := [{ ID := 1, Name := "Q1", UUID := "N1", Result := 0 }]
    executionSeq := 1 }

/-- The store after the same result has been reported a second time, with code 7. -/
def scenarioTrackedTwice : Store :=
  { scenarioStore with
    executions := [{ ID := 1, Name := "Q1", UUID := "N1", Result := 0 },
      { ID := 2, Name := "Q1", UUID := "N1", Result := 7 }]
    executionSeq := 2 }

/-! ### Further states of the query table -/

/-- A query as the zero value of its flags leaves it: neither active, completed nor deleted. -/
def scenarioDraft : DistributedQuery := { Name := "Q0", Query := "SELECT 1;" }

/-- Row of Q1 with the executions counter at the largest int. -/
def scenarioSaturated : Store :=
  { queries := [{ scenarioQ1 with ID := 1, Executions := 9223372036854775807 }], querySeq := 1 }

/-- Store in which Q1 was deleted. -/
def scenarioDeleted : Store :=
  { scenarioStore with queries := scenarioStore.queries.map (fun r =>
      if r.Name = "Q1" then { r with Deleted := true, Active := false } else r) }

end Queries

/-! ## Users (src/users/users.go) -/

namespace Users

/-- EnvPermissions to hold permissions for environments. -/
abbrev EnvPermissions := GoMap Bool

/-- UserPermissions to abstract the permissions for a user. -/
structure UserPermissions where
  Environments : EnvPermissions := []
  Query : Bool := false
  Carve : Bool := false
deriving DecidableEq, Repr

/-- The stored column Permissions (postgres.Jsonb, a raw JSON message). The sources only
ever hand these bytes to json.Unmarshal with a UserPermissions destination and write them
with json.Marshal of a UserPermissions, so the bytes are represented by what json.Unmarshal
makes of them. -/
inductive Jsonb where
  /-- Bytes that json.Unmarshal decodes to the given permissions. -/
  | json (perms : UserPermissions)
  /-- Bytes that json.Unmarshal rejects. -/
  | malformed (raw : String)
deriving DecidableEq, Repr

/-- AdminUser to hold all users. Instants are seconds counted from the zero time.Time. -/
structure AdminUser where
  ID : Nat := 0
  Username : String := ""
  Email : String := ""
  Fullname : String := ""
  PassHash : String := ""
  APIToken : String := ""
  TokenExpire : Nat := 0
  Admin : Bool := false
  CSRFToken : String := ""
  Permissions : Jsonb := .malformed ""
  LastIPAddress : String := ""
  LastUserAgent : String := ""
  LastAccess : Nat := 0
  LastTokenUse : Nat := 0
deriving DecidableEq, Repr

/-- The table admin_users behind `UserManager.DB`, with its auto-increment counter. -/
structure Store where
  users : List AdminUser := []
  userSeq : Nat := 0
deriving DecidableEq, Repr

/-- Errors returned by the functions of the user manager. -/
inductive Error where
  /-- The error gorm.ErrRecordNotFound, also when wrapped as "error getting user". -/
  | recordNotFound
  /-- The error "db.NewRecord did not return true". -/
  | notNewRecord
  /-- The error "... already exists" of New. -/
  | alreadyExists
  /-- The error "error parsing permissions". -/
  | parsingPermissions
  /-- The error of bcrypt.GenerateFromPassword. -/
  | hashing
deriving DecidableEq, Repr

/-- The call json.Marshal(permissions). -/
def jsonMarshal (permissions : UserPermissions) : Jsonb := .json permissions

/-- The call json.Unmarshal(raw, &perms). -/
def jsonUnmarshal (raw : Jsonb) : Except Error UserPermissions :=
  match raw with
  | .json perms => .ok perms
  | .malformed _ => .error .parsingPermissions

/-- Get user by username: `Where("username = ?", username).First(&user)`, the matching row
of lowest primary key. -/
def Get (s : Store) (username : String) : Except Error AdminUser :=
  match s.users.find? (fun u => u.Username == username) with
  | some user => .ok user
  | none => .error .recordNotFound

/-- The statement `DB.Model(&user).Update(...)`: UPDATE of the row whose primary key is that
of the model value; gorm leaves the condition out when that primary key is blank. -/
def updateUser (s : Store) (id : Nat) (f : AdminUser → AdminUser) : Store :=
  { s with users := s.users.map (fun u => if id = 0 ∨ u.ID = id then f u else u) }

/-- Create new user. -/
def Create (s : Store) (user : AdminUser) : Except Error Store :=
  if Queries.NewRecord user.ID then
    .ok { s with
      users := s.users ++ [{ user with ID := s.userSeq + 1 }]
      userSeq := s.userSeq + 1 }
  else .error .notNewRecord

/-- Exists checks if user exists. -/
def Exists (s : Store) (username : String) : Bool :=
  let results := (s.users.filter (fun u => u.Username == username)).length
  decide (results > 0)

/-- ExistsGet checks if user exists and returns the user. -/
def ExistsGet (s : Store) (username : String) : Bool × AdminUser :=
  match Get s username with
  | .error _ => (false, {})
  | .ok user => (true, user)

/-- IsAdmin checks if user is an admin. -/
def IsAdmin (s : Store) (username : String) : Bool :=
  let results := (s.users.filter (fun u => u.Username == username && u.Admin == true)).length
  decide (results > 0)

/-- ChangeAdmin to modify the admin setting for a user. -/
def ChangeAdmin (s : Store) (username : String) (admin : Bool) : Except Error Store :=
  match Get s username with
  | .error err => .error err
  | .ok user =>
    if admin != user.Admin then .ok (updateUser s user.ID (fun u => { u with Admin := admin }))
    else .ok s

/-- GenPermissions to generate the struct with empty permissions (users.go). -/
def GenPermissions (environments : List String) (level : Bool) : UserPermissions :=
  let envs : EnvPermissions := environments.foldl (fun envs e => GoMap.set envs e level) []
  { Environments := envs, Query := level, Carve := level }

/-- ChangePermissions for setting user permissions by username. -/
def ChangePermissions (s : Store) (username : String) (permissions : UserPermissions) :
    Except Error Store :=
  match Get s username with
  | .error err => .error err
  | .ok user =>
    let rawPerms := jsonMarshal permissions
    .ok (updateUser s user.ID (fun u => { u with Permissions := rawPerms }))

/-- GetPermissions to extract permissions by username. -/
def GetPermissions (s : Store) (username : String) : Except Error UserPermissions :=
  match Get s username with
  | .error err => .error err
  | .ok user => jsonUnmarshal user.Permissions

/-- ConvertPermissions to convert from stored Jsonb to struct. -/
def ConvertPermissions (raw : Jsonb) : Except Error UserPermissions :=
  jsonUnmarshal raw

/-- New empty user. The result of HashPasswordWithSalt (bcrypt) is an argument. -/
def New (s : Store) (passhash : Except Error String)
    (username email fullname : String) (admin : Bool) : Except Error AdminUser :=
  if !Exists s username then
    match passhash with
    | .error err => .error err
    | .ok passhash =>
      let permsRaw := jsonMarshal (GenPermissions [] admin)
      .ok { Username := username, PassHash := passhash, Admin := admin,
            Permissions := permsRaw, Email := email, Fullname := fullname }
  else .error .alreadyExists

/-- Delete user by username: `Unscoped().Delete(&user)`, a hard delete by primary key; gorm
leaves the condition out when that primary key is blank. -/
def Delete (s : Store) (username : String) : Except Error Store :=
  match Get s username with
  | .error err => .error err
  | .ok user =>
    .ok { s with users := s.users.filter (fun u => !(user.ID == 0 || u.ID == user.ID)) }

/-- UpdateToken for user by username: `Updates(AdminUser{...})` writes the non-zero fields
of the struct. -/
def UpdateToken (s : Store) (username token : String) (exp : Nat) : Except Error Store :=
  match Get s username with
  | .error err => .error err
  | .ok user =>
    if token != user.APIToken then
      .ok (updateUser s user.ID (fun u =>
        { u with
          APIToken := if token = "" then u.APIToken else token
          TokenExpire := if exp = 0 then u.TokenExpire else exp }))
    else .ok s

/-- ChangeEmail for user by username. -/
def ChangeEmail (s : Store) (username email : String) : Except Error Store :=
  match Get s username with
  | .error err => .error err
  | .ok user =>
    if email != user.Email then .ok (updateUser s user.ID (fun u => { u with Email := email }))
    else .ok s

/-- ChangeFullname for user by username. -/
def ChangeFullname (s : Store) (username fullname : String) : Except Error Store :=
  match Get s username with
  | .error err => .error err
  | .ok user =>
    if fullname != user.Fullname then
      .ok (updateUser s user.ID (fun u => { u with Fullname := fullname }))
    else .ok s

end Users

/-! ## Permissions (src/users/permissions.go) -/

namespace Permissions

open Users

/-- AccessLevel as abstraction of level of access for a user: a Go int. -/
abbrev AccessLevel := Int

/-- AdminLevel for admin privileges. -/
def AdminLevel : AccessLevel := 0

/-- QueryLevel for query privileges. -/
def QueryLevel : AccessLevel := 1

/-- CarveLevel for carve privileges. -/
def CarveLevel : AccessLevel := 2

/-- EnvLevel for environment privileges. -/
def EnvLevel : AccessLevel := 3

/-- NoEnvironment to be explicit when used. -/
def NoEnvironment : String := ""

/-- GenPermissions to generate the struct with empty permissions (permissions.go). -/
def GenPermissions (environments : List String) (level : Bool) : UserPermissions :=
  let envs : EnvPermissions := environments.foldl (fun envs e => GoMap.set envs e level) []
  let perms : UserPermissions := { Environments := envs, Query := level, Carve := level }
  perms

/-- ConvertPermissions to convert from stored Jsonb to struct (permissions.go). -/
def ConvertPermissions (raw : Jsonb) : Except Error UserPermissions :=
  jsonUnmarshal raw

/-- CheckPermissions to verify access for a username. -/
def CheckPermissions (s : Store) (username : String) (level : AccessLevel)
    (environment : String) : Bool :=
  let (exist, user) := ExistsGet s username
  if !exist then false
  else if user.Admin then true
  else
    match ConvertPermissions user.Permissions with
    | .error _ => false
    | .ok perms =>
      if level = QueryLevel then perms.Query
      else if level = CarveLevel then perms.Carve
      else if level = EnvLevel then (GoMap.get? perms.Environments environment).getD false
      else false

/-! ### Sample users -/

/-- Admin whose stored permissions do not parse. -/
def sampleRoot : AdminUser :=
  { ID := 1, Username := "root", Admin := true, Permissions := .malformed "not json" }

/-- Non-admin with query access and access to environment dev only. -/
def sampleAnalyst : AdminUser :=
  { ID := 2, Username := "analyst", Admin := false,
    Permissions := .json { Environments := [("dev", true), ("prod", false)], Query := true } }

/-- Non-admin holding GenPermissions(["prod","dev"], true). -/
def sampleOperator : AdminUser :=
  { ID := 3, Username := "operator", Admin := false,
    Permissions := .json (GenPermissions ["prod", "dev"] true) }

/-- User table with the three sample users. -/
def sampleUsers : Store :=
  { users := [sampleRoot, sampleAnalyst, sampleOperator], userSeq := 3 }

/-- Non-admin whose stored permissions do not parse. -/
def sampleGuest : AdminUser :=
  { ID := 4, Username := "guest", Admin := false, Permissions := .malformed "\x7b" }

end Permissions

/-! ## Administrative POST handlers (src/admin/handlers/post.go)

A handler is modelled as a run against its collaborators. The user manager is the one of
src/users and works on the user table; every other collaborator (query store, node
registry, environments, settings, tags, carves) is seen through the calls made to it: each
mutating call is recorded with its arguments, and what a collaborator answers is given by
the value `HandlersAdmin`, as a function of the calls made so far in the request. Debug
logging is left out. -/

namespace Handlers

open Users Permissions Nodes Queries

/-- The fields of environments.TLSEnvironment that the handlers read or write (the type is
declared in package environments). -/
structure TLSEnvironment where
  Name : String := ""
  Hostname : String := ""
  Icon : String := ""
  Type_ : String := ""
  Configuration : String := ""
  Flags : String := ""
deriving DecidableEq, Repr

/-- A call made by a handler: the permission check, the outputs of the handler (metrics and
HTTP response) and the mutating calls on the collaborators. -/
inductive Call where
  | Inc (metric : String)
  | adminErrorResponse (msg : String) (status : Nat)
  | adminOKResponse (msg : String)
  | HTTPResponse (status : Nat) (msg : String)
  | UsersCheckPermissions (username : String) (level : AccessLevel) (environment : String)
  | QueriesCreate (query : DistributedQuery)
  | QueriesCreateTarget (name targetType targetValue : String)
  | QueriesSetExpected (name : String) (expected : Nat)
  | QueriesDelete (name : String)
  | QueriesComplete (name : String)
  | QueriesActivate (name : String)
  | CarvesDelete (id : String)
  | EnvsUpdateConfiguration (environment configuration : String)
  | EnvsUpdateIntervals (environment : String) (config log query : Int)
  | EnvsUpdateFlags (environment flags : String)
  | EnvsExpireEnroll (environment : String)
  | EnvsRotateEnrollPath (environment : String)
  | EnvsExpireRemove (environment : String)
  | EnvsRotateRemove (environment : String)
  | EnvsCreate (env : TLSEnvironment)
  | EnvsDelete (name : String)
  | EnvsChangeDebugHTTP (name : String) (debug : Bool)
  | EnvsUpdateCertificate (environment certificate : String)
  | NodesArchiveDeleteByUUID (uuid : String)
  | SettingsNewBooleanValue (service name : String) (value : Bool)
  | SettingsNewIntegerValue (service name : String) (value : Int)
  | SettingsNewStringValue (service name value : String)
  | SettingsSetBoolean (value : Bool) (service name : String)
  | SettingsSetInteger (value : Int) (service name : String)
  | SettingsSetString (value service name : String) (json : Bool)
  | SettingsDeleteValue (service name : String)
  | UsersCreate (user : AdminUser)
  | UsersChangePermissions (username : String) (permissions : UserPermissions)
  | UsersUpdateToken (username token : String) (exp : Nat)
  | UsersChangeFullname (username fullname : String)
  | UsersChangeEmail (username email : String)
  | UsersDelete (username : String)
  | UsersChangeAdmin (username : String) (admin : Bool)
  | TagsNewTag (name description color icon : String)
  | TagsChangeDescription (name description : String)
  | TagsChangeIcon (name icon : String)
  | TagsChangeColor (name color : String)
  | TagsDelete (name : String)
  | TagsUntagNode (tag : String) (node : OsqueryNode)
  | TagsTagNode (tag : String) (node : OsqueryNode)
deriving DecidableEq, Repr

/-- Whether the call writes to the query store, the node registry, the user store, the
environments, the settings, the tags or the carves. -/
def Call.mutating : Call → Bool
  | .Inc _ => false
  | .adminErrorResponse _ _ => false
  | .adminOKResponse _ => false
  | .HTTPResponse _ _ => false
  | .UsersCheckPermissions _ _ _ => false
  | _ => true

/-- What a run of a handler, or of a part of it, leaves behind. -/
structure Result (α : Type) where
  /-- Value handed to the rest of the handler; none when the handler has returned. -/
  value : Option α
  /-- The user table afterwards. -/
  users : Users.Store
  /-- The calls made, oldest first. -/
  calls : List Call

/-- A part of a handler: run on a user table, after the calls `past` of the same request. -/
def H (α : Type) : Type := Users.Store → List Call → Result α

/-- A part that only computes a value. -/
def H.pure {α : Type} (a : α) : H α := fun us _ => { value := some a, users := us, calls := [] }

/-- Sequencing: the second part runs unless the first one made the handler return. -/
def H.bind {α β : Type} (m : H α) (f : α → H β) : H β := fun us past =>
  let r := m us past
  match r.value with
  | none => { value := none, users := r.users, calls := r.calls }
  | some a =>
    let r2 := f a r.users (past ++ r.calls)
    { value := r2.value, users := r2.users, calls := r.calls ++ r2.calls }

instance : Monad H where
  pure := H.pure
  bind := H.bind

/-- The statement `return` of a handler. -/
def halt {α : Type} : H α := fun us _ => { value := none, users := us, calls := [] }

/-- A recorded call whose result the handler does not use. -/
def call (c : Call) : H Unit := fun us _ => { value := some (), users := us, calls := [c] }

/-- A read of a collaborator: its answer may depend on the calls made so far. -/
def ask {α : Type} (f : List Call → α) : H α :=
  fun us past => { value := some (f past), users := us, calls := [] }

/-- A read of the user table. -/
def askUsers {α : Type} (f : Users.Store → α) : H α :=
  fun us _ => { value := some (f us), users := us, calls := [] }

/-- A mutating call on the user manager of src/users; the value is `err != nil`. -/
def usersCall (c : Call) (f : Users.Store → Except Users.Error Users.Store) : H Bool :=
  fun us _ =>
    match f us with
    | .ok us1 => { value := some false, users := us1, calls := [c] }
    | .error _ => { value := some true, users := us, calls := [c] }

/-- The short-circuit conjunction `b && m()`. -/
def andThen (b : Bool) (m : H Bool) : H Bool := if b then m else Pure.pure false

/-- The short-circuit disjunction `b || m()`. -/
def orElse (b : Bool) (m : H Bool) : H Bool := if b then Pure.pure true else m

/-- Metric names of the admin service. -/
def metricAdminReq : String := "admin-req"

/-- Metric of failed requests. -/
def metricAdminErr : String := "admin-err"

/-- Metric of served requests. -/
def metricAdminOK : String := "admin-ok"

/-- The block `adminErrorResponse(w, msg, status, err); h.Inc(metricAdminErr); return`. -/
def fail {α : Type} (msg : String) (status : Nat) : H α := do
  call (.adminErrorResponse msg status)
  call (.Inc metricAdminErr)
  halt

/-- The block "Check permissions" of a handler: CheckPermissions of src/users on the user
table for the given user, level and environment, and on refusal the response 403 and
return. -/
def authorize (user : String) (level : AccessLevel) (environment : String) : H Unit := do
  call (.UsersCheckPermissions user level environment)
  if !(← askUsers (fun us => CheckPermissions us user level environment)) then
    fail (user ++ " has insuficient permissions") 403

/-- The block "Parse request JSON body": none stands for a body that does not decode. -/
def decode {α : Type} (body : Option α) : H α :=
  match body with
  | some v => Pure.pure v
  | none => fail "error parsing POST body" 500

/-- Session context of the request: ctx[CtxUser] and ctx[CtxCSRF]. -/
structure ContextValue where
  user : String := ""
  csrftoken : String := ""
deriving DecidableEq, Repr

/-- The collaborators of the handlers other than the user manager, and the helpers that
post.go calls and other files of package handlers declare. An answer is a function of the
calls made so far in the request; none stands for a returned error. -/
structure HandlersAdmin where
  CheckCSRFToken : String → String → Bool
  SettingsInactiveHours : List Call → Int
  SettingsDefaultEnv : List Call → String
  SettingsVerifyType : List Call → String → Bool
  TypeBoolean : String
  TypeInteger : String
  TypeString : String
  EnvsExists : List Call → String → Bool
  EnvsNames : List Call → Option (List String)
  EnvsEmpty : String → String → TLSEnvironment
  EnvsGenerateFlagsEnv : List Call → String → Option String
  GenerateFlags : TLSEnvironment → Option String
  ReadExternalFile : String → String
  emptyConfiguration : String
  NodesGetByEnv : List Call → String → String → Int → Option (List OsqueryNode)
  NodesGetByPlatform : List Call → String → String → Int → Option (List OsqueryNode)
  NodesGetAllPlatforms : List Call → List String
  NodesCheckByUUID : List Call → String → Bool
  NodesCheckByHost : List Call → String → Bool
  NodesGetByUUID : List Call → String → Option OsqueryNode
  TagsExists : List Call → String → Bool
  HashPasswordWithSalt : String → Except Users.Error String
  CreateToken : List Call → String → Option (String × Nat)
  /-- Whether the mutating call on a collaborator returns an error. -/
  fails : List Call → Call → Bool
  newQueryReady : String → String → DistributedQuery
  generateCarveQuery : String → Bool → String
  generateCarveName : List Call → String
  checkValidPlatform : List String → String → Bool
  removeStringDuplicates : List String → List String
  checkTargetService : String → Bool
  stringToBoolean : String → Bool
  stringToInteger : String → Int
  base64Decode : String → Option String

/-- A recorded mutating call on a collaborator; the value is `err != nil`. -/
def mutate (h : HandlersAdmin) (c : Call) : H Bool :=
  fun us past => { value := some (h.fails past c), users := us, calls := [c] }

/-- The block "Check CSRF Token". -/
def checkCSRF (h : HandlersAdmin) (ctx : ContextValue) (token : String) : H Unit :=
  if !(h.CheckCSRFToken ctx.csrftoken token) then fail "invalid CSRF token" 500
  else Pure.pure ()

/-- The block "Extract environment and verify": `vars["environment"]` and Envs.Exists. -/
def environmentVar (h : HandlersAdmin) (vars : GoMap String) : H String := do
  let (environmentVar, ok) :=
    match GoMap.get? vars "environment" with
    | some v => (v, true)
    | none => ("", false)
  if ← orElse (!ok) (do let e ← ask (fun past => h.EnvsExists past environmentVar); Pure.pure (!e)) then
    fail "error getting environment" 500
  Pure.pure environmentVar

/-! ### Request bodies (types declared in another file of package handlers; the fields are
those that post.go reads) -/

/-- Body of a request to run a query. -/
structure DistributedQueryRequest where
  CSRFToken : String := ""
  Environments : List String := []
  Platforms : List String := []
  UUIDs : List String := []
  Hosts : List String := []
  Query : String := ""
deriving DecidableEq, Repr

/-- Body of a request to run a carve. -/
structure DistributedCarveRequest where
  CSRFToken : String := ""
  Environments : List String := []
  Platforms : List String := []
  UUIDs : List String := []
  Hosts : List String := []
  Path : String := ""
deriving DecidableEq, Repr

/-- Body of a request for an action on queries. -/
structure DistributedQueryActionRequest where
  CSRFToken : String := ""
  Action : String := ""
  Names : List String := []
deriving DecidableEq, Repr

/-- Body of a request for an action on carves. -/
structure DistributedCarvesActionRequest where
  CSRFToken : String := ""
  Action : String := ""
  IDs : List String := []
deriving DecidableEq, Repr

/-- Body of a request to save a configuration. -/
structure ConfigurationRequest where
  CSRFToken : String := ""
  ConfigurationB64 : String := ""
deriving DecidableEq, Repr

/-- Body of a request to save intervals. -/
structure IntervalsRequest where
  CSRFToken : String := ""
  ConfigInterval : Int := 0
  LogInterval : Int := 0
  QueryInterval : Int := 0
deriving DecidableEq, Repr

/-- Body of a request to expire or extend enroll and remove links. -/
structure ExpirationRequest where
  CSRFToken : String := ""
  Action : String := ""
  Type_ : String := ""
deriving DecidableEq, Repr

/-- Body of a request for an action on several nodes. -/
structure NodeMultiActionRequest where
  CSRFToken : String := ""
  Action : String := ""
  UUIDs : List String := []
deriving DecidableEq, Repr

/-- Body of a request on environments. -/
structure EnvironmentsRequest where
  CSRFToken : String := ""
  Action : String := ""
  Name : String := ""
  Hostname : String := ""
  Icon : String := ""
  Type_ : String := ""
  DebugHTTP : Bool := false
deriving DecidableEq, Repr

/-- Body of a request on settings. -/
structure SettingsRequest where
  CSRFToken : String := ""
  Action : String := ""
  Name : String := ""
  Type_ : String := ""
  Value : String := ""
  Boolean : Bool := false
deriving DecidableEq, Repr

/-- Body of a request on users. -/
structure UsersRequest where
  CSRFToken : String := ""
  Action : String := ""
  Username : String := ""
  Password : String := ""
  Email : String := ""
  Fullname : String := ""
  Admin : Bool := false
  Token : Bool := false
deriving DecidableEq, Repr

/-- Body of a request on tags. -/
structure TagsRequest where
  CSRFToken : String := ""
  Action : String := ""
  Name : String := ""
  Description : String := ""
  Color : String := ""
  Icon : String := ""
deriving DecidableEq, Repr

/-- Body of a request to tag nodes. -/
structure TagNodesRequest where
  CSRFToken : String := ""
  UUIDs : List String := []
  TagsAdd : List String := []
  TagsRemove : List String := []
deriving DecidableEq, Repr

/-- Body of a request to set the permissions of a user. -/
structure PermissionsRequest where
  CSRFToken : String := ""
  Environments : EnvPermissions := []
  Query : Bool := false
  Carve : Bool := false
deriving DecidableEq, Repr

/-- Body of a request to save enroll data. -/
structure EnrollRequest where
  CSRFToken : String := ""
  CertificateB64 : String := ""
deriving DecidableEq, Repr

/-! ### The handlers -/

/-- QueryRunPOSTHandler for POST requests to run queries. -/
def QueryRunPOSTHandler (h : HandlersAdmin) (ctx : ContextValue)
    (body : Option DistributedQueryRequest) : H Unit := do
  call (.Inc metricAdminReq)
  authorize ctx.user QueryLevel NoEnvironment
  let q ← decode body
  checkCSRF h ctx q.CSRFToken
  if q.Query = "" then
    fail "query can not be empty" 500
  let newQuery := h.newQueryReady ctx.user q.Query
  if ← mutate h (.QueriesCreate newQuery) then
    fail "error creating query" 500
  let mut expected : List String := []
  if q.Environments.length > 0 then
    for e in q.Environments do
      if ← andThen (e != "") (ask (fun past => h.EnvsExists past e)) then
        if ← mutate h (.QueriesCreateTarget newQuery.Name QueryTargetEnvironment e) then
          fail "error creating query environment target" 500
        let hours ← ask h.SettingsInactiveHours
        match ← ask (fun past => h.NodesGetByEnv past e "active" hours) with
        | none => fail "error getting nodes by environment" 500
        | some nodes =>
          for n in nodes do
            expected := expected ++ [n.UUID]
  if q.Platforms.length > 0 then
    let platforms ← ask h.NodesGetAllPlatforms
    for p in q.Platforms do
      if p != "" && h.checkValidPlatform platforms p then
        if ← mutate h (.QueriesCreateTarget newQuery.Name QueryTargetPlatform p) then
          fail "error creating query platform target" 500
        let hours ← ask h.SettingsInactiveHours
        match ← ask (fun past => h.NodesGetByPlatform past p "active" hours) with
        | none => fail "error getting nodes by platform" 500
        | some nodes =>
          for n in nodes do
            expected := expected ++ [n.UUID]
  if q.UUIDs.length > 0 then
    for u in q.UUIDs do
      if ← andThen (u != "") (ask (fun past => h.NodesCheckByUUID past u)) then
        if ← mutate h (.QueriesCreateTarget newQuery.Name QueryTargetUUID u) then
          fail "error creating query UUID target" 500
        expected := expected ++ [u]
  if q.Hosts.length > 0 then
    for host in q.Hosts do
      if ← andThen (host != "") (ask (fun past => h.NodesCheckByHost past host)) then
        if ← mutate h (.QueriesCreateTarget newQuery.Name QueryTargetLocalname host) then
          fail "error creating query hostname target" 500
        expected := expected ++ [host]
  let expectedClear := h.removeStringDuplicates expected
  if ← mutate h (.QueriesSetExpected newQuery.Name expectedClear.length) then
    fail "error setting expected" 500
  call (.adminOKResponse "OK")
  call (.Inc metricAdminOK)

/-- CarvesRunPOSTHandler for POST requests to run file carves. post.go builds the query
against a later revision of DistributedQuery: its field Path is File here, and its field
Expected, set to 0, has no counterpart. -/
def CarvesRunPOSTHandler (h : HandlersAdmin) (ctx : ContextValue)
    (body : Option DistributedCarveRequest) : H Unit := do
  call (.Inc metricAdminReq)
  authorize ctx.user CarveLevel NoEnvironment
  let c ← decode body
  checkCSRF h ctx c.CSRFToken
  if c.Path = "" then
    fail "path can not be empty" 500
  let query := h.generateCarveQuery c.Path false
  let carveName ← ask h.generateCarveName
  let newQuery : DistributedQuery :=
    { Query := query, Name := carveName, Creator := ctx.user, Executions := 0, Active := true,
      Completed := false, Deleted := false, Type_ := CarveQueryType, File := c.Path }
  if ← mutate h (.QueriesCreate newQuery) then
    fail "error creating carve" 500
  let mut expected : List String := []
  if c.Environments.length > 0 then
    for e in c.Environments do
      if ← andThen (e != "") (ask (fun past => h.EnvsExists past e)) then
        if ← mutate h (.QueriesCreateTarget carveName QueryTargetEnvironment e) then
          fail "error creating carve environment target" 500
        let hours ← ask h.SettingsInactiveHours
        match ← ask (fun past => h.NodesGetByEnv past e "active" hours) with
        | none => fail "error getting nodes by environment" 500
        | some nodes =>
          for n in nodes do
            expected := expected ++ [n.UUID]
  if c.Platforms.length > 0 then
    let platforms ← ask h.NodesGetAllPlatforms
    for p in c.Platforms do
      if p != "" && h.checkValidPlatform platforms p then
        if ← mutate h (.QueriesCreateTarget carveName QueryTargetPlatform p) then
          fail "error creating carve platform target" 500
        let hours ← ask h.SettingsInactiveHours
        match ← ask (fun past => h.NodesGetByPlatform past p "active" hours) with
        | none => fail "error getting nodes by platform" 500
        | some nodes =>
          for n in nodes do
            expected := expected ++ [n.UUID]
  if c.UUIDs.length > 0 then
    for u in c.UUIDs do
      if ← andThen (u != "") (ask (fun past => h.NodesCheckByUUID past u)) then
        if ← mutate h (.QueriesCreateTarget carveName QueryTargetUUID u) then
          fail "error creating carve UUID target" 500
        expected := expected ++ [u]
  if c.Hosts.length > 0 then
    for host in c.Hosts do
      if ← andThen (host != "") (ask (fun past => h.NodesCheckByHost past host)) then
        if ← mutate h (.QueriesCreateTarget carveName QueryTargetLocalname host) then
          fail "error creating carve hostname target" 500
  let expectedClear := h.removeStringDuplicates expected
  if ← mutate h (.QueriesSetExpected carveName expectedClear.length) then
    fail "error setting expected" 500
  call (.adminOKResponse "OK")
  call (.Inc metricAdminOK)

/-- QueryActionsPOSTHandler for POST requests to queries. -/
def QueryActionsPOSTHandler (h : HandlersAdmin) (ctx : ContextValue)
    (body : Option DistributedQueryActionRequest) : H Unit := do
  call (.Inc metricAdminReq)
  authorize ctx.user QueryLevel NoEnvironment
  let q ← decode body
  checkCSRF h ctx q.CSRFToken
  match q.Action with
  | "delete" =>
    for n in q.Names do
      if ← mutate h (.QueriesDelete n) then
        fail "error deleting query" 500
    call (.adminOKResponse "queries delete successfully")
  | "complete" =>
    for n in q.Names do
      if ← mutate h (.QueriesComplete n) then
        fail "error completing query" 500
    call (.adminOKResponse "queries completed successfully")
  | "activate" =>
    for n in q.Names do
      if ← mutate h (.QueriesActivate n) then
        fail "error activating query" 500
    call (.adminOKResponse "queries activated successfully")
  | _ => Pure.pure ()
  call (.Inc metricAdminOK)

/-- CarvesActionsPOSTHandler, the handler for POST requests to carves. -/
def CarvesActionsPOSTHandler (h : HandlersAdmin) (ctx : ContextValue)
    (body : Option DistributedCarvesActionRequest) : H Unit := do
  call (.Inc metricAdminReq)
  authorize ctx.user CarveLevel NoEnvironment
  let q ← decode body
  checkCSRF h ctx q.CSRFToken
  match q.Action with
  | "delete" =>
    for n in q.IDs do
      if ← mutate h (.CarvesDelete n) then
        fail "error deleting carve" 500
    call (.adminOKResponse "carves delete successfully")
  | "test" => call (.adminOKResponse "test successful")
  | _ => Pure.pure ()
  call (.Inc metricAdminOK)

/-- ConfPOSTHandler for POST requests for saving configuration. -/
def ConfPOSTHandler (h : HandlersAdmin) (ctx : ContextValue) (vars : GoMap String)
    (body : Option ConfigurationRequest) : H Unit := do
  call (.Inc metricAdminReq)
  let environmentVar ← environmentVar h vars
  authorize ctx.user EnvLevel environmentVar
  let c ← decode body
  checkCSRF h ctx c.CSRFToken
  if c.ConfigurationB64 = "" then
    call (.HTTPResponse 500 "empty configuration")
    call (.Inc metricAdminErr)
    halt
  match h.base64Decode c.ConfigurationB64 with
  | none => fail "error decoding configuration" 500
  | some configuration =>
    if ← mutate h (.EnvsUpdateConfiguration environmentVar configuration) then
      fail "error saving configuration" 500
    call (.adminOKResponse "configuration saved successfully")
    call (.Inc metricAdminOK)

/-- IntervalsPOSTHandler for POST requests for saving intervals. -/
def IntervalsPOSTHandler (h : HandlersAdmin) (ctx : ContextValue) (vars : GoMap String)
    (body : Option IntervalsRequest) : H Unit := do
  call (.Inc metricAdminReq)
  let environmentVar ← environmentVar h vars
  authorize ctx.user EnvLevel environmentVar
  let c ← decode body
  checkCSRF h ctx c.CSRFToken
  if ← mutate h (.EnvsUpdateIntervals environmentVar c.ConfigInterval c.LogInterval
      c.QueryInterval) then
    fail "error updating intervals" 500
  match ← ask (fun past => h.EnvsGenerateFlagsEnv past environmentVar) with
  | none => fail "error re-generating flags" 500
  | some flags =>
    if ← mutate h (.EnvsUpdateFlags environmentVar flags) then
      fail "error updating flags" 500
    call (.adminOKResponse "intervals saved successfully")
    call (.Inc metricAdminOK)

/-- ExpirationPOSTHandler for POST requests for expiring enroll links. -/
def ExpirationPOSTHandler (h : HandlersAdmin) (ctx : ContextValue) (vars : GoMap String)
    (body : Option ExpirationRequest) : H Unit := do
  call (.Inc metricAdminReq)
  let environmentVar ← environmentVar h vars
  authorize ctx.user EnvLevel environmentVar
  let e ← decode body
  checkCSRF h ctx e.CSRFToken
  match e.Type_ with
  | "enroll" =>
    match e.Action with
    | "expire" =>
      if ← mutate h (.EnvsExpireEnroll environmentVar) then
        fail "error expiring enroll" 500
      call (.adminOKResponse "link expired successfully")
    | "extend" =>
      if ← mutate h (.EnvsRotateEnrollPath environmentVar) then
        fail "error extending enroll" 500
      call (.adminOKResponse "link extended successfully")
    | _ => Pure.pure ()
  | "remove" =>
    match e.Action with
    | "expire" =>
      if ← mutate h (.EnvsExpireRemove environmentVar) then
        fail "error expiring remove" 500
      call (.adminOKResponse "link expired successfully")
    | "extend" =>
      if ← mutate h (.EnvsRotateRemove environmentVar) then
        fail "error extending remove" 500
      call (.adminOKResponse "link extended successfully")
    | _ => Pure.pure ()
  | _ => Pure.pure ()
  call (.Inc metricAdminOK)

/-- The loop of NodeActionsPOSTHandler over the UUIDs: the number of failed calls. -/
def archiveDeleteAll (h : HandlersAdmin) (uuids : List String) : H Nat := do
  let mut okCount := 0
  let mut errCount := 0
  for u in uuids do
    if ← mutate h (.NodesArchiveDeleteByUUID u) then
      errCount := errCount + 1
    else
      okCount := okCount + 1
  if errCount = 0 then
    call (.adminOKResponse (toString okCount ++ " Node(s) have been deleted successfully"))
  else
    fail ("Error deleting " ++ toString errCount ++ " node(s)") 500
  Pure.pure errCount

/-- NodeActionsPOSTHandler for POST requests for multi node action. The cases "delete" and
"tag" run the same loop over ArchiveDeleteByUUID. -/
def NodeActionsPOSTHandler (h : HandlersAdmin) (ctx : ContextValue)
    (body : Option NodeMultiActionRequest) : H Unit := do
  call (.Inc metricAdminReq)
  authorize ctx.user AdminLevel NoEnvironment
  let m ← decode body
  checkCSRF h ctx m.CSRFToken
  match m.Action with
  | "delete" =>
    let _ ← archiveDeleteAll h m.UUIDs
  | "archive" => call (.adminOKResponse "node archived successfully")
  | "tag" =>
    let _ ← archiveDeleteAll h m.UUIDs
  | _ => Pure.pure ()
  call (.Inc metricAdminOK)

/-- EnvsPOSTHandler for POST request for /environments. -/
def EnvsPOSTHandler (h : HandlersAdmin) (ctx : ContextValue)
    (body : Option EnvironmentsRequest) : H Unit := do
  call (.Inc metricAdminReq)
  authorize ctx.user AdminLevel NoEnvironment
  let c ← decode body
  checkCSRF h ctx c.CSRFToken
  match c.Action with
  | "create" =>
    if !(← ask (fun past => h.EnvsExists past c.Name)) then
      let mut env := h.EnvsEmpty c.Name c.Hostname
      env := { env with Icon := c.Icon }
      env := { env with Type_ := c.Type_ }
      if env.Configuration = "" then
        env := { env with Configuration := h.ReadExternalFile h.emptyConfiguration }
      if env.Flags = "" then
        match h.GenerateFlags env with
        | none => fail "error generating flags" 500
        | some flags => env := { env with Flags := flags }
      if ← mutate h (.EnvsCreate env) then
        fail "error creating environment" 500
      if ← mutate h (.TagsNewTag env.Name ("Tag for environment " ++ env.Name) "" env.Icon) then
        fail "error generating tag" 500
    call (.adminOKResponse "environment created successfully")
  | "delete" =>
    if c.Name = (← ask h.SettingsDefaultEnv) then
      fail "not a good idea" 500
    if ← ask (fun past => h.EnvsExists past c.Name) then
      if ← mutate h (.EnvsDelete c.Name) then
        fail "error deleting environment" 500
    call (.adminOKResponse "environment deleted successfully")
  | "debug" =>
    if ← ask (fun past => h.EnvsExists past c.Name) then
      if ← mutate h (.EnvsChangeDebugHTTP c.Name c.DebugHTTP) then
        fail "error changing DebugHTTP" 500
    call (.adminOKResponse "debug changed successfully")
  | _ => Pure.pure ()
  call (.Inc metricAdminOK)

/-- SettingsPOSTHandler for POST request for /settings. -/
def SettingsPOSTHandler (h : HandlersAdmin) (ctx : ContextValue) (vars : GoMap String)
    (body : Option SettingsRequest) : H Unit := do
  call (.Inc metricAdminReq)
  let serviceVar ←
    match GoMap.get? vars "service" with
    | some v => Pure.pure v
    | none => fail "error getting service" 500
  if !(h.checkTargetService serviceVar) then
    fail ("unknown service (" ++ serviceVar ++ ")") 403
  authorize ctx.user AdminLevel NoEnvironment
  let s ← decode body
  checkCSRF h ctx s.CSRFToken
  match s.Action with
  | "add" =>
    if !(← ask (fun past => h.SettingsVerifyType past s.Type_)) then
      fail "invalid type" 500
    let err ←
      if s.Type_ = h.TypeBoolean then
        mutate h (.SettingsNewBooleanValue serviceVar s.Name (h.stringToBoolean s.Value))
      else if s.Type_ = h.TypeInteger then
        mutate h (.SettingsNewIntegerValue serviceVar s.Name (h.stringToInteger s.Value))
      else if s.Type_ = h.TypeString then
        mutate h (.SettingsNewStringValue serviceVar s.Name s.Value)
      else Pure.pure false
    if err then
      fail "error adding setting" 500
    call (.adminOKResponse "setting added successfully")
  | "change" =>
    if !(← ask (fun past => h.SettingsVerifyType past s.Type_)) then
      fail "invalid type" 500
    let err ←
      if s.Type_ = h.TypeBoolean then
        mutate h (.SettingsSetBoolean s.Boolean serviceVar s.Name)
      else if s.Type_ = h.TypeInteger then
        mutate h (.SettingsSetInteger (h.stringToInteger s.Value) serviceVar s.Name)
      else if s.Type_ = h.TypeString then
        mutate h (.SettingsSetString s.Value serviceVar s.Name false)
      else Pure.pure false
    if err then
      fail "error changing setting" 500
    call (.adminOKResponse "setting changed successfully")
  | "delete" =>
    if ← mutate h (.SettingsDeleteValue serviceVar s.Name) then
      fail "error deleting setting" 500
    call (.adminOKResponse "setting deleted successfully")
  | _ => Pure.pure ()
  call (.Inc metricAdminOK)

/-- UsersPOSTHandler for POST request for /users. -/
def UsersPOSTHandler (h : HandlersAdmin) (ctx : ContextValue)
    (body : Option UsersRequest) : H Unit := do
  call (.Inc metricAdminReq)
  authorize ctx.user AdminLevel NoEnvironment
  let u ← decode body
  checkCSRF h ctx u.CSRFToken
  match u.Action with
  | "add" =>
    if ← askUsers (fun us => Users.Exists us u.Username) then
      fail "error adding user" 500
    match ← askUsers (fun us =>
        Users.New us (h.HashPasswordWithSalt u.Password) u.Username u.Email u.Fullname u.Admin) with
    | .error _ => fail "error with new user" 500
    | .ok newUser =>
      if ← usersCall (.UsersCreate newUser) (fun us => Users.Create us newUser) then
        fail "error creating user" 500
      if u.Admin then
        match ← ask h.EnvsNames with
        | none => fail "error getting environments user" 500
        | some namesEnvs =>
          let perms := Users.GenPermissions namesEnvs u.Admin
          if ← usersCall (.UsersChangePermissions u.Username perms)
              (fun us => Users.ChangePermissions us u.Username perms) then
            fail "error changing permissions" 500
      if u.Token then
        match ← ask (fun past => h.CreateToken past newUser.Username) with
        | none => fail "error creating token" 500
        | some (token, exp) =>
          if ← usersCall (.UsersUpdateToken newUser.Username token exp)
              (fun us => Users.UpdateToken us newUser.Username token exp) then
            fail "error saving token" 500
      call (.adminOKResponse "user added successfully")
  | "edit" =>
    if u.Fullname != "" then
      if ← usersCall (.UsersChangeFullname u.Username u.Fullname)
          (fun us => Users.ChangeFullname us u.Username u.Fullname) then
        fail "error changing fullname" 500
    if u.Email != "" then
      if ← usersCall (.UsersChangeEmail u.Username u.Email)
          (fun us => Users.ChangeEmail us u.Username u.Email) then
        fail "error changing email" 500
    call (.adminOKResponse "user updated successfully")
  | "remove" =>
    if u.Username = ctx.user then
      fail "not a good idea" 500
    if ← askUsers (fun us => Users.Exists us u.Username) then
      if ← usersCall (.UsersDelete u.Username) (fun us => Users.Delete us u.Username) then
        fail "error removing user" 500
    call (.adminOKResponse "user removed successfully")
  | "admin" =>
    if u.Username = ctx.user then
      fail "not a good idea" 500
    if ← askUsers (fun us => Users.Exists us u.Username) then
      if ← usersCall (.UsersChangeAdmin u.Username u.Admin)
          (fun us => Users.ChangeAdmin us u.Username u.Admin) then
        fail "error changing admin" 500
      if u.Admin then
        match ← ask h.EnvsNames with
        | none => fail "error getting environments" 500
        | some namesEnvs =>
          let perms := Users.GenPermissions namesEnvs u.Admin
          if ← usersCall (.UsersChangePermissions u.Username perms)
              (fun us => Users.ChangePermissions us u.Username perms) then
            fail "error changing permissions" 500
          match ← ask (fun past => h.CreateToken past u.Username) with
          | none => fail "error creating token" 500
          | some (token, exp) =>
            if ← usersCall (.UsersUpdateToken u.Username token exp)
                (fun us => Users.UpdateToken us u.Username token exp) then
              fail "error saving token" 500
      call (.adminOKResponse "admin changed successfully")
  | _ => Pure.pure ()
  call (.Inc metricAdminOK)

/-- TagsPOSTHandler for POST request for /tags. -/
def TagsPOSTHandler (h : HandlersAdmin) (ctx : ContextValue)
    (body : Option TagsRequest) : H Unit := do
  call (.Inc metricAdminReq)
  authorize ctx.user AdminLevel NoEnvironment
  let t ← decode body
  checkCSRF h ctx t.CSRFToken
  match t.Action with
  | "add" =>
    if ← ask (fun past => h.TagsExists past t.Name) then
      fail "error adding tag" 500
    if ← mutate h (.TagsNewTag t.Name t.Description t.Color t.Icon) then
      fail "error with new tag" 500
    call (.adminOKResponse "tag added successfully")
  | "edit" =>
    if t.Description != "" then
      if ← mutate h (.TagsChangeDescription t.Name t.Description) then
        fail "error changing description" 500
    if t.Icon != "" then
      if ← mutate h (.TagsChangeIcon t.Name t.Icon) then
        fail "error changing icon" 500
    if t.Color != "" then
      if ← mutate h (.TagsChangeColor t.Name t.Color) then
        fail "error changing color" 500
    call (.adminOKResponse "tag updated successfully")
  | "remove" =>
    if t.Name = ctx.user then
      fail "not a good idea" 500
    if ← ask (fun past => h.TagsExists past t.Name) then
      if ← mutate h (.TagsDelete t.Name) then
        fail "error removing tag" 500
    call (.adminOKResponse "tag removed successfully")
  | _ => Pure.pure ()
  call (.Inc metricAdminOK)

/-- TagNodesPOSTHandler for POST request for /tags/nodes. -/
def TagNodesPOSTHandler (h : HandlersAdmin) (ctx : ContextValue)
    (body : Option TagNodesRequest) : H Unit := do
  call (.Inc metricAdminReq)
  authorize ctx.user AdminLevel NoEnvironment
  let t ← decode body
  checkCSRF h ctx t.CSRFToken
  let mut toBeProcessed : List OsqueryNode := []
  for u in t.UUIDs do
    match ← ask (fun past => h.NodesGetByUUID past u) with
    | none => fail "error getting nodes" 500
    | some n => toBeProcessed := toBeProcessed ++ [n]
  for tag in t.TagsRemove do
    if !(← ask (fun past => h.TagsExists past tag)) then
      fail "error removing tag" 500
    for n in toBeProcessed do
      if ← mutate h (.TagsUntagNode tag n) then
        fail "error removing tag" 500
  for tag in t.TagsAdd do
    if !(← ask (fun past => h.TagsExists past tag)) then
      fail "error adding tag" 500
    for n in toBeProcessed do
      if ← mutate h (.TagsTagNode tag n) then
        fail "error with new tag" 500
  call (.adminOKResponse "tags processed successfully")
  call (.Inc metricAdminOK)

/-- PermissionsPOSTHandler for POST request for /users/permissions. -/
def PermissionsPOSTHandler (h : HandlersAdmin) (ctx : ContextValue) (vars : GoMap String)
    (body : Option PermissionsRequest) : H Unit := do
  call (.Inc metricAdminReq)
  let (usernameVar, ok) :=
    match GoMap.get? vars "username" with
    | some v => (v, true)
    | none => ("", false)
  if ← orElse (!ok) (do
      let e ← askUsers (fun us => Users.Exists us usernameVar)
      Pure.pure (!e)) then
    fail "error getting username" 500
  authorize ctx.user AdminLevel NoEnvironment
  let p ← decode body
  checkCSRF h ctx p.CSRFToken
  let perms : UserPermissions :=
    { Environments := p.Environments, Query := p.Query, Carve := p.Carve }
  if ← usersCall (.UsersChangePermissions usernameVar perms)
      (fun us => Users.ChangePermissions us usernameVar perms) then
    fail "error changing permissions" 500
  call (.adminOKResponse "OK")
  call (.Inc metricAdminOK)

/-- EnrollPOSTHandler for POST requests enroll data. -/
def EnrollPOSTHandler (h : HandlersAdmin) (ctx : ContextValue) (vars : GoMap String)
    (body : Option EnrollRequest) : H Unit := do
  call (.Inc metricAdminReq)
  let environmentVar ← environmentVar h vars
  authorize ctx.user EnvLevel environmentVar
  let e ← decode body
  checkCSRF h ctx e.CSRFToken
  if e.CertificateB64 = "" then
    fail "empty certificate" 500
  match h.base64Decode e.CertificateB64 with
  | none => fail "error decoding certificate" 500
  | some certificate =>
    if ← mutate h (.EnvsUpdateCertificate environmentVar certificate) then
      fail "error saving certificate" 500
    call (.adminOKResponse "enroll data saved")
    call (.Inc metricAdminOK)

/-- The environment a handler for one environment checks: `vars["environment"]`. -/
def varsEnvironment (vars : GoMap String) : String :=
  (GoMap.get? vars "environment").getD ""

/-- Every mutating call of the trace has the permission check `check` before it. -/
def CheckedFirst (check : Call) (calls : List Call) : Prop :=
  ∀ pre c post, calls = pre ++ c :: post → c.mutating = true → check ∈ pre

/-- Authorization precedes mutation in the run `m` of a handler for the session user
`user` at the given level and environment: on every user table and after any calls, every
mutating call of the run comes after the permission check, and when CheckPermissions of
src/users returns false on the user table, the run leaves the user table as it is and
makes no mutating call. -/
def Guarded (user : String) (level : AccessLevel) (environment : String) (m : H Unit) : Prop :=
  ∀ (us : Users.Store) (past : List Call),
    CheckedFirst (.UsersCheckPermissions user level environment) (m us past).calls ∧
    (CheckPermissions us user level environment = false →
      (m us past).users = us ∧ ∀ c ∈ (m us past).calls, c.mutating = false)

/-! ### Sample collaborators and requests -/

/-- Collaborators for the examples: environments prod and dev exist, every call succeeds. -/
def sampleHandlers : HandlersAdmin :=
  { CheckCSRFToken := fun a b => a == b
    SettingsInactiveHours := fun _ => 72
    SettingsDefaultEnv := fun _ => "dev"
    SettingsVerifyType := fun _ _ => true
    TypeBoolean := "boolean"
    TypeInteger := "integer"
    TypeString := "string"
    EnvsExists := fun _ e => e == "prod" || e == "dev"
    EnvsNames := fun _ => some ["prod", "dev"]
    EnvsEmpty := fun n hn => { Name := n, Hostname := hn }
    EnvsGenerateFlagsEnv := fun _ _ => some "flags"
    GenerateFlags := fun _ => some "flags"
    ReadExternalFile := fun _ => "conf"
    emptyConfiguration := "empty.conf"
    NodesGetByEnv := fun _ e _ _ => if e == "prod" then some [scenarioN1] else some []
    NodesGetByPlatform := fun _ _ _ _ => some [scenarioN1, scenarioN2]
    NodesGetAllPlatforms := fun _ => ["ubuntu"]
    NodesCheckByUUID := fun _ u => u == "N1" || u == "N2"
    NodesCheckByHost := fun _ x => x == "host1" || x == "host2"
    NodesGetByUUID := fun _ u =>
      if u == "N1" then some scenarioN1 else if u == "N2" then some scenarioN2 else none
    TagsExists := fun _ _ => false
    HashPasswordWithSalt := fun p => .ok ("hash:" ++ p)
    CreateToken := fun _ u => some ("token-" ++ u, 100)
    fails := fun _ _ => false
    newQueryReady := fun u q => { Name := "query_1", Creator := u, Query := q, Active := true }
    generateCarveQuery := fun p _ => p
    generateCarveName := fun _ => "carve_1"
    checkValidPlatform := fun ps p => ps.contains p
    removeStringDuplicates := fun l => l.eraseDups
    checkTargetService := fun _ => true
    stringToBoolean := fun x => x == "true"
    stringToInteger := fun _ => 0
    base64Decode := fun x => some x }

/-- Session of the admin root. -/
def rootSession : ContextValue := { user := "root", csrftoken := "t" }

/-- Session of the non-admin analyst. -/
def analystSession : ContextValue := { user := "analyst", csrftoken := "t" }

/-- The sample operator as an admin, holding GenPermissions(["prod","dev"], true). -/
def adminOperator : AdminUser := { sampleOperator with Admin := true }

/-- User table with the admins root and operator. -/
def twoAdmins : Users.Store := { users := [sampleRoot, adminOperator], userSeq := 3 }

/-- Request of the action "admin" that demotes the operator. -/
def demoteOperator : UsersRequest :=
  { CSRFToken := "t", Action := "admin", Username := "operator", Admin := false }

/-- Request of the action "admin" that promotes the analyst. -/
def promoteAnalyst : UsersRequest :=
  { CSRFToken := "t", Action := "admin", Username := "analyst", Admin := true }

/-! ### The handlers over a node registry -/

/-- Modelled from the spec: the helper removeStringDuplicates of package handlers, missing
from the sources. Section 4.2 of the spec: the expected count is "computed externally by
unioning all matched node UUIDs across all target kinds, then removing duplicates". The
first occurrence of each string is kept. -/
def removeStringDuplicates (list : List String) : List String := list.eraseDups

/-- The handlers over a node registry: the answers about nodes are those of the functions of
package nodes on the store, read at the instant `now`; the window of activity is the 72
hours before it. -/
def registryHandlers (nodes : Nodes.Store) (now : Nat) : HandlersAdmin :=
  { sampleHandlers with
    SettingsInactiveHours := fun _ => -72
    NodesGetByEnv := fun _ e target hours => (Nodes.GetByEnv nodes now e target hours).toOption
    NodesGetByPlatform := fun _ p target hours =>
      (Nodes.GetByPlatform nodes now p target hours).toOption
    NodesGetAllPlatforms := fun _ =>
      match Nodes.GetAllPlatforms nodes false with
      | .ok platforms => platforms
      | .error _ => []
    NodesCheckByUUID := fun _ u => Nodes.CheckByUUID nodes u
    NodesCheckByHost := fun _ host => Nodes.CheckByHost nodes host
    NodesGetByUUID := fun _ u => (Nodes.GetByUUID nodes u).toOption
    removeStringDuplicates := removeStringDuplicates }

/-- Request to run a query on the environment prod and on the host host1. -/
def requestEnvHost : DistributedQueryRequest :=
  { CSRFToken := "t", Query := "SELECT 1;", Environments := ["prod"], Hosts := ["host1"] }

/-- Request to run a query on the environment prod and on the UUID of N1, typed in lower
case. -/
def requestEnvLowerUUID : DistributedQueryRequest :=
  { CSRFToken := "t", Query := "SELECT 1;", Environments := ["prod"], UUIDs := ["n1"] }

/-- Request to run a query on the environment prod and on the UUID of N1 as stored. -/
def requestEnvUUID : DistributedQueryRequest :=
  { CSRFToken := "t", Query := "SELECT 1;", Environments := ["prod"], UUIDs := ["N1"] }

end Handlers

end Osctrl

/-! # Theorems -/

namespace Osctrl

/-! ## Go maps -/

theorem GoMap.get?_nil {V : Type} (k : String) : GoMap.get? ([] : GoMap V) k = none := rfl

theorem GoMap.get?_set {V : Type} (m : GoMap V) (k k1 : String) (v : V) :
    GoMap.get? (GoMap.set m k v) k1 = if k1 = k then some v else GoMap.get? m k1 := by
  unfold GoMap.get? GoMap.set
  by_cases h : k1 = k
  · subst h
    simp
  · have h1 : (k == k1) = false := by
      simp only [beq_eq_false_iff_ne, ne_eq]
      exact fun e => h e.symm
    simp only [List.find?_cons, h1, if_neg h, List.find?_filter]
    congr 2
    funext e
    by_cases he : e.1 = k1
    · have : ¬ e.1 = k := fun e1 => h (he.symm.trans e1)
      simp [he, h]
    · simp [he]

/-! ## Query store: delivery -/

namespace Queries

open Nodes

/-- The loop of NodeQueries leaves alone every key that no selected query carries. -/
theorem foldl_set_get?_of_ne (P : DistributedQuery → Bool) (k : String) :
    ∀ (L : List DistributedQuery) (acc : QueryReadQueries),
      (∀ q ∈ L, P q = true → q.Name ≠ k) →
      GoMap.get? (L.foldl (fun qs q => if P q then qs.set q.Name q.Query else qs) acc) k
        = GoMap.get? acc k := by
  intro L
  induction L with
  | nil => intro acc _; rfl
  | cons a L ih =>
    intro acc h
    rw [List.foldl_cons, ih _ (fun q hq => h q (List.mem_cons_of_mem _ hq))]
    by_cases hp : P a = true
    · have hne : ¬ k = a.Name := fun e => h a (List.mem_cons_self _ _) hp e.symm
      simp [hp, GoMap.get?_set, hne]
    · simp [hp]

/-- Every entry of the map built by the loop of NodeQueries was there before the loop or
comes from a selected query. -/
theorem foldl_set_get?_some (P : DistributedQuery → Bool) (k v : String) :
    ∀ (L : List DistributedQuery) (acc : QueryReadQueries),
      GoMap.get? (L.foldl (fun qs q => if P q then qs.set q.Name q.Query else qs) acc) k = some v →
      GoMap.get? acc k = some v ∨ ∃ q ∈ L, P q = true ∧ q.Name = k ∧ q.Query = v := by
  intro L
  induction L with
  | nil => intro acc h; exact Or.inl h
  | cons a L ih =>
    intro acc h
    rw [List.foldl_cons] at h
    rcases ih _ h with h1 | ⟨q, hq, hP, hn, hv⟩
    · by_cases hp : P a = true
      · simp only [hp, if_true, GoMap.get?_set] at h1
        by_cases hk : k = a.Name
        · simp only [hk, if_true, Option.some.injEq] at h1
          exact Or.inr ⟨a, List.mem_cons_self _ _, hp, hk.symm, h1⟩
        · simp only [hk, if_false] at h1
          exact Or.inl h1
      · simp only [hp] at h1
        exact Or.inl h1
    · exact Or.inr ⟨q, List.mem_cons_of_mem _ hq, hP, hn, hv⟩

/-- With distinct names, a selected query is in the map built by the loop of NodeQueries. -/
theorem foldl_set_get?_mem (P : DistributedQuery → Bool) :
    ∀ (L : List DistributedQuery) (acc : QueryReadQueries) (q : DistributedQuery),
      (L.map (fun x => x.Name)).Nodup → q ∈ L → P q = true →
      GoMap.get? (L.foldl (fun qs q => if P q then qs.set q.Name q.Query else qs) acc) q.Name
        = some q.Query := by
  intro L
  induction L with
  | nil => intro acc q _ hq; cases hq
  | cons a L ih =>
    intro acc q hnd hq hP
    rw [List.map_cons, List.nodup_cons] at hnd
    rw [List.foldl_cons]
    rcases List.mem_cons.mp hq with rfl | hq1
    · rw [foldl_set_get?_of_ne]
      · simp [hP, GoMap.get?_set]
      · intro x hx _ hxe
        exact hnd.1 (List.mem_map.mpr ⟨x, hx, hxe⟩)
    · exact ih _ q hnd.2 hq1 hP

/-- A key present before the loop of NodeQueries is present after it. -/
theorem foldl_set_get?_isSome_of_isSome (P : DistributedQuery → Bool) (k : String) :
    ∀ (L : List DistributedQuery) (acc : QueryReadQueries),
      (∃ v, GoMap.get? acc k = some v) →
      ∃ v, GoMap.get? (L.foldl (fun qs q => if P q then qs.set q.Name q.Query else qs) acc) k
        = some v := by
  intro L
  induction L with
  | nil => intro acc h; exact h
  | cons a L ih =>
    intro acc h
    rw [List.foldl_cons]
    apply ih
    by_cases hp : P a = true
    · by_cases hk : k = a.Name
      · exact ⟨a.Query, by simp [hp, GoMap.get?_set, hk]⟩
      · obtain ⟨v, hv⟩ := h
        exact ⟨v, by simp [hp, GoMap.get?_set, hk, hv]⟩
    · simpa [hp] using h

/-- The name of a selected query is a key of the map built by the loop of NodeQueries. -/
theorem foldl_set_get?_isSome (P : DistributedQuery → Bool) :
    ∀ (L : List DistributedQuery) (acc : QueryReadQueries) (q : DistributedQuery),
      q ∈ L → P q = true →
      ∃ v, GoMap.get? (L.foldl (fun qs q => if P q then qs.set q.Name q.Query else qs) acc) q.Name
        = some v := by
  intro L
  induction L with
  | nil => intro acc q hq; cases hq
  | cons a L ih =>
    intro acc q hq hP
    rw [List.foldl_cons]
    rcases List.mem_cons.mp hq with rfl | hq1
    · apply foldl_set_get?_isSome_of_isSome
      exact ⟨q.Query, by simp [hP, GoMap.get?_set]⟩
    · exact ih _ q hq1 hP

/-- No key of an unselected name is in the map built by the loop of NodeQueries. -/
theorem foldl_set_get?_none (P : DistributedQuery → Bool) (k : String)
    (L : List DistributedQuery) (h : ∀ q ∈ L, q.Name = k → P q = false) :
    GoMap.get? (L.foldl (fun qs q => if P q then qs.set q.Name q.Query else qs) []) k = none := by
  rw [foldl_set_get?_of_ne]
  · rfl
  · intro q hq hP hn
    rw [h q hq hn] at hP
    cases hP

theorem NodeQueries_eq (isTarget : OsqueryNode → List DistributedQueryTarget → Bool)
    (s : Store) (node : OsqueryNode) :
    NodeQueries isTarget s node =
      (Gets s "active").foldl
        (fun (qs : QueryReadQueries) q =>
          if (isTarget node (GetTargets s q.Name) && NotYetExecuted s q.Name node.UUID) then
            qs.set q.Name q.Query
          else qs) [] := rfl

theorem Gets_active (s : Store) :
    Gets s "active" =
      s.queries.filter (fun q => q.Active == true && q.Completed == false && q.Deleted == false) := by
  simp [Gets]

theorem Gets_active_names_nodup (s : Store) (h : s.WF) :
    ((Gets s "active").map (fun q => q.Name)).Nodup := by
  rw [Gets_active]
  exact (h.2.1).sublist ((List.filter_sublist _).map _)

theorem NotYetExecuted_eq_true_iff (s : Store) (name uuid : String) :
    NotYetExecuted s name uuid = true ↔
      ∀ e ∈ s.executions, ¬ (e.Name = name ∧ e.UUID = uuid) := by
  simp [NotYetExecuted, List.filter_eq_nil_iff]

theorem NotYetExecuted_eq_false_iff (s : Store) (name uuid : String) :
    NotYetExecuted s name uuid = false ↔ ∃ e ∈ s.executions, e.Name = name ∧ e.UUID = uuid := by
  rw [← Bool.not_eq_true, NotYetExecuted_eq_true_iff]
  push_neg
  rfl

theorem updateQuery_executions (s : Store) (id : Nat) (f : DistributedQuery → DistributedQuery) :
    (updateQuery s id f).executions = s.executions := rfl

theorem updateQuery_targets (s : Store) (id : Nat) (f : DistributedQuery → DistributedQuery) :
    (updateQuery s id f).targets = s.targets := rfl

/-- No call of the query store removes or changes an execution record. -/
theorem step_executions_mem (s : Store) (op : Op) (e : DistributedQueryExecution)
    (he : e ∈ s.executions) : e ∈ (step s op).executions := by
  unfold step
  cases op with
  | Create query =>
    simp only [Op.call, Create]
    by_cases h1 : NewRecord query.ID = true
    · by_cases h2 : (s.queries.any (fun q => q.Name == query.Name)) = true
      · simpa [h1, h2] using he
      · simpa [h1, h2] using he
    · simpa [h1] using he
  | CreateTarget name targetType targetValue =>
    simp only [Op.call, CreateTarget]
    simpa [NewRecord] using he
  | Activate name =>
    simp only [Op.call, Activate]
    cases Get s name <;> simpa [updateQuery] using he
  | Complete name =>
    simp only [Op.call, Complete]
    cases Get s name <;> simpa [updateQuery] using he
  | Delete name =>
    simp only [Op.call, Delete]
    cases Get s name <;> simpa [updateQuery] using he
  | IncExecution name =>
    simp only [Op.call, IncExecution]
    cases Get s name <;> simpa [updateQuery] using he
  | IncError name =>
    simp only [Op.call, IncError]
    cases Get s name <;> simpa [updateQuery] using he
  | TrackExecution name uuid result =>
    simp only [Op.call, TrackExecution]
    simp only [NewRecord, beq_self_eq_true, if_true, List.mem_append]
    exact Or.inl he

theorem run_executions_mem (ops : List Op) :
    ∀ (s : Store) (e : DistributedQueryExecution), e ∈ s.executions → e ∈ (run s ops).executions := by
  induction ops with
  | nil => intro s e he; exact he
  | cons op ops ih =>
    intro s e he
    exact ih (step s op) e (step_executions_mem s op e he)

/-- TrackExecution never refuses: the record it builds always has a blank primary key. -/
theorem TrackExecution_ok (s : Store) (name uuid : String) (result : Int) :
    TrackExecution s name uuid result =
      .ok { s with
        executions := s.executions ++
          [{ ID := s.executionSeq + 1, Name := name, UUID := uuid, Result := result }]
        executionSeq := s.executionSeq + 1 } := by
  simp [TrackExecution, NewRecord]

/-- A query with an execution record for the node is not delivered to it. -/
theorem NodeQueries_get?_none_of_executed
    (isTarget : OsqueryNode → List DistributedQueryTarget → Bool) (s : Store) (N : OsqueryNode)
    (name : String) (h : ∃ e ∈ s.executions, e.Name = name ∧ e.UUID = N.UUID) :
    GoMap.get? (NodeQueries isTarget s N) name = none := by
  rw [NodeQueries_eq]
  apply foldl_set_get?_none
  intro q _ hn
  have : NotYetExecuted s q.Name N.UUID = false := by
    rw [NotYetExecuted_eq_false_iff, hn]
    exact h
  simp [this]

/-- C1 (exactly-once delivery). First part: in every store state, an active query Q whose
targets the node N matches has an entry under its name in NodeQueries(N) as long as no
execution record for (Q.Name, N.UUID) exists, and the entry holds the text of Q when the
store satisfies the schema invariant (names are unique); NodeQueries only reads the store,
so a poll changes nothing and repeated polls return the same. Second part: once
TrackExecution(Q.Name, N.UUID, r) has succeeded, for any result code r, NodeQueries(N) has
no entry for Q.Name in the state reached by any sequence of Create, CreateTarget, Activate,
Complete, Delete, IncExecution, IncError and TrackExecution calls (the empty sequence
included). Holds for every target matcher. -/
theorem C1_exactly_once_delivery
    (isTarget : OsqueryNode → List DistributedQueryTarget → Bool) :
    (∀ (s : Store) (Q : DistributedQuery) (N : OsqueryNode),
        Q ∈ Gets s "active" → isTarget N (GetTargets s Q.Name) = true →
        (∀ e ∈ s.executions, ¬ (e.Name = Q.Name ∧ e.UUID = N.UUID)) →
        (∃ text, GoMap.get? (NodeQueries isTarget s N) Q.Name = some text) ∧
        (s.WF → GoMap.get? (NodeQueries isTarget s N) Q.Name = some Q.Query)) ∧
    (∀ (s s1 : Store) (Q : DistributedQuery) (N : OsqueryNode) (r : Int),
        TrackExecution s Q.Name N.UUID r = .ok s1 →
        ∀ ops : List Op, GoMap.get? (NodeQueries isTarget (run s1 ops) N) Q.Name = none) := by
  constructor
  · intro s Q N hQ ht hne
    have hP : (isTarget N (GetTargets s Q.Name) && NotYetExecuted s Q.Name N.UUID) = true := by
      rw [ht, (NotYetExecuted_eq_true_iff s Q.Name N.UUID).mpr hne]
      rfl
    constructor
    · rw [NodeQueries_eq]
      exact foldl_set_get?_isSome _ _ _ Q hQ hP
    · intro hwf
      rw [NodeQueries_eq]
      exact foldl_set_get?_mem _ _ _ Q (Gets_active_names_nodup s hwf) hQ hP
  · intro s s1 Q N r htrack ops
    apply NodeQueries_get?_none_of_executed
    rw [TrackExecution_ok] at htrack
    have hs1 := (Except.ok.inj htrack).symm
    refine ⟨{ ID := s.executionSeq + 1, Name := Q.Name, UUID := N.UUID, Result := r }, ?_, rfl, rfl⟩
    apply run_executions_mem
    rw [hs1]
    simp

/-- Witness of C1 on the scenario of the spec: Q1 is delivered to N1 before the result, and
not after it, whatever is done to the query afterwards. -/
theorem C1_exactly_once_delivery_witness :
    GoMap.get? (NodeQueries isQueryTarget scenarioStore scenarioN1) scenarioQ1.Name
        = some scenarioQ1.Query ∧
      GoMap.get?
        (NodeQueries isQueryTarget
          (run (step scenarioStore (.TrackExecution "Q1" "N1" 1))
            [.Complete "Q1", .Activate "Q1", .CreateTarget "Q1" "uuid" "N1"])
          scenarioN1) scenarioQ1.Name = none :=
  ⟨((C1_exactly_once_delivery isQueryTarget).1 scenarioStore scenarioQ1 scenarioN1
      (by decide) (by decide) (by decide)).2 (by decide),
    (C1_exactly_once_delivery isQueryTarget).2 scenarioStore
      (step scenarioStore (.TrackExecution "Q1" "N1" 1)) scenarioQ1 scenarioN1 1 (by rfl)
      [.Complete "Q1", .Activate "Q1", .CreateTarget "Q1" "uuid" "N1"]⟩

/-! ## Query store: the resolver -/

/-- The matching rule of the spec, target by target. -/
theorem isQueryTarget_eq_true_iff (N : OsqueryNode) (ts : List DistributedQueryTarget) :
    isQueryTarget N ts = true ↔
      ∃ t ∈ ts, (t.Type_ = "uuid" ∧ t.Value = N.UUID) ∨
        (t.Type_ = "environment" ∧ t.Value = N.Environment) ∨
        (t.Type_ = "platform" ∧ t.Value = N.Platform) ∨
        (t.Type_ = "localname" ∧ (t.Value = N.Hostname ∨ t.Value = N.Localname)) := by
  simp only [isQueryTarget, List.any_eq_true, Bool.or_eq_true, Bool.and_eq_true, beq_iff_eq,
    QueryTargetUUID, QueryTargetEnvironment, QueryTargetPlatform, QueryTargetLocalname]
  constructor
  · rintro ⟨t, ht, h⟩
    exact ⟨t, ht, by tauto⟩
  · rintro ⟨t, ht, h⟩
    exact ⟨t, ht, by tauto⟩

theorem mem_GetTargets (s : Store) (name : String) (t : DistributedQueryTarget) :
    t ∈ GetTargets s name ↔ t ∈ s.targets ∧ t.Name = name := by
  simp [GetTargets]

theorem mem_Gets_active (s : Store) (q : DistributedQuery) :
    q ∈ Gets s "active" ↔
      q ∈ s.queries ∧ q.Active = true ∧ q.Completed = false ∧ q.Deleted = false := by
  rw [Gets_active]
  simp [and_assoc]

/-- NodeQueries, entry by entry, for any matcher. -/
theorem NodeQueries_get?_eq_some_iff
    (isTarget : OsqueryNode → List DistributedQueryTarget → Bool) (s : Store) (hwf : s.WF)
    (N : OsqueryNode) (k v : String) :
    GoMap.get? (NodeQueries isTarget s N) k = some v ↔
      ∃ Q ∈ Gets s "active", Q.Name = k ∧ Q.Query = v ∧
        isTarget N (GetTargets s Q.Name) = true ∧ NotYetExecuted s Q.Name N.UUID = true := by
  rw [NodeQueries_eq]
  constructor
  · intro h
    rcases foldl_set_get?_some _ k v _ _ h with h0 | ⟨Q, hQ, hP, hn, hv⟩
    · cases h0
    · simp only [Bool.and_eq_true] at hP
      exact ⟨Q, hQ, hn, hv, hP.1, hP.2⟩
  · rintro ⟨Q, hQ, rfl, rfl, h1, h2⟩
    apply foldl_set_get?_mem _ _ _ Q (Gets_active_names_nodup s hwf) hQ
    rw [h1, h2]
    rfl

/-- C2 (resolver result), with the matcher modelled from the spec. In every store state
satisfying the schema invariant and for every node N, NodeQueries(N) maps k to v exactly when
some query Q listed by Gets("active") has name k and text v, has a target row matching N by
uuid, environment, platform or localname (hostname or localname of the node), targets being
ORed, and has no execution record for (Q.Name, N.UUID). A stored query that is completed,
deleted, not active or without a matching target has no entry. In the scenario of the spec
the prod node gets exactly the entry Q1 and the staging node gets the empty map. -/
theorem C2_resolver_result :
    (∀ (s : Store) (N : OsqueryNode) (k v : String), s.WF →
      (GoMap.get? (NodeQueries isQueryTarget s N) k = some v ↔
        ∃ Q ∈ Gets s "active", Q.Name = k ∧ Q.Query = v ∧
          (∃ t ∈ s.targets, t.Name = Q.Name ∧
            ((t.Type_ = "uuid" ∧ t.Value = N.UUID) ∨
             (t.Type_ = "environment" ∧ t.Value = N.Environment) ∨
             (t.Type_ = "platform" ∧ t.Value = N.Platform) ∨
             (t.Type_ = "localname" ∧ (t.Value = N.Hostname ∨ t.Value = N.Localname)))) ∧
          (∀ e ∈ s.executions, ¬ (e.Name = Q.Name ∧ e.UUID = N.UUID)))) ∧
    (∀ (s : Store) (N : OsqueryNode) (Q : DistributedQuery), s.WF → Q ∈ s.queries →
      (Q.Completed = true ∨ Q.Deleted = true ∨ Q.Active = false ∨
        isQueryTarget N (GetTargets s Q.Name) = false) →
      GoMap.get? (NodeQueries isQueryTarget s N) Q.Name = none) ∧
    NodeQueries isQueryTarget scenarioStore scenarioN1 = [("Q1", "SELECT 1;")] ∧
    NodeQueries isQueryTarget scenarioStore scenarioN2 = [] := by
  refine ⟨?_, ?_, by decide, by decide⟩
  · intro s N k v hwf
    rw [NodeQueries_get?_eq_some_iff isQueryTarget s hwf]
    constructor
    · rintro ⟨Q, hQ, hk, hv, ht, hx⟩
      refine ⟨Q, hQ, hk, hv, ?_, (NotYetExecuted_eq_true_iff _ _ _).mp hx⟩
      obtain ⟨t, ht1, ht2⟩ := (isQueryTarget_eq_true_iff _ _).mp ht
      exact ⟨t, ((mem_GetTargets _ _ _).mp ht1).1, ((mem_GetTargets _ _ _).mp ht1).2, ht2⟩
    · rintro ⟨Q, hQ, hk, hv, ⟨t, ht1, ht2, ht3⟩, hx⟩
      refine ⟨Q, hQ, hk, hv, ?_, (NotYetExecuted_eq_true_iff _ _ _).mpr hx⟩
      exact (isQueryTarget_eq_true_iff _ _).mpr ⟨t, (mem_GetTargets _ _ _).mpr ⟨ht1, ht2⟩, ht3⟩
  · intro s N Q hwf hQ hbad
    cases hres : GoMap.get? (NodeQueries isQueryTarget s N) Q.Name with
    | none => rfl
    | some v =>
      exfalso
      obtain ⟨Q1, hQ1, hn, _, ht, _⟩ := (NodeQueries_get?_eq_some_iff isQueryTarget s hwf N _ v).mp hres
      have hm := (mem_Gets_active s Q1).mp hQ1
      have heq : Q1 = Q := List.inj_on_of_nodup_map hwf.2.1 hm.1 hQ hn
      subst heq
      rcases hbad with h | h | h | h
      · rw [hm.2.2.1] at h; cases h
      · rw [hm.2.2.2] at h; cases h
      · rw [hm.2.1] at h; cases h
      · rw [ht] at h; cases h

/-- Witness of C2: the entries of NodeQueries on the scenario store, for the prod node. -/
theorem C2_resolver_result_witness :
    (GoMap.get? (NodeQueries isQueryTarget scenarioStore scenarioN1) "Q1" = some "SELECT 1;" ↔
        ∃ Q ∈ Gets scenarioStore "active", Q.Name = "Q1" ∧ Q.Query = "SELECT 1;" ∧
          (∃ t ∈ scenarioStore.targets, t.Name = Q.Name ∧
            ((t.Type_ = "uuid" ∧ t.Value = scenarioN1.UUID) ∨
             (t.Type_ = "environment" ∧ t.Value = scenarioN1.Environment) ∨
             (t.Type_ = "platform" ∧ t.Value = scenarioN1.Platform) ∨
             (t.Type_ = "localname" ∧
               (t.Value = scenarioN1.Hostname ∨ t.Value = scenarioN1.Localname)))) ∧
          (∀ e ∈ scenarioStore.executions, ¬ (e.Name = Q.Name ∧ e.UUID = scenarioN1.UUID))) ∧
      GoMap.get? (NodeQueries isQueryTarget scenarioStore scenarioN2) scenarioQ1.Name = none :=
  ⟨C2_resolver_result.1 scenarioStore scenarioN1 "Q1" "SELECT 1;" (by decide),
    C2_resolver_result.2.1 scenarioStore scenarioN2 scenarioQ1 (by decide) (by decide)
      (by decide)⟩

/-! ## Query store: execution records -/

/-- Counterexample to C3 as stated: a record for (Q1, N1) exists, and reporting for the same
pair again returns no error and leaves two records for the pair. -/
theorem C3_duplicate_not_rejected :
    NotYetExecuted scenarioTracked "Q1" "N1" = false ∧
      TrackExecution scenarioTracked "Q1" "N1" 7 = .ok scenarioTrackedTwice ∧
      (scenarioTrackedTwice.executions.filter
        (fun e => e.Name == "Q1" && e.UUID == "N1")).length = 2 := by
  refine ⟨by decide, by rfl, by decide⟩

/-- C3 as amended. TrackExecution makes no duplicate check: in every store state, whether or
not a record for (name, uuid) exists, it returns no error, appends exactly one execution
record (name, uuid, r) and leaves queries and targets as they are; the number of records of
the pair grows by one and the pair counts as executed afterwards. -/
theorem C3_track_execution_appends (s : Store) (name uuid : String) (r : Int) :
    ∃ s1, TrackExecution s name uuid r = .ok s1 ∧
      s1.executions = s.executions ++
        [{ ID := s.executionSeq + 1, Name := name, UUID := uuid, Result := r }] ∧
      s1.queries = s.queries ∧ s1.targets = s.targets ∧
      (s1.executions.filter (fun e => e.Name == name && e.UUID == uuid)).length =
        (s.executions.filter (fun e => e.Name == name && e.UUID == uuid)).length + 1 ∧
      NotYetExecuted s1 name uuid = false := by
  refine ⟨_, TrackExecution_ok s name uuid r, rfl, rfl, rfl, ?_, ?_⟩
  · simp [List.filter_append]
  · rw [NotYetExecuted_eq_false_iff]
    exact ⟨{ ID := s.executionSeq + 1, Name := name, UUID := uuid, Result := r }, by simp, rfl, rfl⟩

/-! ## Query store: rows and their updates -/

theorem Get_ok_mem (s : Store) (name : String) (q : DistributedQuery)
    (h : Get s name = .ok q) : q ∈ s.queries ∧ q.Name = name := by
  unfold Get at h
  cases hl : (s.queries.filter (fun q => q.Name == name)).getLast? with
  | none => rw [hl] at h; cases h
  | some x =>
    rw [hl] at h
    have hx : x = q := Except.ok.inj h
    subst hx
    have hm := List.mem_of_getLast?_eq_some hl
    simpa using hm

theorem Get_error_of_absent (s : Store) (name : String)
    (h : ∀ q ∈ s.queries, q.Name ≠ name) : Get s name = .error .recordNotFound := by
  unfold Get
  have : s.queries.filter (fun q => q.Name == name) = [] := by
    rw [List.filter_eq_nil_iff]
    intro q hq
    simpa using h q hq
  rw [this]
  rfl

theorem filter_name_of_nodup :
    ∀ (L : List DistributedQuery) (q : DistributedQuery),
      (L.map (fun x => x.Name)).Nodup → q ∈ L →
      L.filter (fun x => x.Name == q.Name) = [q] := by
  intro L
  induction L with
  | nil => intro q _ hq; cases hq
  | cons a L ih =>
    intro q hnd hq
    rw [List.map_cons, List.nodup_cons] at hnd
    rcases List.mem_cons.mp hq with rfl | hq1
    · have : L.filter (fun x => x.Name == q.Name) = [] := by
        rw [List.filter_eq_nil_iff]
        intro x hx hxe
        exact hnd.1 (List.mem_map.mpr ⟨x, hx, by simpa using hxe⟩)
      simp [List.filter_cons, this]
    · have hne : ¬ a.Name = q.Name := fun e => hnd.1 (List.mem_map.mpr ⟨q, hq1, e.symm⟩)
      simp [List.filter_cons, hne, ih q hnd.2 hq1]

/-- With the schema invariant, Get returns the one row of the name. -/
theorem Get_of_mem (s : Store) (hwf : s.WF) (q : DistributedQuery) (hq : q ∈ s.queries) :
    Get s q.Name = .ok q := by
  unfold Get
  rw [filter_name_of_nodup s.queries q hwf.2.1 hq]
  rfl

/-- The row read by Get, read again after the update by primary key, is the updated row. -/
theorem Get_updateQuery (s : Store) (name : String) (q : DistributedQuery)
    (f : DistributedQuery → DistributedQuery) (hf : ∀ r, (f r).Name = r.Name)
    (h : Get s name = .ok q) : Get (updateQuery s q.ID f) name = .ok (f q) := by
  unfold Get at h ⊢
  cases hl : (s.queries.filter (fun q => q.Name == name)).getLast? with
  | none => rw [hl] at h; cases h
  | some x =>
    rw [hl] at h
    have hx : x = q := Except.ok.inj h
    subst hx
    have hcomp : ((fun q => q.Name == name) ∘ fun r => if x.ID = 0 ∨ r.ID = x.ID then f r else r)
        = fun q => q.Name == name := by
      funext r
      by_cases hr : x.ID = 0 ∨ r.ID = x.ID
      · simp [hr, hf]
      · simp [hr]
    simp only [updateQuery, List.filter_map, hcomp, List.getLast?_map, hl, Option.map_some',
      or_true, if_true]

/-- With the schema invariant, the update by primary key changes the row of that name only. -/
theorem updateQuery_eq_map_name (s : Store) (hwf : s.WF) (q : DistributedQuery)
    (hq : q ∈ s.queries) (f : DistributedQuery → DistributedQuery) :
    updateQuery s q.ID f =
      { s with queries := s.queries.map (fun r => if r.Name = q.Name then f r else r) } := by
  unfold updateQuery
  congr 1
  apply List.map_congr_left
  intro r hr
  have h0 : ¬ q.ID = 0 := by
    have := (hwf.2.2 q hq).1
    omega
  by_cases h1 : r.ID = q.ID
  · have : r = q := List.inj_on_of_nodup_map hwf.1 hr hq h1
    subst this
    simp
  · have h2 : ¬ r.Name = q.Name := fun e => h1 (by rw [List.inj_on_of_nodup_map hwf.2.1 hr hq e])
    simp [h0, h1, h2]

theorem goInt_eq_self (x : Int) (h1 : -(2 ^ 63) ≤ x) (h2 : x < 2 ^ 63) : goInt x = x := by
  unfold goInt
  norm_num at h1 h2 ⊢
  omega

/-- Counterexample to C4 as stated: the first result for Q1, with code 0, is recorded by
TrackExecution and the executions counter of Q1 is still 0 afterwards, not 1. -/
theorem C4_track_execution_counts_nothing :
    Get scenarioStore "Q1" = .ok scenarioQ1 ∧
      TrackExecution scenarioStore "Q1" "N1" 0 = .ok scenarioTracked ∧
      Get scenarioTracked "Q1" = .ok scenarioQ1 ∧ scenarioQ1.Executions = 0 := by
  refine ⟨by rfl, by rfl, by rfl, by rfl⟩

/-- C4 as amended. TrackExecution itself leaves every query row, hence both counters, as
they are. The counters are advanced by the separate calls IncExecution and IncError: for
every existing query Q of a store satisfying the schema invariant, with counters below the
largest int, after TrackExecution(Q.Name, uuid, r) followed by IncExecution(Q.Name) the
executions counter of Q is one greater and errors is unchanged, and after a further
IncError(Q.Name) errors is one greater as well; no other field of Q changes. -/
theorem C4_counters_by_inc (s : Store) (hwf : s.WF) (Q : DistributedQuery)
    (hQ : Q ∈ s.queries) (uuid : String) (r : Int)
    (hE : -(2 ^ 63) ≤ Q.Executions ∧ Q.Executions + 1 < 2 ^ 63)
    (hR : -(2 ^ 63) ≤ Q.Errors ∧ Q.Errors + 1 < 2 ^ 63) :
    ∃ s1 s2 s3, TrackExecution s Q.Name uuid r = .ok s1 ∧ s1.queries = s.queries ∧
      IncExecution s1 Q.Name = .ok s2 ∧
      Get s2 Q.Name = .ok { Q with Executions := Q.Executions + 1 } ∧
      IncError s2 Q.Name = .ok s3 ∧
      Get s3 Q.Name = .ok { Q with Executions := Q.Executions + 1, Errors := Q.Errors + 1 } := by
  have hg0 : Get s Q.Name = .ok Q := Get_of_mem s hwf Q hQ
  have hg1 : Get { s with
      executions := s.executions ++
        [{ ID := s.executionSeq + 1, Name := Q.Name, UUID := uuid, Result := r }]
      executionSeq := s.executionSeq + 1 } Q.Name = .ok Q := hg0
  have hg2 := Get_updateQuery _ Q.Name Q
    (fun q => { q with Executions := goInt (Q.Executions + 1) }) (fun _ => rfl) hg1
  rw [goInt_eq_self _ (by omega) hE.2] at hg2
  have hg3 := Get_updateQuery _ Q.Name _
    (fun q => { q with Errors := goInt (Q.Errors + 1) }) (fun _ => rfl) hg2
  rw [goInt_eq_self _ (by omega) hR.2] at hg3
  refine ⟨_, _, _, TrackExecution_ok s Q.Name uuid r, rfl, ?_, hg2, ?_, hg3⟩
  · simp only [IncExecution, hg1]
    rw [goInt_eq_self _ (by omega) hE.2]
  · simp only [IncError, hg2]
    rw [goInt_eq_self _ (by omega) hR.2]

/-- Witness of C4 as amended on the scenario of the spec: after the first result with code 0
and IncExecution, executions = 1 and errors = 0. -/
theorem C4_counters_by_inc_witness :
    ∃ s1 s2 s3, TrackExecution scenarioStore scenarioQ1.Name "N1" 0 = .ok s1 ∧
      s1.queries = scenarioStore.queries ∧
      IncExecution s1 scenarioQ1.Name = .ok s2 ∧
      Get s2 scenarioQ1.Name = .ok { scenarioQ1 with Executions := scenarioQ1.Executions + 1 } ∧
      IncError s2 scenarioQ1.Name = .ok s3 ∧
      Get s3 scenarioQ1.Name = .ok { scenarioQ1 with
        Executions := scenarioQ1.Executions + 1, Errors := scenarioQ1.Errors + 1 } :=
  C4_counters_by_inc scenarioStore (by decide) scenarioQ1 (by decide) "N1" 0
    (by decide) (by decide)

/-! ## Query store: lifecycle -/

/-- C10 (lifecycle transition table). In every store state satisfying the schema invariant
and for every name of an existing query, Activate leaves that query with active=true and
completed=false, Complete leaves it with active=false and completed=true, Delete leaves it
with deleted=true and active=false; every other field of the query is as before, and so is
every other query, every target row, every execution row and every counter of the store.
For a name that matches no query each of the three returns the record-not-found error and
the store is unchanged. -/
theorem C10_lifecycle_transitions (s : Store) (hwf : s.WF) (name : String) :
    (∀ q ∈ s.queries, q.Name = name →
      (∃ s1, Activate s name = .ok s1 ∧
        Get s1 name = .ok { q with Completed := false, Active := true } ∧
        s1 = { s with queries := s.queries.map (fun r =>
          if r.Name = name then { r with Completed := false, Active := true } else r) }) ∧
      (∃ s1, Complete s name = .ok s1 ∧
        Get s1 name = .ok { q with Completed := true, Active := false } ∧
        s1 = { s with queries := s.queries.map (fun r =>
          if r.Name = name then { r with Completed := true, Active := false } else r) }) ∧
      (∃ s1, Delete s name = .ok s1 ∧
        Get s1 name = .ok { q with Deleted := true, Active := false } ∧
        s1 = { s with queries := s.queries.map (fun r =>
          if r.Name = name then { r with Deleted := true, Active := false } else r) })) ∧
    ((∀ q ∈ s.queries, q.Name ≠ name) →
      Activate s name = .error .recordNotFound ∧ Complete s name = .error .recordNotFound ∧
      Delete s name = .error .recordNotFound ∧ step s (.Activate name) = s ∧
      step s (.Complete name) = s ∧ step s (.Delete name) = s) := by
  constructor
  · intro q hq hn
    subst hn
    have hg : Get s q.Name = .ok q := Get_of_mem s hwf q hq
    refine ⟨⟨updateQuery s q.ID (fun r => { r with Completed := false, Active := true }), ?_,
        Get_updateQuery s q.Name q _ (fun _ => rfl) hg, updateQuery_eq_map_name s hwf q hq _⟩,
      ⟨updateQuery s q.ID (fun r => { r with Completed := true, Active := false }), ?_,
        Get_updateQuery s q.Name q _ (fun _ => rfl) hg, updateQuery_eq_map_name s hwf q hq _⟩,
      ⟨updateQuery s q.ID (fun r => { r with Deleted := true, Active := false }), ?_,
        Get_updateQuery s q.Name q _ (fun _ => rfl) hg, updateQuery_eq_map_name s hwf q hq _⟩⟩
    · simp only [Activate, hg]
    · simp only [Complete, hg]
    · simp only [Delete, hg]
  · intro h
    have hg := Get_error_of_absent s name h
    simp [Activate, Complete, Delete, step, Op.call, hg]

/-- Witness of C10 on the scenario store: the three transitions of Q1, and of a name that
matches no query. -/
theorem C10_lifecycle_transitions_witness :
    (∃ s1, Complete scenarioStore "Q1" = .ok s1 ∧
        Get s1 "Q1" = .ok { scenarioQ1 with Completed := true, Active := false } ∧
        s1 = { scenarioStore with queries := scenarioStore.queries.map (fun r =>
          if r.Name = "Q1" then { r with Completed := true, Active := false } else r) }) ∧
      Delete scenarioStore "Q9" = .error .recordNotFound :=
  ⟨((C10_lifecycle_transitions scenarioStore (by decide) "Q1").1 scenarioQ1 (by decide)
      (by decide)).2.1,
    ((C10_lifecycle_transitions scenarioStore (by decide) "Q9").2 (by decide)).2.2.1⟩

/-! ## Query store: the schema invariant is kept by every call -/

theorem WF_empty : ({} : Store).WF := by decide

theorem updateQuery_WF (s : Store) (hwf : s.WF) (id : Nat)
    (f : DistributedQuery → DistributedQuery)
    (hf : ∀ r, (f r).ID = r.ID ∧ (f r).Name = r.Name) : (updateQuery s id f).WF := by
  have hID : (fun q : DistributedQuery => q.ID) ∘
      (fun q => if id = 0 ∨ q.ID = id then f q else q) = fun q => q.ID := by
    funext r
    by_cases h : id = 0 ∨ r.ID = id <;> simp [h, (hf r).1]
  have hName : (fun q : DistributedQuery => q.Name) ∘
      (fun q => if id = 0 ∨ q.ID = id then f q else q) = fun q => q.Name := by
    funext r
    by_cases h : id = 0 ∨ r.ID = id <;> simp [h, (hf r).2]
  refine ⟨?_, ?_, ?_⟩
  · simp only [updateQuery, List.map_map, hID]
    exact hwf.1
  · simp only [updateQuery, List.map_map, hName]
    exact hwf.2.1
  · intro q hq
    simp only [updateQuery, List.mem_map] at hq
    obtain ⟨r, hr, hrq⟩ := hq
    have := hwf.2.2 r hr
    by_cases h : id = 0 ∨ r.ID = id
    · rw [if_pos h] at hrq
      rw [← hrq, (hf r).1]
      exact this
    · rw [if_neg h] at hrq
      rw [← hrq]
      exact this

theorem Create_WF (s : Store) (hwf : s.WF) (query : DistributedQuery) (s1 : Store)
    (h : Create s query = .ok s1) : s1.WF := by
  unfold Create at h
  by_cases h1 : NewRecord query.ID = true
  · by_cases h2 : (s.queries.any (fun q => q.Name == query.Name)) = true
    · simp [h1, h2] at h
    · simp only [h1, h2, if_true] at h
      have hs1 := (Except.ok.inj h).symm
      subst hs1
      simp only [List.any_eq_true, beq_iff_eq, not_exists, not_and] at h2
      refine ⟨?_, ?_, ?_⟩
      · simp only [List.map_append, List.map_cons, List.map_nil]
        rw [List.nodup_append]
        refine ⟨hwf.1, List.nodup_singleton _, ?_⟩
        intro a ha hb
        simp only [List.mem_map] at ha
        obtain ⟨r, hr, rfl⟩ := ha
        simp only [List.mem_singleton] at hb
        have := (hwf.2.2 r hr).2
        omega
      · simp only [List.map_append, List.map_cons, List.map_nil]
        rw [List.nodup_append]
        refine ⟨hwf.2.1, List.nodup_singleton _, ?_⟩
        intro a ha hb
        simp only [List.mem_map] at ha
        obtain ⟨r, hr, rfl⟩ := ha
        simp only [List.mem_singleton] at hb
        exact h2 r hr hb
      · intro q hq
        simp only [List.mem_append, List.mem_singleton] at hq
        rcases hq with hq | rfl
        · have := hwf.2.2 q hq
          exact ⟨this.1, by simp only; omega⟩
        · exact ⟨by simp, by simp⟩
  · simp [h1] at h

/-- Every call of the query store keeps the schema invariant. -/
theorem step_WF (s : Store) (hwf : s.WF) (op : Op) : (step s op).WF := by
  unfold step
  cases op with
  | Create query =>
    simp only [Op.call]
    cases h : Create s query with
    | error e => exact hwf
    | ok s1 => exact Create_WF s hwf query s1 h
  | CreateTarget name targetType targetValue =>
    simp only [Op.call, CreateTarget, NewRecord, beq_self_eq_true, if_true]
    exact hwf
  | Activate name =>
    simp only [Op.call, Activate]
    cases Get s name with
    | error e => exact hwf
    | ok q => exact updateQuery_WF s hwf _ _ (fun _ => ⟨rfl, rfl⟩)
  | Complete name =>
    simp only [Op.call, Complete]
    cases Get s name with
    | error e => exact hwf
    | ok q => exact updateQuery_WF s hwf _ _ (fun _ => ⟨rfl, rfl⟩)
  | Delete name =>
    simp only [Op.call, Delete]
    cases Get s name with
    | error e => exact hwf
    | ok q => exact updateQuery_WF s hwf _ _ (fun _ => ⟨rfl, rfl⟩)
  | IncExecution name =>
    simp only [Op.call, IncExecution]
    cases Get s name with
    | error e => exact hwf
    | ok q => exact updateQuery_WF s hwf _ _ (fun _ => ⟨rfl, rfl⟩)
  | IncError name =>
    simp only [Op.call, IncError]
    cases Get s name with
    | error e => exact hwf
    | ok q => exact updateQuery_WF s hwf _ _ (fun _ => ⟨rfl, rfl⟩)
  | TrackExecution name uuid result =>
    simp only [Op.call, TrackExecution, NewRecord, beq_self_eq_true, if_true]
    exact hwf

theorem run_WF (ops : List Op) : ∀ (s : Store), s.WF → (run s ops).WF := by
  induction ops with
  | nil => intro s h; exact h
  | cons op ops ih => intro s h; exact ih (step s op) (step_WF s h op)

end Queries

/-! ## Permissions -/

namespace Permissions

open Users

theorem GoMap_keys_iff {V : Type} (m : GoMap V) (k : String) :
    k ∈ GoMap.keys m ↔ ∃ v, GoMap.get? m k = some v := by
  unfold GoMap.keys GoMap.get?
  induction m with
  | nil => simp
  | cons a m ih =>
    by_cases h : a.1 = k
    · simp [List.find?_cons, h]
    · have h1 : ¬ k = a.1 := fun e => h e.symm
      have hb : (a.1 == k) = false := by simp [h]
      simp only [List.map_cons, List.mem_cons, h1, false_or, List.find?_cons, hb]
      exact ih

/-- The loop of GenPermissions: exactly the listed names are keys, all mapped to level. -/
theorem foldl_set_level_get? (level : Bool) (k : String) :
    ∀ (L : List String) (acc : EnvPermissions),
      GoMap.get? (L.foldl (fun envs e => GoMap.set envs e level) acc) k =
        if k ∈ L then some level else GoMap.get? acc k := by
  intro L
  induction L with
  | nil => intro acc; simp
  | cons a L ih =>
    intro acc
    rw [List.foldl_cons, ih]
    by_cases h1 : k ∈ L
    · simp [h1]
    · by_cases h2 : k = a
      · simp [h1, h2, GoMap.get?_set]
      · simp [h1, h2, GoMap.get?_set]

theorem CheckPermissions_of_Get (s : Store) (username : String) (u : AdminUser)
    (level : AccessLevel) (environment : String) (h : Get s username = .ok u) :
    CheckPermissions s username level environment =
      if u.Admin then true
      else
        match ConvertPermissions u.Permissions with
        | .error _ => false
        | .ok perms =>
          if level = QueryLevel then perms.Query
          else if level = CarveLevel then perms.Carve
          else if level = EnvLevel then (GoMap.get? perms.Environments environment).getD false
          else false := by
  simp [CheckPermissions, ExistsGet, h]

/-- C5 (permission superset). For every user that the lookup by username finds and whose
Admin flag is true, CheckPermissions(username, level, environment) is true for every level,
one of the four named ones or any other integer, and every environment string, whatever the
stored permissions value is, a value that does not parse included. -/
theorem C5_admin_superset (s : Store) (username : String) (u : AdminUser)
    (hget : Get s username = .ok u) (hadmin : u.Admin = true) (level : AccessLevel)
    (environment : String) : CheckPermissions s username level environment = true := by
  rw [CheckPermissions_of_Get s username u level environment hget]
  simp [hadmin]

/-- Witness of C5: the admin of the sample table, whose permissions do not parse, passes a
check at a level that is none of the four named ones. -/
theorem C5_admin_superset_witness :
    CheckPermissions sampleUsers "root" 42 "no-such-environment" = true :=
  C5_admin_superset sampleUsers "root" sampleRoot (by rfl) (by decide) 42
    "no-such-environment"

/-- C6 (non-admin decision table). For every user that the lookup finds, with Admin=false
and stored permissions that parse to p, CheckPermissions is p.Query at QueryLevel, p.Carve at
CarveLevel, p.Environments[environment] at EnvLevel (false when the environment, the empty
NoEnvironment included, is not a key of the map) and false at AdminLevel and at every other
level. Each row of the table reads one flag only: two such users whose permissions agree on
the flag of a level get the same answer at that level, whatever their other flags are. -/
theorem C6_non_admin_table (s : Store) (username : String) (u : AdminUser) (p : UserPermissions)
    (hget : Get s username = .ok u) (hadmin : u.Admin = false)
    (hperms : ConvertPermissions u.Permissions = .ok p) :
    (∀ env, CheckPermissions s username QueryLevel env = p.Query) ∧
    (∀ env, CheckPermissions s username CarveLevel env = p.Carve) ∧
    (∀ env, CheckPermissions s username EnvLevel env =
      (GoMap.get? p.Environments env).getD false) ∧
    (∀ env, env ∉ GoMap.keys p.Environments → CheckPermissions s username EnvLevel env = false) ∧
    (∀ env, CheckPermissions s username AdminLevel env = false) ∧
    (∀ level env, level ≠ QueryLevel → level ≠ CarveLevel → level ≠ EnvLevel →
      CheckPermissions s username level env = false) ∧
    (∀ (s2 : Store) (username2 : String) (u2 : AdminUser) (p2 : UserPermissions),
      Get s2 username2 = .ok u2 → u2.Admin = false → ConvertPermissions u2.Permissions = .ok p2 →
      (p2.Query = p.Query → ∀ env env2,
        CheckPermissions s2 username2 QueryLevel env2 = CheckPermissions s username QueryLevel env) ∧
      (p2.Carve = p.Carve → ∀ env env2,
        CheckPermissions s2 username2 CarveLevel env2 = CheckPermissions s username CarveLevel env) ∧
      (p2.Environments = p.Environments → ∀ env,
        CheckPermissions s2 username2 EnvLevel env = CheckPermissions s username EnvLevel env)) := by
  have key : ∀ (level : AccessLevel) (env : String), CheckPermissions s username level env =
      if level = QueryLevel then p.Query
      else if level = CarveLevel then p.Carve
      else if level = EnvLevel then (GoMap.get? p.Environments env).getD false
      else false := by
    intro level env
    rw [CheckPermissions_of_Get s username u level env hget]
    simp [hadmin, hperms]
  refine ⟨?_, ?_, ?_, ?_, ?_, ?_, ?_⟩
  · intro env
    rw [key]
    simp
  · intro env
    rw [key]
    simp [QueryLevel, CarveLevel]
  · intro env
    rw [key]
    simp [QueryLevel, CarveLevel, EnvLevel]
  · intro env hk
    rw [key]
    have : GoMap.get? p.Environments env = none := by
      cases hg : GoMap.get? p.Environments env with
      | none => rfl
      | some v => exact absurd ((GoMap_keys_iff _ _).mpr ⟨v, hg⟩) hk
    simp [QueryLevel, CarveLevel, EnvLevel, this]
  · intro env
    rw [key]
    simp [QueryLevel, CarveLevel, EnvLevel, AdminLevel]
  · intro level env h1 h2 h3
    rw [key]
    simp [h1, h2, h3]
  · intro s2 username2 u2 p2 hget2 hadmin2 hperms2
    have key2 : ∀ (level : AccessLevel) (env : String),
        CheckPermissions s2 username2 level env =
        if level = QueryLevel then p2.Query
        else if level = CarveLevel then p2.Carve
        else if level = EnvLevel then (GoMap.get? p2.Environments env).getD false
        else false := by
      intro level env
      rw [CheckPermissions_of_Get s2 username2 u2 level env hget2]
      simp [hadmin2, hperms2]
    refine ⟨?_, ?_, ?_⟩
    · intro h env env2
      rw [key, key2]
      simp [h]
    · intro h env env2
      rw [key, key2]
      simp [h, QueryLevel, CarveLevel]
    · intro h env
      rw [key, key2]
      simp [h, QueryLevel, CarveLevel, EnvLevel]

/-- Witness of C6: the analyst of the sample table has query access, no carve access, and
environment access to dev but neither to prod (stored as false) nor to the empty name. -/
theorem C6_non_admin_table_witness :
    CheckPermissions sampleUsers "analyst" QueryLevel NoEnvironment = true ∧
      CheckPermissions sampleUsers "analyst" CarveLevel NoEnvironment = false ∧
      CheckPermissions sampleUsers "analyst" EnvLevel "dev" = true ∧
      CheckPermissions sampleUsers "analyst" EnvLevel "prod" = false ∧
      CheckPermissions sampleUsers "analyst" EnvLevel NoEnvironment = false ∧
      CheckPermissions sampleUsers "analyst" AdminLevel NoEnvironment = false := by
  have h := C6_non_admin_table sampleUsers "analyst" sampleAnalyst
    { Environments := [("dev", true), ("prod", false)], Query := true }
    (by rfl) (by decide) (by rfl)
  refine ⟨h.1 _, h.2.1 _, ?_, ?_, h.2.2.2.1 NoEnvironment (by decide), h.2.2.2.2.1 _⟩
  · rw [h.2.2.1]
    decide
  · rw [h.2.2.1]
    decide

theorem GoMap_set_keys_nodup {V : Type} (m : GoMap V) (k : String) (v : V)
    (h : (GoMap.keys m).Nodup) : (GoMap.keys (GoMap.set m k v)).Nodup := by
  unfold GoMap.keys GoMap.set at *
  rw [List.map_cons, List.nodup_cons]
  constructor
  · intro hk
    obtain ⟨e, he, hek⟩ := List.mem_map.mp hk
    have := (List.mem_filter.mp he).2
    simp at this
    exact this hek
  · exact h.sublist ((List.filter_sublist _).map _)

theorem foldl_set_keys_nodup (level : Bool) :
    ∀ (L : List String) (acc : EnvPermissions), (GoMap.keys acc).Nodup →
      (GoMap.keys (L.foldl (fun envs e => GoMap.set envs e level) acc)).Nodup := by
  intro L
  induction L with
  | nil => intro acc h; exact h
  | cons a L ih =>
    intro acc h
    exact ih _ (GoMap_set_keys_nodup acc a level h)

/-- C7 (GenPermissions). For every list of names, with or without duplicates or empty, and
every boolean level, GenPermissions returns Query = level, Carve = level and an Environments
map that has one entry per key, whose keys are exactly the names of the list, each mapped
to level. Hence a non-admin user holding GenPermissions(environments, level) gets level from
CheckPermissions at EnvLevel for a listed environment and false for any other one. The copy
of GenPermissions in users.go computes the same value as the one in permissions.go. -/
theorem C7_gen_permissions (environments : List String) (level : Bool) :
    (GenPermissions environments level).Query = level ∧
    (GenPermissions environments level).Carve = level ∧
    (GoMap.keys (GenPermissions environments level).Environments).Nodup ∧
    (∀ k, k ∈ GoMap.keys (GenPermissions environments level).Environments ↔ k ∈ environments) ∧
    (∀ k, k ∈ environments →
      GoMap.get? (GenPermissions environments level).Environments k = some level) ∧
    (∀ (s : Store) (username : String) (u : AdminUser), Get s username = .ok u →
      u.Admin = false → u.Permissions = jsonMarshal (GenPermissions environments level) →
      ∀ env, (env ∈ environments → CheckPermissions s username EnvLevel env = level) ∧
        (env ∉ environments → CheckPermissions s username EnvLevel env = false)) ∧
    Users.GenPermissions environments level = GenPermissions environments level := by
  have hget : ∀ k, GoMap.get? (GenPermissions environments level).Environments k =
      if k ∈ environments then some level else none := by
    intro k
    simp only [GenPermissions]
    rw [foldl_set_level_get?]
    rfl
  refine ⟨rfl, rfl, ?_, ?_, ?_, ?_, rfl⟩
  · exact foldl_set_keys_nodup level environments [] List.nodup_nil
  · intro k
    rw [GoMap_keys_iff, hget]
    by_cases h : k ∈ environments <;> simp [h]
  · intro k hk
    rw [hget, if_pos hk]
  · intro s username u hu hadmin hperms env
    have hconv : ConvertPermissions u.Permissions = .ok (GenPermissions environments level) := by
      rw [hperms]
      rfl
    have key := CheckPermissions_of_Get s username u EnvLevel env hu
    rw [hconv] at key
    simp only [hadmin, Bool.false_eq_true, if_false] at key
    rw [key, hget]
    constructor
    · intro h
      simp [h, EnvLevel, QueryLevel, CarveLevel]
    · intro h
      simp [h, EnvLevel, QueryLevel, CarveLevel]

/-- Witness of C7, the scenario of the spec: GenPermissions(["prod","dev"], true) grants
prod, dev, query and carve, and its holder passes the check for dev and fails it for qa. -/
theorem C7_gen_permissions_witness :
    GenPermissions ["prod", "dev"] true =
        { Environments := [("dev", true), ("prod", true)], Query := true, Carve := true } ∧
      CheckPermissions sampleUsers "operator" EnvLevel "dev" = true ∧
      CheckPermissions sampleUsers "operator" EnvLevel "qa" = false :=
  ⟨by decide,
    ((C7_gen_permissions ["prod", "dev"] true).2.2.2.2.2.1 sampleUsers "operator" sampleOperator
      (by rfl) (by decide) (by rfl) "dev").1 (by decide),
    ((C7_gen_permissions ["prod", "dev"] true).2.2.2.2.2.1 sampleUsers "operator" sampleOperator
      (by rfl) (by decide) (by rfl) "qa").2 (by decide)⟩

end Permissions

/-! ## Administrative POST handlers -/

namespace Handlers

open Users Permissions Nodes Queries

theorem H_bind_eq {α β : Type} (m : H α) (f : α → H β) : (m >>= f) = H.bind m f := rfl

theorem H_pure_eq {α : Type} (a : α) : (Pure.pure a : H α) = H.pure a := rfl

theorem call_run (c : Call) (us : Users.Store) (past : List Call) :
    call c us past = { value := some (), users := us, calls := [c] } := rfl

theorem fail_run {α : Type} (msg : String) (status : Nat) (us : Users.Store)
    (past : List Call) :
    (fail msg status : H α) us past =
      { value := none, users := us,
        calls := [.adminErrorResponse msg status, .Inc metricAdminErr] } := rfl

theorem authorize_run (user : String) (level : AccessLevel) (environment : String)
    (us : Users.Store) (past : List Call) :
    authorize user level environment us past =
      if CheckPermissions us user level environment then
        { value := some (), users := us,
          calls := [.UsersCheckPermissions user level environment] }
      else
        { value := none, users := us,
          calls := [.UsersCheckPermissions user level environment,
            .adminErrorResponse (user ++ " has insuficient permissions") 403,
            .Inc metricAdminErr] } := by
  by_cases hc : CheckPermissions us user level environment = true
  · simp [authorize, H_bind_eq, H_pure_eq, H.bind, H.pure, call, askUsers, hc]
  · simp [authorize, H_bind_eq, H.bind, call, askUsers, hc, fail, halt]

/-- A trace without mutating calls is trivially checked. -/
theorem CheckedFirst_of_quiet (check : Call) (calls : List Call)
    (h : ∀ c ∈ calls, c.mutating = false) : CheckedFirst check calls := by
  intro pre c post heq hc
  have : c ∈ calls := by rw [heq]; simp
  rw [h c this] at hc
  cases hc

/-- Calls without mutation may come before a checked trace. -/
theorem CheckedFirst_append (check : Call) (l1 l2 : List Call)
    (h1 : ∀ c ∈ l1, c.mutating = false) (h2 : CheckedFirst check l2) :
    CheckedFirst check (l1 ++ l2) := by
  intro pre c post heq hc
  rcases List.append_eq_append_iff.mp heq with ⟨a, ha1, ha2⟩ | ⟨b, hb1, hb2⟩
  · have := h2 a c post ha2 hc
    rw [ha1]
    exact List.mem_append_right _ this
  · cases b with
    | nil =>
      simp only [List.nil_append] at hb2
      have := h2 [] c post hb2.symm hc
      cases this
    | cons x b =>
      simp only [List.cons_append, List.cons.injEq] at hb2
      have hx : c ∈ l1 := by rw [hb1, hb2.1]; simp
      rw [h1 c hx] at hc
      cases hc

/-- A trace that starts with the check is checked. -/
theorem CheckedFirst_cons (check : Call) (rest : List Call) (hcheck : check.mutating = false) :
    CheckedFirst check (check :: rest) := by
  intro pre c post heq hc
  cases pre with
  | nil =>
    simp only [List.nil_append, List.cons.injEq] at heq
    rw [← heq.1, hcheck] at hc
    cases hc
  | cons x pre =>
    simp only [List.cons_append, List.cons.injEq] at heq
    rw [← heq.1]
    exact List.mem_cons_self _ _

/-- A part of a handler that writes nothing may come before a guarded rest. -/
theorem Guarded_bind {α : Type} (user : String) (level : AccessLevel) (environment : String)
    (m : H α) (k : α → H Unit)
    (hm : ∀ us past, (m us past).users = us ∧ ∀ c ∈ (m us past).calls, c.mutating = false)
    (hk : ∀ us past a, (m us past).value = some a → Guarded user level environment (k a)) :
    Guarded user level environment (m >>= k) := by
  intro us past
  rw [H_bind_eq]
  unfold H.bind
  cases hv : (m us past).value with
  | none =>
    simp only [hv]
    exact ⟨CheckedFirst_of_quiet _ _ (hm us past).2, fun _ => ⟨(hm us past).1, (hm us past).2⟩⟩
  | some a =>
    simp only [hv]
    have hg := hk us past a hv (m us past).users (past ++ (m us past).calls)
    rw [(hm us past).1] at hg ⊢
    refine ⟨CheckedFirst_append _ _ _ (hm us past).2 hg.1, ?_⟩
    intro hden
    refine ⟨(hg.2 hden).1, ?_⟩
    intro c hc
    rcases List.mem_append.mp hc with h1 | h2
    · exact (hm us past).2 c h1
    · exact (hg.2 hden).2 c h2

/-- The rest of a handler after its permission check is guarded, whatever it does. -/
theorem Guarded_authorize (user : String) (level : AccessLevel) (environment : String)
    (k : Unit → H Unit) : Guarded user level environment (authorize user level environment >>= k) := by
  intro us past
  rw [H_bind_eq]
  unfold H.bind
  rw [authorize_run]
  by_cases hc : CheckPermissions us user level environment = true
  · rw [if_pos hc]
    refine ⟨CheckedFirst_cons _ _ rfl, ?_⟩
    intro hden
    rw [hden] at hc
    cases hc
  · rw [if_neg hc]
    refine ⟨CheckedFirst_of_quiet _ _ ?_, fun _ => ⟨rfl, ?_⟩⟩
    · intro c hmem
      simp only [List.mem_cons, List.mem_singleton, List.not_mem_nil, or_false] at hmem
      rcases hmem with h | h | h <;> rw [h] <;> rfl
    · intro c hmem
      simp only [List.mem_cons, List.mem_singleton, List.not_mem_nil, or_false] at hmem
      rcases hmem with h | h | h <;> rw [h] <;> rfl

theorem pure_quiet {α : Type} (a : α) (us : Users.Store) (past : List Call) :
    ((Pure.pure a : H α) us past).users = us ∧
      ∀ x ∈ ((Pure.pure a : H α) us past).calls, x.mutating = false :=
  ⟨rfl, fun _ hx => by cases hx⟩

theorem fail_quiet {α : Type} (msg : String) (status : Nat) (us : Users.Store)
    (past : List Call) :
    ((fail msg status : H α) us past).users = us ∧
      ∀ x ∈ ((fail msg status : H α) us past).calls, x.mutating = false := by
  refine ⟨rfl, ?_⟩
  intro x hx
  simp only [fail_run, List.mem_cons, List.mem_singleton, List.not_mem_nil, or_false] at hx
  rcases hx with h1 | h1 <;> rw [h1] <;> rfl

theorem call_quiet (c : Call) (hc : c.mutating = false) (us : Users.Store) (past : List Call) :
    (call c us past).users = us ∧ ∀ x ∈ (call c us past).calls, x.mutating = false := by
  refine ⟨rfl, ?_⟩
  intro x hx
  simp only [call_run, List.mem_singleton] at hx
  rw [hx]
  exact hc

/-- A handler that returns with an error response before any mutating call is guarded. -/
theorem Guarded_fail (user : String) (level : AccessLevel) (environment : String)
    (msg : String) (status : Nat) (k : Unit → H Unit) :
    Guarded user level environment (fail msg status >>= k) :=
  Guarded_bind user level environment _ _ (fail_quiet msg status)
    (fun us past a ha => by rw [fail_run] at ha; cases ha)

theorem Guarded_ite (user : String) (level : AccessLevel) (environment : String)
    (c : Prop) [Decidable c] (a b : H Unit) (ha : Guarded user level environment a)
    (hb : Guarded user level environment b) :
    Guarded user level environment (if c then a else b) := by
  by_cases h : c
  · rw [if_pos h]; exact ha
  · rw [if_neg h]; exact hb

/-- A handler that opens with the request metric and the permission check is guarded. -/
theorem Guarded_handler (user : String) (level : AccessLevel) (environment : String)
    (k : Unit → H Unit) :
    Guarded user level environment
      (call (.Inc metricAdminReq) >>= fun _ => authorize user level environment >>= k) :=
  Guarded_bind user level environment _ _ (call_quiet _ rfl)
    (fun _ _ _ _ => Guarded_authorize user level environment k)

theorem environmentVar_run (h : HandlersAdmin) (vars : GoMap String) (us : Users.Store)
    (past : List Call) :
    environmentVar h vars us past =
      { value := some (varsEnvironment vars), users := us, calls := [] } ∨
    environmentVar h vars us past =
      { value := none, users := us,
        calls := [.adminErrorResponse "error getting environment" 500, .Inc metricAdminErr] } := by
  unfold environmentVar varsEnvironment
  cases hv : GoMap.get? vars "environment" with
  | none =>
    right
    simp [H_bind_eq, H.bind, orElse, H_pure_eq, H.pure, fail, halt, call]
  | some v =>
    by_cases he : h.EnvsExists past v = true
    · left
      simp [H_bind_eq, H.bind, orElse, H_pure_eq, H.pure, ask, he]
    · right
      simp [H_bind_eq, H.bind, orElse, H_pure_eq, H.pure, ask, he, fail, halt, call]

/-- A handler for one environment (request metric, lookup of the environment, permission
check) is guarded. -/
theorem Guarded_env_handler (h : HandlersAdmin) (vars : GoMap String) (user : String)
    (k : String → Unit → H Unit) :
    Guarded user EnvLevel (varsEnvironment vars)
      (call (.Inc metricAdminReq) >>= fun _ =>
        environmentVar h vars >>= fun e => authorize user EnvLevel e >>= k e) := by
  refine Guarded_bind user EnvLevel _ _ _ (call_quiet _ rfl) (fun _ _ _ _ => ?_)
  refine Guarded_bind user EnvLevel _ _ _ ?_ ?_
  · intro us past
    rcases environmentVar_run h vars us past with hr | hr
    · rw [hr]
      exact ⟨rfl, fun c hc => by cases hc⟩
    · rw [hr]
      refine ⟨rfl, ?_⟩
      intro c hmem
      simp only [List.mem_cons, List.mem_singleton, List.not_mem_nil, or_false] at hmem
      rcases hmem with h1 | h1 <;> rw [h1] <;> rfl
  · intro us past a ha
    rcases environmentVar_run h vars us past with hr | hr
    · rw [hr] at ha
      have : varsEnvironment vars = a := Option.some.inj ha
      rw [this]
      exact Guarded_authorize user EnvLevel a (k a)
    · rw [hr] at ha
      cases ha

/-- C9 (authorization precedes mutation). In each of the fifteen administrative POST
handlers that mutate state, run for a session user on any user table with any answers of
the collaborators and any request: every mutating call on the query store, node registry,
user store, environments, settings, tags or carves comes after the evaluation of
CheckPermissions for the session user, at QueryLevel for QueryRun and QueryActions, at
CarveLevel for CarvesRun and CarvesActions, at EnvLevel for the addressed environment for
Conf, Intervals, Expiration and Enroll, and at AdminLevel for NodeActions, Envs, Settings,
Users, Tags, TagNodes and Permissions; and when CheckPermissions returns false the handler
leaves the user table as it is and makes no mutating call at all. -/
theorem C9_authorization_precedes_mutation (h : HandlersAdmin) (ctx : ContextValue)
    (vars : GoMap String) :
    (∀ body, Guarded ctx.user QueryLevel NoEnvironment (QueryRunPOSTHandler h ctx body)) ∧
    (∀ body, Guarded ctx.user QueryLevel NoEnvironment (QueryActionsPOSTHandler h ctx body)) ∧
    (∀ body, Guarded ctx.user CarveLevel NoEnvironment (CarvesRunPOSTHandler h ctx body)) ∧
    (∀ body, Guarded ctx.user CarveLevel NoEnvironment (CarvesActionsPOSTHandler h ctx body)) ∧
    (∀ body, Guarded ctx.user EnvLevel (varsEnvironment vars) (ConfPOSTHandler h ctx vars body)) ∧
    (∀ body, Guarded ctx.user EnvLevel (varsEnvironment vars)
      (IntervalsPOSTHandler h ctx vars body)) ∧
    (∀ body, Guarded ctx.user EnvLevel (varsEnvironment vars)
      (ExpirationPOSTHandler h ctx vars body)) ∧
    (∀ body, Guarded ctx.user EnvLevel (varsEnvironment vars)
      (EnrollPOSTHandler h ctx vars body)) ∧
    (∀ body, Guarded ctx.user AdminLevel NoEnvironment (NodeActionsPOSTHandler h ctx body)) ∧
    (∀ body, Guarded ctx.user AdminLevel NoEnvironment (EnvsPOSTHandler h ctx body)) ∧
    (∀ body, Guarded ctx.user AdminLevel NoEnvironment (SettingsPOSTHandler h ctx vars body)) ∧
    (∀ body, Guarded ctx.user AdminLevel NoEnvironment (UsersPOSTHandler h ctx body)) ∧
    (∀ body, Guarded ctx.user AdminLevel NoEnvironment (TagsPOSTHandler h ctx body)) ∧
    (∀ body, Guarded ctx.user AdminLevel NoEnvironment (TagNodesPOSTHandler h ctx body)) ∧
    (∀ body, Guarded ctx.user AdminLevel NoEnvironment
      (PermissionsPOSTHandler h ctx vars body)) := by
  refine ⟨?_, ?_, ?_, ?_, ?_, ?_, ?_, ?_, ?_, ?_, ?_, ?_, ?_, ?_, ?_⟩
  · intro body
    exact Guarded_handler _ _ _ _
  · intro body
    exact Guarded_handler _ _ _ _
  · intro body
    exact Guarded_handler _ _ _ _
  · intro body
    exact Guarded_handler _ _ _ _
  · intro body
    exact Guarded_env_handler h vars _ _
  · intro body
    exact Guarded_env_handler h vars _ _
  · intro body
    exact Guarded_env_handler h vars _ _
  · intro body
    exact Guarded_env_handler h vars _ _
  · intro body
    exact Guarded_handler _ _ _ _
  · intro body
    exact Guarded_handler _ _ _ _
  · intro body
    unfold SettingsPOSTHandler
    refine Guarded_bind _ _ _ _ _ (call_quiet _ rfl) (fun _ _ _ _ => ?_)
    cases GoMap.get? vars "service" with
    | none =>
      exact Guarded_bind _ _ _ _ _ (fail_quiet _ _)
        (fun us past a ha => by rw [fail_run] at ha; cases ha)
    | some v =>
      refine Guarded_bind _ _ _ _ _ (pure_quiet v) (fun _ _ serviceVar _ => ?_)
      refine Guarded_ite _ _ _ _ _ _ (Guarded_fail _ _ _ _ _ _) ?_
      refine Guarded_bind _ _ _ _ _ (pure_quiet _) (fun _ _ _ _ => ?_)
      exact Guarded_authorize _ _ _ _
  · intro body
    exact Guarded_handler _ _ _ _
  · intro body
    exact Guarded_handler _ _ _ _
  · intro body
    exact Guarded_handler _ _ _ _
  · intro body
    unfold PermissionsPOSTHandler
    refine Guarded_bind _ _ _ _ _ (call_quiet _ rfl) (fun _ _ _ _ => ?_)
    cases GoMap.get? vars "username" with
    | none =>
      refine Guarded_bind _ _ _ _ _ (pure_quiet _) (fun _ _ _ _ => ?_)
      refine Guarded_ite _ _ _ _ _ _ (Guarded_fail _ _ _ _ _ _) ?_
      refine Guarded_bind _ _ _ _ _ (pure_quiet _) (fun _ _ _ _ => ?_)
      exact Guarded_authorize _ _ _ _
    | some v =>
      refine Guarded_bind _ _ _ _ _ (fun _ _ => ⟨rfl, fun c hc => by cases hc⟩)
        (fun _ _ _ _ => ?_)
      refine Guarded_ite _ _ _ _ _ _ (Guarded_fail _ _ _ _ _ _) ?_
      refine Guarded_bind _ _ _ _ _ (pure_quiet _) (fun _ _ _ _ => ?_)
      exact Guarded_authorize _ _ _ _

/-- Witness of C9 on the sample table: the analyst, who is no admin, asks for the promotion
of the operator and the handler touches nothing; root asks for it and every mutating call
comes after the check. -/
theorem C9_authorization_precedes_mutation_witness :
    ((UsersPOSTHandler sampleHandlers analystSession
        (some { promoteAnalyst with Username := "operator" }) sampleUsers []).users = sampleUsers ∧
      ∀ c ∈ (UsersPOSTHandler sampleHandlers analystSession
        (some { promoteAnalyst with Username := "operator" }) sampleUsers []).calls,
        c.mutating = false) ∧
    CheckedFirst (.UsersCheckPermissions "root" AdminLevel NoEnvironment)
      (UsersPOSTHandler sampleHandlers rootSession (some promoteAnalyst) sampleUsers []).calls :=
  ⟨(((C9_authorization_precedes_mutation sampleHandlers analystSession []).2.2.2.2.2.2.2.2.2.2.2.1
      (some { promoteAnalyst with Username := "operator" })) sampleUsers []).2 (by decide),
    (((C9_authorization_precedes_mutation sampleHandlers rootSession []).2.2.2.2.2.2.2.2.2.2.2.1
      (some promoteAnalyst)) sampleUsers []).1⟩

/-! ## The action admin of UsersPOSTHandler -/

/-- Counterexample to C8 as stated: root demotes the admin operator, who holds
GenPermissions(["prod","dev"], true). Afterwards the Admin flag of the operator is false and
the stored permissions are what they were, not GenPermissions(["prod","dev"], false): the
query, carve and environment grants remain true and the demoted user still passes the
checks. -/
theorem C8_demotion_keeps_grants :
    Users.Get twoAdmins "operator" = .ok adminOperator ∧
    Users.Get (UsersPOSTHandler sampleHandlers rootSession (some demoteOperator)
        twoAdmins []).users "operator" = .ok { adminOperator with Admin := false } ∧
    adminOperator.Permissions = jsonMarshal (Users.GenPermissions ["prod", "dev"] true) ∧
    adminOperator.Permissions ≠ jsonMarshal (Users.GenPermissions ["prod", "dev"] false) ∧
    CheckPermissions (UsersPOSTHandler sampleHandlers rootSession (some demoteOperator)
        twoAdmins []).users "operator" QueryLevel NoEnvironment = true ∧
    CheckPermissions (UsersPOSTHandler sampleHandlers rootSession (some demoteOperator)
        twoAdmins []).users "operator" EnvLevel "prod" = true := by
  refine ⟨by rfl, by rfl, by rfl, by decide, by rfl, by rfl⟩

theorem Users_Get_updateUser (us : Users.Store) (name : String) (t : AdminUser)
    (f : AdminUser → AdminUser) (hf : ∀ r, (f r).Username = r.Username)
    (h : Users.Get us name = .ok t) : Users.Get (updateUser us t.ID f) name = .ok (f t) := by
  unfold Users.Get at h ⊢
  cases hl : us.users.find? (fun u => u.Username == name) with
  | none => rw [hl] at h; cases h
  | some x =>
    rw [hl] at h
    have hx : x = t := Except.ok.inj h
    subst hx
    have hcomp : ((fun u => u.Username == name) ∘
        fun r => if x.ID = 0 ∨ r.ID = x.ID then f r else r)
        = fun u : AdminUser => u.Username == name := by
      funext r
      by_cases hr : x.ID = 0 ∨ r.ID = x.ID
      · simp [hr, hf]
      · simp [hr]
    simp only [updateUser, List.find?_map, hcomp, hl, Option.map_some', or_true, if_true]

theorem Users_Exists_of_Get (us : Users.Store) (name : String) (t : AdminUser)
    (h : Users.Get us name = .ok t) : Users.Exists us name = true := by
  unfold Users.Get at h
  cases hl : us.users.find? (fun u => u.Username == name) with
  | none => rw [hl] at h; cases h
  | some x =>
    have hm := List.mem_of_find?_eq_some hl
    have hp := List.find?_some hl
    simp only [Users.Exists, decide_eq_true_eq, gt_iff_lt, List.length_pos]
    intro hnil
    have : x ∈ us.users.filter (fun u => u.Username == name) := List.mem_filter.mpr ⟨hm, hp⟩
    rw [hnil] at this
    cases this

theorem H_bind_run {α β : Type} (m : H α) (f : α → H β) (us : Users.Store) (past : List Call) :
    H.bind m f us past =
      match (m us past).value with
      | none => { value := none, users := (m us past).users, calls := (m us past).calls }
      | some a =>
        { value := (f a (m us past).users (past ++ (m us past).calls)).value
          users := (f a (m us past).users (past ++ (m us past).calls)).users
          calls := (m us past).calls ++ (f a (m us past).users (past ++ (m us past).calls)).calls } := rfl

theorem H_pure_run {α : Type} (a : α) (us : Users.Store) (past : List Call) :
    H.pure a us past = { value := some a, users := us, calls := [] } := rfl

theorem askUsers_run {α : Type} (g : Users.Store → α) (us : Users.Store) (past : List Call) :
    askUsers g us past = { value := some (g us), users := us, calls := [] } := rfl

theorem ask_run {α : Type} (g : List Call → α) (us : Users.Store) (past : List Call) :
    ask g us past = { value := some (g past), users := us, calls := [] } := rfl

theorem usersCall_run (c : Call) (g : Users.Store → Except Users.Error Users.Store)
    (us : Users.Store) (past : List Call) :
    usersCall c g us past =
      match g us with
      | .ok us1 => { value := some false, users := us1, calls := [c] }
      | .error _ => { value := some true, users := us, calls := [c] } := rfl

theorem ChangeAdmin_Get (us : Users.Store) (name : String) (t : AdminUser) (a : Bool)
    (h : Users.Get us name = .ok t) :
    ∃ us1, ChangeAdmin us name a = .ok us1 ∧ Users.Get us1 name = .ok { t with Admin := a } := by
  unfold ChangeAdmin
  rw [h]
  by_cases hne : (a != t.Admin) = true
  · simp only [hne, if_true]
    exact ⟨_, rfl, Users_Get_updateUser us name t _ (fun _ => rfl) h⟩
  · simp only [hne]
    refine ⟨us, rfl, ?_⟩
    have : a = t.Admin := by simpa using hne
    rw [h, this]

theorem ChangePermissions_Get (us : Users.Store) (name : String) (t : AdminUser)
    (p : UserPermissions) (h : Users.Get us name = .ok t) :
    ∃ us1, ChangePermissions us name p = .ok us1 ∧
      Users.Get us1 name = .ok { t with Permissions := jsonMarshal p } := by
  unfold ChangePermissions
  rw [h]
  exact ⟨_, rfl, Users_Get_updateUser us name t _ (fun _ => rfl) h⟩

theorem UpdateToken_Get (us : Users.Store) (name token : String) (exp : Nat) (t : AdminUser)
    (h : Users.Get us name = .ok t) :
    ∃ us1 t1, UpdateToken us name token exp = .ok us1 ∧ Users.Get us1 name = .ok t1 ∧
      t1.Admin = t.Admin ∧ t1.Permissions = t.Permissions := by
  unfold UpdateToken
  rw [h]
  by_cases hne : (token != t.APIToken) = true
  · simp only [hne, if_true]
    exact ⟨_, _, rfl, Users_Get_updateUser us name t _ (fun _ => rfl) h, rfl, rfl⟩
  · simp only [hne]
    exact ⟨us, t, rfl, h, rfl, rfl⟩

/-- The action "admin" of UsersPOSTHandler with Admin = false in the request, run by a
session user who passes the AdminLevel check, with a valid CSRF token, for an existing user
other than the session user: afterwards the Admin flag of the user is false and every other
column of the row, the stored permissions included, is as before. -/
theorem UsersPOSTHandler_admin_false (h : HandlersAdmin) (ctx : ContextValue)
    (u : UsersRequest) (us : Users.Store) (past : List Call) (target : AdminUser)
    (hauth : CheckPermissions us ctx.user AdminLevel NoEnvironment = true)
    (hcsrf : h.CheckCSRFToken ctx.csrftoken u.CSRFToken = true)
    (haction : u.Action = "admin")
    (hother : u.Username ≠ ctx.user)
    (hget : Users.Get us u.Username = .ok target)
    (hadm : u.Admin = false) :
    Users.Get (UsersPOSTHandler h ctx (some u) us past).users u.Username
      = .ok { target with Admin := false } := by
  have hex := Users_Exists_of_Get us _ _ hget
  obtain ⟨csrf, action, username, password, email, fullname, admin, token⟩ := u
  simp only at haction hother hget hex hcsrf hadm
  subst haction
  subst hadm
  obtain ⟨us1, hca, hg1⟩ := ChangeAdmin_Get us username target false hget
  simp [UsersPOSTHandler, H_bind_eq, H_bind_run, call_run, authorize_run, hauth, decode,
    H_pure_eq, H_pure_run, checkCSRF, hcsrf, hother, askUsers_run, hex, usersCall_run, hca,
    fail_run, hg1]

/-- C8 as amended. Whenever the action "admin" of UsersPOSTHandler, run by a session user
who passes the AdminLevel check, with a valid CSRF token and readable environment names,
sets the Admin flag of an existing user other than the session user to true, the Admin flag
of that user is true afterwards and the stored permissions equal GenPermissions(all
environment names, true), every environment, query and carve set to true, whatever grants
were stored before and whether or not the token that follows can be created. -/
theorem C8_promotion_rebaselines (h : HandlersAdmin) (ctx : ContextValue) (u : UsersRequest)
    (us : Users.Store) (past : List Call) (target : AdminUser) (namesEnvs : List String)
    (hauth : CheckPermissions us ctx.user AdminLevel NoEnvironment = true)
    (hcsrf : h.CheckCSRFToken ctx.csrftoken u.CSRFToken = true)
    (haction : u.Action = "admin")
    (hother : u.Username ≠ ctx.user)
    (hget : Users.Get us u.Username = .ok target)
    (hnames : ∀ p, h.EnvsNames p = some namesEnvs)
    (hadm : u.Admin = true) :
    ∃ t1, Users.Get (UsersPOSTHandler h ctx (some u) us past).users u.Username = .ok t1 ∧
      t1.Admin = true ∧
      t1.Permissions = jsonMarshal (Users.GenPermissions namesEnvs true) := by
  have hex := Users_Exists_of_Get us _ _ hget
  obtain ⟨csrf, action, username, password, email, fullname, admin, token⟩ := u
  simp only at haction hother hget hex hcsrf hadm
  subst haction
  subst hadm
  obtain ⟨us1, hca, hg1⟩ := ChangeAdmin_Get us username target true hget
  obtain ⟨us2, hcp, hg2⟩ := ChangePermissions_Get us1 username _
    (Users.GenPermissions namesEnvs true) hg1
  simp only [UsersPOSTHandler, H_bind_eq, H_bind_run, call_run, authorize_run, hauth, decode,
    H_pure_eq, H_pure_run, checkCSRF, hcsrf, hother, askUsers_run, hex, usersCall_run, hca,
    fail_run, ask_run, hnames, hcp, if_true, Bool.not_true, Bool.false_eq_true, if_false]
  generalize h.CreateToken _ username = ct
  rcases ct with _ | ⟨tok, exp⟩
  · simp [hg2, fail_run, H_bind_run]
  · obtain ⟨us3, t3, hut, hg3, ha3, hp3⟩ := UpdateToken_Get us2 username tok exp _ hg2
    simp [hut, hg3, ha3, hp3, fail_run, call_run, H_bind_run, usersCall_run, H_pure_run]

/-- Witness of C8 as amended: root promotes the analyst of the sample table, whose stored
grants were dev and query only, and the analyst ends as an admin holding
GenPermissions(["prod","dev"], true). -/
theorem C8_promotion_rebaselines_witness :
    ∃ t1, Users.Get (UsersPOSTHandler sampleHandlers rootSession (some promoteAnalyst)
        sampleUsers []).users promoteAnalyst.Username = .ok t1 ∧
      t1.Admin = true ∧
      t1.Permissions = jsonMarshal (Users.GenPermissions ["prod", "dev"] true) :=
  C8_promotion_rebaselines sampleHandlers rootSession promoteAnalyst sampleUsers []
    sampleAnalyst ["prod", "dev"] (by decide) (by decide) (by rfl) (by decide) (by rfl)
    (fun _ => rfl) (by rfl)

end Handlers

/-! ## Query store: views, tombstone, flags, counters, names -/

namespace Queries

open Nodes

theorem mem_Gets_completed (s : Store) (q : DistributedQuery) :
    q ∈ Gets s "completed" ↔
      q ∈ s.queries ∧ q.Active = false ∧ q.Completed = true ∧ q.Deleted = false := by
  simp [Gets, and_assoc]

theorem mem_Gets_all (s : Store) (q : DistributedQuery) :
    q ∈ Gets s "all" ↔ q ∈ s.queries ∧ q.Deleted = false := by
  simp [Gets]

theorem mem_Gets_deleted (s : Store) (q : DistributedQuery) :
    q ∈ Gets s "deleted" ↔ q ∈ s.queries ∧ q.Deleted = true := by
  simp [Gets]

/-- C11 (listing by state). In every store state Gets("active") returns exactly the stored
queries with active, not completed and not deleted; Gets("completed") exactly those with not
active, completed and not deleted; Gets("all") exactly those with not deleted;
Gets("deleted") exactly those with deleted: each view is the table filtered by that
predicate, in table order. -/
theorem C11_listing_by_state (s : Store) :
    (∀ q, q ∈ Gets s "active" ↔
      q ∈ s.queries ∧ q.Active = true ∧ q.Completed = false ∧ q.Deleted = false) ∧
    (∀ q, q ∈ Gets s "completed" ↔
      q ∈ s.queries ∧ q.Active = false ∧ q.Completed = true ∧ q.Deleted = false) ∧
    (∀ q, q ∈ Gets s "all" ↔ q ∈ s.queries ∧ q.Deleted = false) ∧
    (∀ q, q ∈ Gets s "deleted" ↔ q ∈ s.queries ∧ q.Deleted = true) ∧
    Gets s "active" = s.queries.filter (fun q => q.Active && !q.Completed && !q.Deleted) ∧
    Gets s "completed" = s.queries.filter (fun q => !q.Active && q.Completed && !q.Deleted) ∧
    Gets s "all" = s.queries.filter (fun q => !q.Deleted) ∧
    Gets s "deleted" = s.queries.filter (fun q => q.Deleted) := by
  refine ⟨mem_Gets_active s, mem_Gets_completed s, mem_Gets_all s, mem_Gets_deleted s,
    ?_, ?_, ?_, ?_⟩ <;> simp [Gets]

/-- Counterexample to C12 as stated: Create on the empty store of a query whose three flags
have their zero value succeeds; in the state reached no query has active and completed both
true, yet the stored query is listed by Gets("all") and by neither Gets("active") nor
Gets("completed"). -/
theorem C12_idle_query_in_no_view :
    ∃ s, Create {} scenarioDraft = .ok s ∧
      (∀ q ∈ s.queries, ¬ (q.Active = true ∧ q.Completed = true)) ∧
      ∃ q, q ∈ Gets s "all" ∧ q ∉ Gets s "active" ∧ q ∉ Gets s "completed" :=
  ⟨{ queries := [{ scenarioDraft with ID := 1 }], querySeq := 1 }, by rfl, by decide,
    { scenarioDraft with ID := 1 }, by decide, by decide, by decide⟩

/-- C12 as amended. In every store state the views "active", "completed" and "deleted" are
pairwise disjoint and the views "active" and "completed" lie inside the view "all"; the two
together cover the view "all" exactly when every stored query that is not deleted has
exactly one of active and completed true. The cover fails for a query with both flags true
and also for a query with both flags false. -/
theorem C12_view_partition (s : Store) :
    (∀ q, ¬ (q ∈ Gets s "active" ∧ q ∈ Gets s "completed")) ∧
    (∀ q, ¬ (q ∈ Gets s "active" ∧ q ∈ Gets s "deleted")) ∧
    (∀ q, ¬ (q ∈ Gets s "completed" ∧ q ∈ Gets s "deleted")) ∧
    (∀ q, q ∈ Gets s "active" ∨ q ∈ Gets s "completed" → q ∈ Gets s "all") ∧
    ((∀ q, q ∈ Gets s "all" → q ∈ Gets s "active" ∨ q ∈ Gets s "completed") ↔
      ∀ q ∈ s.queries, q.Deleted = false → q.Active = !q.Completed) := by
  simp only [mem_Gets_active, mem_Gets_completed, mem_Gets_all, mem_Gets_deleted]
  refine ⟨?_, ?_, ?_, ?_, ?_⟩
  · rintro q ⟨⟨_, h1, _, _⟩, ⟨_, h2, _, _⟩⟩
    rw [h1] at h2; cases h2
  · rintro q ⟨⟨_, _, _, h1⟩, ⟨_, h2⟩⟩
    rw [h1] at h2; cases h2
  · rintro q ⟨⟨_, _, _, h1⟩, ⟨_, h2⟩⟩
    rw [h1] at h2; cases h2
  · rintro q (⟨h, _, _, h1⟩ | ⟨h, _, _, h1⟩) <;> exact ⟨h, h1⟩
  · constructor
    · intro h q hq hd
      rcases h q ⟨hq, hd⟩ with ⟨_, h1, h2, _⟩ | ⟨_, h1, h2, _⟩ <;> simp [h1, h2]
    · rintro h q ⟨hq, hd⟩
      have := h q hq hd
      cases hc : q.Completed
      · left; exact ⟨hq, by simpa [hc] using this, rfl, hd⟩
      · right; exact ⟨hq, by simpa [hc] using this, rfl, hd⟩

/-- Row by row through one call: every row of the table is still there under its name, and
is related to its former self by any relation that holds across each of the five updates. -/
theorem step_row (R : DistributedQuery → DistributedQuery → Prop) (hrefl : ∀ r, R r r)
    (hA : ∀ r : DistributedQuery, R r { r with Completed := false, Active := true })
    (hC : ∀ r : DistributedQuery, R r { r with Completed := true, Active := false })
    (hD : ∀ r : DistributedQuery, R r { r with Deleted := true, Active := false })
    (hE : ∀ r : DistributedQuery, R r { r with Executions := goInt (r.Executions + 1) })
    (hR : ∀ r : DistributedQuery, R r { r with Errors := goInt (r.Errors + 1) })
    (s : Store) (hwf : s.WF) (op : Op) (r : DistributedQuery) (hr : r ∈ s.queries) :
    ∃ r1 ∈ (step s op).queries, r1.Name = r.Name ∧ R r r1 := by
  have key : ∀ (q : DistributedQuery) (f : DistributedQuery → DistributedQuery),
      q ∈ s.queries → (∀ x, (f x).Name = x.Name) → R q (f q) →
      ∃ r1 ∈ (updateQuery s q.ID f).queries, r1.Name = r.Name ∧ R r r1 := by
    intro q f hq hf hRq
    rw [updateQuery_eq_map_name s hwf q hq f]
    by_cases hn : r.Name = q.Name
    · have hrq : r = q := List.inj_on_of_nodup_map hwf.2.1 hr hq hn
      subst hrq
      exact ⟨f r, List.mem_map.mpr ⟨r, hr, by simp⟩, hf r, hRq⟩
    · exact ⟨r, List.mem_map.mpr ⟨r, hr, by simp [hn]⟩, rfl, hrefl r⟩
  unfold step
  cases op with
  | Create query =>
    simp only [Op.call]
    cases h : Create s query with
    | error e => exact ⟨r, hr, rfl, hrefl r⟩
    | ok s1 =>
      unfold Create at h
      by_cases h1 : NewRecord query.ID = true
      · by_cases h2 : (s.queries.any (fun q => q.Name == query.Name)) = true
        · simp [h1, h2] at h
        · simp only [h1, h2, if_true] at h
          have hs1 := (Except.ok.inj h).symm
          subst hs1
          exact ⟨r, List.mem_append_left _ hr, rfl, hrefl r⟩
      · simp [h1] at h
  | CreateTarget name targetType targetValue =>
    simp only [Op.call, CreateTarget, NewRecord, beq_self_eq_true, if_true]
    exact ⟨r, hr, rfl, hrefl r⟩
  | Activate name =>
    simp only [Op.call, Activate]
    cases hg : Get s name with
    | error e => exact ⟨r, hr, rfl, hrefl r⟩
    | ok q => exact key q _ (Get_ok_mem s name q hg).1 (fun _ => rfl) (hA q)
  | Complete name =>
    simp only [Op.call, Complete]
    cases hg : Get s name with
    | error e => exact ⟨r, hr, rfl, hrefl r⟩
    | ok q => exact key q _ (Get_ok_mem s name q hg).1 (fun _ => rfl) (hC q)
  | Delete name =>
    simp only [Op.call, Delete]
    cases hg : Get s name with
    | error e => exact ⟨r, hr, rfl, hrefl r⟩
    | ok q => exact key q _ (Get_ok_mem s name q hg).1 (fun _ => rfl) (hD q)
  | IncExecution name =>
    simp only [Op.call, IncExecution]
    cases hg : Get s name with
    | error e => exact ⟨r, hr, rfl, hrefl r⟩
    | ok q => exact key q _ (Get_ok_mem s name q hg).1 (fun _ => rfl) (hE q)
  | IncError name =>
    simp only [Op.call, IncError]
    cases hg : Get s name with
    | error e => exact ⟨r, hr, rfl, hrefl r⟩
    | ok q => exact key q _ (Get_ok_mem s name q hg).1 (fun _ => rfl) (hR q)
  | TrackExecution name uuid result =>
    simp only [Op.call, TrackExecution, NewRecord, beq_self_eq_true, if_true]
    exact ⟨r, hr, rfl, hrefl r⟩

/-- Row by row through a sequence of calls, for a transitive relation. -/
theorem run_row (R : DistributedQuery → DistributedQuery → Prop) (hrefl : ∀ r, R r r)
    (htrans : ∀ a b c, R a b → R b c → R a c)
    (hA : ∀ r : DistributedQuery, R r { r with Completed := false, Active := true })
    (hC : ∀ r : DistributedQuery, R r { r with Completed := true, Active := false })
    (hD : ∀ r : DistributedQuery, R r { r with Deleted := true, Active := false })
    (hE : ∀ r : DistributedQuery, R r { r with Executions := goInt (r.Executions + 1) })
    (hR : ∀ r : DistributedQuery, R r { r with Errors := goInt (r.Errors + 1) })
    (ops : List Op) : ∀ (s : Store), s.WF → ∀ r ∈ s.queries,
      ∃ r1 ∈ (run s ops).queries, r1.Name = r.Name ∧ R r r1 := by
  induction ops with
  | nil => intro s _ r hr; exact ⟨r, hr, rfl, hrefl r⟩
  | cons op ops ih =>
    intro s hwf r hr
    obtain ⟨r1, hr1, hn1, h1⟩ := step_row R hrefl hA hC hD hE hR s hwf op r hr
    obtain ⟨r2, hr2, hn2, h2⟩ := ih (step s op) (step_WF s hwf op) r1 hr1
    exact ⟨r2, hr2, hn2.trans hn1, htrans _ _ _ h1 h2⟩

/-- C13 (deleted is a permanent tombstone). In a store satisfying the schema invariant,
once Delete(name) has succeeded, in every state reached afterwards by any sequence of calls
of the query store (Activate, Complete, Delete, IncExecution, IncError, CreateTarget,
TrackExecution, and Create as well) Get(name) succeeds, the row has deleted=true and is
listed by Gets("deleted"), no query of that name is listed by Gets("active"),
Gets("completed") or Gets("all"), and NodeQueries has no entry of that name for any node
and any matcher. -/
theorem C13_deleted_is_permanent (s : Store) (hwf : s.WF) (name : String) (s1 : Store)
    (hdel : Delete s name = .ok s1) (ops : List Op) :
    ∃ q, Get (run s1 ops) name = .ok q ∧ q.Deleted = true ∧
      q ∈ Gets (run s1 ops) "deleted" ∧
      (∀ r ∈ Gets (run s1 ops) "active", r.Name ≠ name) ∧
      (∀ r ∈ Gets (run s1 ops) "completed", r.Name ≠ name) ∧
      (∀ r ∈ Gets (run s1 ops) "all", r.Name ≠ name) ∧
      ∀ (isTarget : OsqueryNode → List DistributedQueryTarget → Bool) (node : OsqueryNode),
        GoMap.get? (NodeQueries isTarget (run s1 ops) node) name = none := by
  have hs1 : step s (.Delete name) = s1 := by simp [step, Op.call, hdel]
  have hwf1 : s1.WF := hs1 ▸ step_WF s hwf (.Delete name)
  -- the row as Delete leaves it
  obtain ⟨q0, hq0, hd0⟩ : ∃ q0, Get s1 name = .ok q0 ∧ q0.Deleted = true := by
    unfold Delete at hdel
    cases hg : Get s name with
    | error e => rw [hg] at hdel; cases hdel
    | ok q =>
      rw [hg] at hdel
      have := (Except.ok.inj hdel).symm
      subst this
      exact ⟨_, Get_updateQuery s name q _ (fun _ => rfl) hg, rfl⟩
  have hm0 := Get_ok_mem s1 name q0 hq0
  obtain ⟨q, hq, hn, hd⟩ := run_row (fun a b => a.Deleted = true → b.Deleted = true)
    (fun _ h => h) (fun _ _ _ h1 h2 h => h2 (h1 h)) (fun _ h => h) (fun _ h => h)
    (fun _ _ => rfl) (fun _ h => h) (fun _ h => h) ops s1 hwf1 q0 hm0.1
  have hd1 : q.Deleted = true := hd hd0
  have hname : q.Name = name := hn.trans hm0.2
  have hwf2 : (run s1 ops).WF := run_WF ops s1 hwf1
  have huniq : ∀ r ∈ (run s1 ops).queries, r.Name = name → r = q := fun r hr hrn =>
    List.inj_on_of_nodup_map hwf2.2.1 hr hq (hrn.trans hname.symm)
  have hget : Get (run s1 ops) name = .ok q := hname ▸ Get_of_mem _ hwf2 q hq
  refine ⟨q, hget, hd1, (mem_Gets_deleted _ _).mpr ⟨hq, hd1⟩, ?_, ?_, ?_, ?_⟩
  · intro r hr hrn
    rw [mem_Gets_active] at hr
    rw [huniq r hr.1 hrn, hd1] at hr
    exact Bool.noConfusion hr.2.2.2
  · intro r hr hrn
    rw [mem_Gets_completed] at hr
    rw [huniq r hr.1 hrn, hd1] at hr
    exact Bool.noConfusion hr.2.2.2
  · intro r hr hrn
    rw [mem_Gets_all] at hr
    rw [huniq r hr.1 hrn, hd1] at hr
    exact Bool.noConfusion hr.2
  · intro isTarget node
    cases hv : GoMap.get? (NodeQueries isTarget (run s1 ops) node) name with
    | none => rfl
    | some v =>
      obtain ⟨Q, hQ, hQn, -⟩ := (NodeQueries_get?_eq_some_iff isTarget _ hwf2 node name v).mp hv
      rw [mem_Gets_active] at hQ
      rw [huniq Q hQ.1 hQn, hd1] at hQ
      exact Bool.noConfusion hQ.2.2.2

/-- Witness of C13 on the scenario store: Q1 is deleted, then activated and counted. -/
theorem C13_deleted_is_permanent_witness :
    ∃ q, Get (run scenarioDeleted [.Activate "Q1", .IncExecution "Q1"]) "Q1" = .ok q ∧
      q.Deleted = true ∧
      q ∈ Gets (run scenarioDeleted [.Activate "Q1", .IncExecution "Q1"]) "deleted" ∧
      (∀ r ∈ Gets (run scenarioDeleted [.Activate "Q1", .IncExecution "Q1"]) "active",
        r.Name ≠ "Q1") ∧
      (∀ r ∈ Gets (run scenarioDeleted [.Activate "Q1", .IncExecution "Q1"]) "completed",
        r.Name ≠ "Q1") ∧
      (∀ r ∈ Gets (run scenarioDeleted [.Activate "Q1", .IncExecution "Q1"]) "all",
        r.Name ≠ "Q1") ∧
      ∀ (isTarget : OsqueryNode → List DistributedQueryTarget → Bool) (node : OsqueryNode),
        GoMap.get? (NodeQueries isTarget
          (run scenarioDeleted [.Activate "Q1", .IncExecution "Q1"]) node) "Q1" = none :=
  C13_deleted_is_permanent scenarioStore (by decide) "Q1" scenarioDeleted (by rfl)
    [.Activate "Q1", .IncExecution "Q1"]

/-- C14 (active/completed mutual exclusion). In a store satisfying the schema invariant, for
every stored query that does not have active and completed both true, in every state
reached by any sequence of calls of the query store (Activate, Complete, Delete,
IncExecution, IncError, and the other three as well) the query is still stored and does not
have both flags true; Activate of it in that state leaves active=true and completed=false,
Complete of it leaves active=false and completed=true, so exactly one of the two is true. -/
theorem C14_active_completed_exclusive (s : Store) (hwf : s.WF) (q : DistributedQuery)
    (hq : q ∈ s.queries) (hex : ¬ (q.Active = true ∧ q.Completed = true)) (ops : List Op) :
    (∃ q1, Get (run s ops) q.Name = .ok q1 ∧ ¬ (q1.Active = true ∧ q1.Completed = true)) ∧
    (∃ s1 q1, Activate (run s ops) q.Name = .ok s1 ∧ Get s1 q.Name = .ok q1 ∧
      q1.Active = true ∧ q1.Completed = false) ∧
    (∃ s1 q1, Complete (run s ops) q.Name = .ok s1 ∧ Get s1 q.Name = .ok q1 ∧
      q1.Active = false ∧ q1.Completed = true) := by
  obtain ⟨q1, hq1, hn, hR⟩ := run_row
    (fun a b => ¬ (a.Active = true ∧ a.Completed = true) →
      ¬ (b.Active = true ∧ b.Completed = true))
    (fun _ h => h) (fun _ _ _ h1 h2 h => h2 (h1 h)) (fun _ _ => by simp) (fun _ _ => by simp)
    (fun _ _ => by simp) (fun _ h => h) (fun _ h => h) ops s hwf q hq
  have hwf2 : (run s ops).WF := run_WF ops s hwf
  have hget : Get (run s ops) q.Name = .ok q1 := hn ▸ Get_of_mem _ hwf2 q1 hq1
  refine ⟨⟨q1, hget, hR hex⟩,
    ⟨updateQuery (run s ops) q1.ID (fun r => { r with Completed := false, Active := true }),
      { q1 with Completed := false, Active := true }, ?_,
      Get_updateQuery _ q.Name q1 _ (fun _ => rfl) hget, rfl, rfl⟩,
    ⟨updateQuery (run s ops) q1.ID (fun r => { r with Completed := true, Active := false }),
      { q1 with Completed := true, Active := false }, ?_,
      Get_updateQuery _ q.Name q1 _ (fun _ => rfl) hget, rfl, rfl⟩⟩
  · simp only [Activate, hget]
  · simp only [Complete, hget]

/-- Witness of C14 on the scenario store after Complete, Delete and IncError of Q1. -/
theorem C14_active_completed_exclusive_witness :
    (∃ q1, Get (run scenarioStore [.Complete "Q1", .Delete "Q1", .IncError "Q1"])
        scenarioQ1.Name = .ok q1 ∧ ¬ (q1.Active = true ∧ q1.Completed = true)) ∧
    (∃ s1 q1, Activate (run scenarioStore [.Complete "Q1", .Delete "Q1", .IncError "Q1"])
        scenarioQ1.Name = .ok s1 ∧ Get s1 scenarioQ1.Name = .ok q1 ∧
      q1.Active = true ∧ q1.Completed = false) ∧
    (∃ s1 q1, Complete (run scenarioStore [.Complete "Q1", .Delete "Q1", .IncError "Q1"])
        scenarioQ1.Name = .ok s1 ∧ Get s1 scenarioQ1.Name = .ok q1 ∧
      q1.Active = false ∧ q1.Completed = true) :=
  C14_active_completed_exclusive scenarioStore (by decide) scenarioQ1 (by decide) (by decide)
    [.Complete "Q1", .Delete "Q1", .IncError "Q1"]

/-- Counterexample to C15 as stated: with the executions counter of Q1 at the largest int,
9223372036854775807, IncExecution("Q1") succeeds and the sum query.Executions+1, computed
on a Go int, wraps: the counter read back is -9223372036854775808, not one greater, and
lower than before. -/
theorem C15_increment_wraps_at_largest_int :
    ∃ q s1 q1, Get scenarioSaturated "Q1" = .ok q ∧ q.Executions = 9223372036854775807 ∧
      IncExecution scenarioSaturated "Q1" = .ok s1 ∧ Get s1 "Q1" = .ok q1 ∧
      q1.Executions = -9223372036854775808 ∧ q1.Executions < q.Executions :=
  ⟨{ scenarioQ1 with ID := 1, Executions := 9223372036854775807 },
    { queries := [{ scenarioQ1 with ID := 1, Executions := -9223372036854775808 }],
      querySeq := 1 },
    { scenarioQ1 with ID := 1, Executions := -9223372036854775808 },
    by rfl, by rfl, by rfl, by rfl, by rfl, by decide⟩

/-- The update of IncExecution, read back. -/
theorem IncExecution_ok (s : Store) (hwf : s.WF) (Q : DistributedQuery) (hQ : Q ∈ s.queries)
    (hE : -(2 ^ 63) ≤ Q.Executions ∧ Q.Executions + 1 < 2 ^ 63) :
    ∃ s1, IncExecution s Q.Name = .ok s1 ∧ step s (.IncExecution Q.Name) = s1 ∧
      s1 = { s with queries := s.queries.map (fun r =>
        if r.Name = Q.Name then { r with Executions := Q.Executions + 1 } else r) } ∧
      Get s1 Q.Name = .ok { Q with Executions := Q.Executions + 1 } := by
  have hg : Get s Q.Name = .ok Q := Get_of_mem s hwf Q hQ
  have hg2 := Get_updateQuery s Q.Name Q
    (fun q => { q with Executions := goInt (Q.Executions + 1) }) (fun _ => rfl) hg
  have hm := updateQuery_eq_map_name s hwf Q hQ
    (fun q => { q with Executions := goInt (Q.Executions + 1) })
  rw [goInt_eq_self _ (by omega) hE.2] at hg2 hm
  refine ⟨updateQuery s Q.ID (fun q => { q with Executions := Q.Executions + 1 }), ?_, ?_,
    hm, hg2⟩
  · simp only [IncExecution, hg]
    rw [goInt_eq_self _ (by omega) hE.2]
  · simp only [step, Op.call, IncExecution, hg]
    rw [goInt_eq_self _ (by omega) hE.2]

/-- The update of IncError, read back. -/
theorem IncError_ok (s : Store) (hwf : s.WF) (Q : DistributedQuery) (hQ : Q ∈ s.queries)
    (hR : -(2 ^ 63) ≤ Q.Errors ∧ Q.Errors + 1 < 2 ^ 63) :
    ∃ s1, IncError s Q.Name = .ok s1 ∧
      s1 = { s with queries := s.queries.map (fun r =>
        if r.Name = Q.Name then { r with Errors := Q.Errors + 1 } else r) } ∧
      Get s1 Q.Name = .ok { Q with Errors := Q.Errors + 1 } := by
  have hg : Get s Q.Name = .ok Q := Get_of_mem s hwf Q hQ
  have hg2 := Get_updateQuery s Q.Name Q
    (fun q => { q with Errors := goInt (Q.Errors + 1) }) (fun _ => rfl) hg
  have hm := updateQuery_eq_map_name s hwf Q hQ
    (fun q => { q with Errors := goInt (Q.Errors + 1) })
  rw [goInt_eq_self _ (by omega) hR.2] at hg2 hm
  refine ⟨updateQuery s Q.ID (fun q => { q with Errors := Q.Errors + 1 }), ?_, hm, hg2⟩
  simp only [IncError, hg]
  rw [goInt_eq_self _ (by omega) hR.2]

/-- Sequential calls of IncExecution add up. -/
theorem IncExecution_replicate (n : Nat) : ∀ (s : Store), s.WF → ∀ Q ∈ s.queries,
    -(2 ^ 63) ≤ Q.Executions → Q.Executions + n < 2 ^ 63 →
    Get (run s (List.replicate n (.IncExecution Q.Name))) Q.Name =
      .ok { Q with Executions := Q.Executions + n } := by
  induction n with
  | zero =>
    intro s hwf Q hQ _ _
    simpa [run] using Get_of_mem s hwf Q hQ
  | succ n ih =>
    intro s hwf Q hQ h1 h2
    obtain ⟨s1, -, hstep, -, hget⟩ := IncExecution_ok s hwf Q hQ ⟨h1, by push_cast at h2; omega⟩
    have hwf1 : s1.WF := hstep ▸ step_WF s hwf _
    have hmem := (Get_ok_mem s1 Q.Name _ hget).1
    have := ih s1 hwf1 _ hmem (by simp only; omega) (by simp only; push_cast at h2; omega)
    simp only [List.replicate_succ, run, List.foldl_cons]
    rw [hstep]
    simp only [run] at this
    rw [this]
    congr 2
    push_cast
    omega

/-- C15 as amended. In a store satisfying the schema invariant, for every stored query Q
whose counters are below the largest int: a successful IncExecution(Q.Name) raises
executions by exactly 1 and IncError(Q.Name) raises errors by exactly 1, each leaving every
other field of Q, every other query and every other table as they are; no call of the
query store (Activate, Complete, Delete, CreateTarget, TrackExecution, IncExecution,
IncError, and Create as well) lowers either counter of Q; n sequential calls of
IncExecution raise executions by exactly n as long as the sum stays below 2^63. For a name
matching no query both calls return the record-not-found error and change nothing. -/
theorem C15_counters_monotonic (s : Store) (hwf : s.WF) (Q : DistributedQuery)
    (hQ : Q ∈ s.queries)
    (hE : -(2 ^ 63) ≤ Q.Executions ∧ Q.Executions + 1 < 2 ^ 63)
    (hR : -(2 ^ 63) ≤ Q.Errors ∧ Q.Errors + 1 < 2 ^ 63) :
    (∃ s1, IncExecution s Q.Name = .ok s1 ∧
      s1 = { s with queries := s.queries.map (fun r =>
        if r.Name = Q.Name then { r with Executions := Q.Executions + 1 } else r) } ∧
      Get s1 Q.Name = .ok { Q with Executions := Q.Executions + 1 }) ∧
    (∃ s1, IncError s Q.Name = .ok s1 ∧
      s1 = { s with queries := s.queries.map (fun r =>
        if r.Name = Q.Name then { r with Errors := Q.Errors + 1 } else r) } ∧
      Get s1 Q.Name = .ok { Q with Errors := Q.Errors + 1 }) ∧
    (∀ op : Op, ∃ Q1, Get (step s op) Q.Name = .ok Q1 ∧
      Q.Executions ≤ Q1.Executions ∧ Q.Errors ≤ Q1.Errors) ∧
    (∀ n : Nat, Q.Executions + n < 2 ^ 63 →
      Get (run s (List.replicate n (.IncExecution Q.Name))) Q.Name =
        .ok { Q with Executions := Q.Executions + n }) ∧
    (∀ name, (∀ q ∈ s.queries, q.Name ≠ name) →
      IncExecution s name = .error .recordNotFound ∧ IncError s name = .error .recordNotFound ∧
      step s (.IncExecution name) = s ∧ step s (.IncError name) = s) := by
  refine ⟨?_, IncError_ok s hwf Q hQ hR, ?_, ?_, ?_⟩
  · obtain ⟨s1, h1, -, h2, h3⟩ := IncExecution_ok s hwf Q hQ hE
    exact ⟨s1, h1, h2, h3⟩
  · intro op
    obtain ⟨Q1, hQ1, hn, hle⟩ := step_row
      (fun a b => (-(2 ^ 63) ≤ a.Executions ∧ a.Executions + 1 < 2 ^ 63) →
        (-(2 ^ 63) ≤ a.Errors ∧ a.Errors + 1 < 2 ^ 63) →
        a.Executions ≤ b.Executions ∧ a.Errors ≤ b.Errors)
      (fun _ _ _ => ⟨le_refl _, le_refl _⟩) (fun _ _ _ => ⟨le_refl _, le_refl _⟩)
      (fun _ _ _ => ⟨le_refl _, le_refl _⟩) (fun _ _ _ => ⟨le_refl _, le_refl _⟩)
      (fun r h1 _ => ⟨by simp only; rw [goInt_eq_self _ (by omega) h1.2]; omega, le_refl _⟩)
      (fun r _ h2 => ⟨le_refl _, by simp only; rw [goInt_eq_self _ (by omega) h2.2]; omega⟩)
      s hwf op Q hQ
    exact ⟨Q1, hn ▸ Get_of_mem _ (step_WF s hwf op) Q1 hQ1, hle hE hR⟩
  · intro n hn
    exact IncExecution_replicate n s hwf Q hQ hE.1 hn
  · intro name h
    have hg := Get_error_of_absent s name h
    simp [IncExecution, IncError, step, Op.call, hg]

/-- Witness of C15 as amended on the scenario store: one and three increments of Q1, and the
name Q9 that matches no query. -/
theorem C15_counters_monotonic_witness :
    (∃ s1, IncExecution scenarioStore scenarioQ1.Name = .ok s1 ∧
      s1 = { scenarioStore with queries := scenarioStore.queries.map (fun r =>
        if r.Name = scenarioQ1.Name then { r with Executions := scenarioQ1.Executions + 1 }
        else r) } ∧
      Get s1 scenarioQ1.Name = .ok { scenarioQ1 with Executions := scenarioQ1.Executions + 1 }) ∧
    Get (run scenarioStore (List.replicate 3 (.IncExecution scenarioQ1.Name))) scenarioQ1.Name =
      .ok { scenarioQ1 with Executions := scenarioQ1.Executions + (3 : Nat) } ∧
    IncError scenarioStore "Q9" = .error .recordNotFound :=
  ⟨(C15_counters_monotonic scenarioStore (by decide) scenarioQ1 (by decide) (by decide)
      (by decide)).1,
    (C15_counters_monotonic scenarioStore (by decide) scenarioQ1 (by decide) (by decide)
      (by decide)).2.2.2.1 3 (by decide),
    ((C15_counters_monotonic scenarioStore (by decide) scenarioQ1 (by decide) (by decide)
      (by decide)).2.2.2.2 "Q9" (by decide)).2.1⟩

/-- C16 (query names are unique). In a store satisfying the schema invariant in which a
query of the name already exists, deleted or not, Create of a query with that name returns
an error - the insert is refused by the unique index declared on the column name, or by
the new-record check when the value carries a primary key - and leaves the store
unchanged; in every state reached by any sequence of calls at most one row has any given
name, so Get(n) is determined by at most one row. -/
theorem C16_query_names_unique (s : Store) (hwf : s.WF) (query : DistributedQuery)
    (hex : ∃ q ∈ s.queries, q.Name = query.Name) :
    Create s query =
      .error (if NewRecord query.ID = true then .duplicateEntry else .notNewRecord) ∧
    step s (.Create query) = s ∧
    ∀ (ops : List Op) (name : String),
      ((run s ops).queries.filter (fun q => q.Name == name)).length ≤ 1 := by
  have hany : s.queries.any (fun q => q.Name == query.Name) = true := by
    obtain ⟨q, hq, hn⟩ := hex
    exact List.any_eq_true.mpr ⟨q, hq, by simp [hn]⟩
  have hc : Create s query =
      .error (if NewRecord query.ID = true then .duplicateEntry else .notNewRecord) := by
    unfold Create
    by_cases h1 : NewRecord query.ID = true
    · simp [h1, hany]
    · simp [h1]
  refine ⟨hc, by simp [step, Op.call, hc], ?_⟩
  intro ops name
  have hwf2 := run_WF ops s hwf
  by_cases h : ∃ q ∈ (run s ops).queries, q.Name = name
  · obtain ⟨q, hq, rfl⟩ := h
    rw [filter_name_of_nodup _ q hwf2.2.1 hq]
    simp
  · have : (run s ops).queries.filter (fun q => q.Name == name) = [] := by
      rw [List.filter_eq_nil_iff]
      intro q hq hqn
      exact h ⟨q, hq, by simpa using hqn⟩
    rw [this]
    simp

/-- Witness of C16 on the scenario store: a second query named Q1 is refused. -/
theorem C16_query_names_unique_witness :
    Create scenarioStore { scenarioDraft with Name := "Q1" } =
      .error (if NewRecord ({ scenarioDraft with Name := "Q1" } : DistributedQuery).ID = true
        then .duplicateEntry else .notNewRecord) ∧
    step scenarioStore (.Create { scenarioDraft with Name := "Q1" }) = scenarioStore ∧
    ∀ (ops : List Op) (name : String),
      ((run scenarioStore ops).queries.filter (fun q => q.Name == name)).length ≤ 1 :=
  C16_query_names_unique scenarioStore (by decide) { scenarioDraft with Name := "Q1" }
    (by decide)

end Queries

namespace Nodes

/-! ## Node registry: evaluation of the store functions -/

theorem DB_bind_apply {α β : Type} (m : DB α) (f : α → DB β) (s : Store) :
    (m >>= f) s = match m s with
      | (.ok a, s1) => f a s1
      | (.error err, s1) => (.error err, s1) := rfl

theorem DB_pure_apply {α : Type} (a : α) (s : Store) : (Pure.pure a : DB α) s = (.ok a, s) := rfl

theorem DB_ite_apply {α : Type} (c : Prop) [Decidable c] (m1 m2 : DB α) (s : Store) :
    (if c then m1 else m2) s = if c then m1 s else m2 s := by
  split <;> rfl

theorem ite_ok_pair {α : Type} (c : Prop) [Decidable c] (a b : α) (s t : Store) :
    (if c then ((Except.ok a : Except Error α), s) else (.ok b, t)) =
      (.ok (if c then a else b), if c then s else t) := by
  split <;> rfl

theorem OsqueryNode_ite_mk (c : Prop) [Decidable c]
    (a1 a2 a3 : Nat) (a4 a5 a6 a7 a8 a9 a10 a11 a12 a13 a14 a15 a16 a17 a18 a19 a20 : String)
    (a21 a22 a23 a24 a25 : Nat)
    (b1 b2 b3 : Nat) (b4 b5 b6 b7 b8 b9 b10 b11 b12 b13 b14 b15 b16 b17 b18 b19 b20 : String)
    (b21 b22 b23 b24 b25 : Nat) :
    (if c then OsqueryNode.mk a1 a2 a3 a4 a5 a6 a7 a8 a9 a10 a11 a12 a13 a14 a15 a16 a17 a18 a19
        a20 a21 a22 a23 a24 a25
      else OsqueryNode.mk b1 b2 b3 b4 b5 b6 b7 b8 b9 b10 b11 b12 b13 b14 b15 b16 b17 b18 b19
        b20 b21 b22 b23 b24 b25) =
    OsqueryNode.mk (if c then a1 else b1) (if c then a2 else b2) (if c then a3 else b3)
      (if c then a4 else b4) (if c then a5 else b5) (if c then a6 else b6)
      (if c then a7 else b7) (if c then a8 else b8) (if c then a9 else b9)
      (if c then a10 else b10) (if c then a11 else b11) (if c then a12 else b12)
      (if c then a13 else b13) (if c then a14 else b14) (if c then a15 else b15)
      (if c then a16 else b16) (if c then a17 else b17) (if c then a18 else b18)
      (if c then a19 else b19) (if c then a20 else b20) (if c then a21 else b21)
      (if c then a22 else b22) (if c then a23 else b23) (if c then a24 else b24)
      (if c then a25 else b25) := by
  split <;> rfl

theorem Store_ite_mk (c : Prop) [Decidable c]
    (a1 : List OsqueryNode) (a2 : List NodeHistoryIPAddress) (a3 : List NodeHistoryHostname)
    (a4 : List NodeHistoryLocalname) (a5 : List NodeHistoryUsername) (a6 a7 a8 a9 a10 : Nat)
    (a11 : List ArchiveOsqueryNode) (a12 : Nat)
    (b1 : List OsqueryNode) (b2 : List NodeHistoryIPAddress) (b3 : List NodeHistoryHostname)
    (b4 : List NodeHistoryLocalname) (b5 : List NodeHistoryUsername) (b6 b7 b8 b9 b10 : Nat)
    (b11 : List ArchiveOsqueryNode) (b12 : Nat) :
    (if c then Store.mk a1 a2 a3 a4 a5 a6 a7 a8 a9 a10 a11 a12
      else Store.mk b1 b2 b3 b4 b5 b6 b7 b8 b9 b10 b11 b12) =
    Store.mk (if c then a1 else b1) (if c then a2 else b2) (if c then a3 else b3)
      (if c then a4 else b4) (if c then a5 else b5) (if c then a6 else b6)
      (if c then a7 else b7) (if c then a8 else b8) (if c then a9 else b9)
      (if c then a10 else b10) (if c then a11 else b11) (if c then a12 else b12) := by
  split <;> rfl

/-- The row selected by the ordering is one of the rows. -/
theorem firstByUpdatedAt_mem :
    ∀ (l : List NodeHistoryIPAddress) (e : NodeHistoryIPAddress),
      firstByUpdatedAt l = some e → e ∈ l := by
  intro l
  induction l with
  | nil => intro e h; cases h
  | cons a l ih =>
    intro e h
    unfold firstByUpdatedAt at h
    cases hm : firstByUpdatedAt l with
    | none =>
      rw [hm] at h
      simp only [Option.some.injEq] at h
      rw [← h]
      exact List.mem_cons_self _ _
    | some m =>
      rw [hm] at h
      simp only at h
      split at h
      · simp only [Option.some.injEq] at h
        rw [← h]
        exact List.mem_cons_self _ _
      · simp only [Option.some.injEq] at h
        rw [← h]
        exact List.mem_cons_of_mem _ (ih m hm)

/-- The entry read by GetHistoryIPAddress is a stored entry of that UUID and address. -/
theorem GetHistoryIPAddress_ok (s : Store) (uuid ipaddress : String) (e : NodeHistoryIPAddress)
    (h : GetHistoryIPAddress s uuid ipaddress = .ok e) :
    e ∈ s.historyIPAddress ∧ e.UUID = uuid ∧ e.IPAddress = ipaddress := by
  unfold GetHistoryIPAddress at h
  cases hf : firstByUpdatedAt
      (s.historyIPAddress.filter (fun e => e.UUID == uuid && e.IPAddress == ipaddress)) with
  | none => rw [hf] at h; cases h
  | some m =>
    rw [hf] at h
    have hme : m = e := Except.ok.inj h
    subst hme
    have := firstByUpdatedAt_mem _ _ hf
    simpa [and_assoc] using this

/-- Some entry is selected as soon as one matches. -/
theorem firstByUpdatedAt_isSome :
    ∀ (l : List NodeHistoryIPAddress), l ≠ [] → ∃ e, firstByUpdatedAt l = some e := by
  intro l hl
  cases l with
  | nil => exact absurd rfl hl
  | cons a l =>
    unfold firstByUpdatedAt
    cases firstByUpdatedAt l with
    | none => exact ⟨a, rfl⟩
    | some m =>
      simp only
      split
      · exact ⟨a, rfl⟩
      · exact ⟨m, rfl⟩

/-- The only error of GetHistoryIPAddress is the record-not-found error. -/
theorem GetHistoryIPAddress_error (s : Store) (uuid ipaddress : String) (err : Error)
    (h : GetHistoryIPAddress s uuid ipaddress = .error err) : err = .recordNotFound := by
  unfold GetHistoryIPAddress at h
  cases hf : firstByUpdatedAt
      (s.historyIPAddress.filter (fun e => e.UUID == uuid && e.IPAddress == ipaddress)) with
  | none => rw [hf] at h; exact (Except.error.inj h).symm
  | some m => rw [hf] at h; cases h

/-- What UpdateMetadataByUUID leaves in the store, and what it returns, for a node that the
lookup finds. -/
theorem UpdateMetadataByUUID_run (s : Store) (now : Nat) (uuid : String)
    (metadata : NodeMetadata) (node : OsqueryNode) (hnode : GetByUUID s uuid = .ok node) :
    (UpdateMetadataByUUID now uuid metadata s).2.historyUsername =
      (if metadata.Username ≠ "" ∧ metadata.Username ≠ node.Username then
        s.historyUsername ++
          [{ ID := s.usernameSeq + 1, CreatedAt := now, UpdatedAt := now, UUID := node.UUID,
              Username := metadata.Username }]
      else s.historyUsername) ∧
    (UpdateMetadataByUUID now uuid metadata s).2.historyHostname =
      (if metadata.Hostname ≠ "" ∧ metadata.Hostname ≠ node.Hostname then
        s.historyHostname ++
          [{ ID := s.hostnameSeq + 1, CreatedAt := now, UpdatedAt := now, UUID := node.UUID,
              Hostname := metadata.Hostname }]
      else s.historyHostname) ∧
    (UpdateMetadataByUUID now uuid metadata s).2.historyLocalname =
      (if metadata.Localname ≠ "" ∧ metadata.Localname ≠ node.Localname then
        s.historyLocalname ++
          [{ ID := s.localnameSeq + 1, CreatedAt := now, UpdatedAt := now, UUID := node.UUID,
              Localname := metadata.Localname }]
      else s.historyLocalname) ∧
    (metadata.IPAddress ≠ "" ∧ metadata.IPAddress ≠ node.IPAddress →
      (UpdateMetadataByUUID now uuid metadata s).1 = .ok () ∧
      (UpdateMetadataByUUID now uuid metadata s).2.historyIPAddress =
        s.historyIPAddress ++
          [{ ID := s.ipAddressSeq + 1, CreatedAt := now, UpdatedAt := now, UUID := node.UUID,
              IPAddress := metadata.IPAddress, Count := 1 }]) ∧
    (¬ (metadata.IPAddress ≠ "" ∧ metadata.IPAddress ≠ node.IPAddress) →
      ∀ e, GetHistoryIPAddress s node.UUID metadata.IPAddress = .ok e →
      (UpdateMetadataByUUID now uuid metadata s).1 = .ok () ∧
      (UpdateMetadataByUUID now uuid metadata s).2.historyIPAddress =
        s.historyIPAddress.map (fun r =>
          if e.ID = 0 ∨ r.ID = e.ID then
            { r with Count := goInt (e.Count + 1), UpdatedAt := now }
          else r)) ∧
    (¬ (metadata.IPAddress ≠ "" ∧ metadata.IPAddress ≠ node.IPAddress) →
      GetHistoryIPAddress s node.UUID metadata.IPAddress = .error .recordNotFound →
      (UpdateMetadataByUUID now uuid metadata s).1 =
        .error (.wrap "incNodeHistoryIPAddress" (.wrap "getNodeHistoryIPAddress" .recordNotFound)) ∧
      (UpdateMetadataByUUID now uuid metadata s).2.historyIPAddress = s.historyIPAddress ∧
      (UpdateMetadataByUUID now uuid metadata s).2.nodes = s.nodes) ∧
    ((UpdateMetadataByUUID now uuid metadata s).1 = .ok () →
      (UpdateMetadataByUUID now uuid metadata s).2.nodes =
        (Updates now node.ID
          { Username := (if metadata.Username ≠ "" ∧ metadata.Username ≠ node.Username then
              metadata.Username else ""),
            OsqueryUser := (if metadata.OsqueryUser ≠ "" ∧ metadata.OsqueryUser ≠ node.OsqueryUser then
              metadata.OsqueryUser else ""),
            Hostname := (if metadata.Hostname ≠ "" ∧ metadata.Hostname ≠ node.Hostname then
              metadata.Hostname else ""),
            Localname := (if metadata.Localname ≠ "" ∧ metadata.Localname ≠ node.Localname then
              metadata.Localname else ""),
            IPAddress := (if metadata.IPAddress ≠ "" ∧ metadata.IPAddress ≠ node.IPAddress then
              metadata.IPAddress else ""),
            ConfigHash := (if metadata.ConfigHash ≠ "" ∧ metadata.ConfigHash ≠ node.ConfigHash then
              metadata.ConfigHash else ""),
            DaemonHash := (if metadata.DaemonHash ≠ "" ∧ metadata.DaemonHash ≠ node.DaemonHash then
              metadata.DaemonHash else ""),
            OsqueryVersion := (if metadata.OsqueryVersion ≠ "" ∧ metadata.OsqueryVersion ≠ node.OsqueryVersion then
              metadata.OsqueryVersion else "") } s).2.nodes) ∧
    (UpdateMetadataByUUID now uuid metadata s).2.archive = s.archive := by
  obtain ⟨sn, s2, s3, s4, s5, s6, s7, s8, s9, s10, s11, s12⟩ := s
  generalize hout : UpdateMetadataByUUID now uuid metadata
    (Store.mk sn s2 s3 s4 s5 s6 s7 s8 s9 s10 s11 s12) = out
  unfold UpdateMetadataByUUID at hout
  by_cases hI : metadata.IPAddress ≠ "" ∧ metadata.IPAddress ≠ node.IPAddress
  · simp only [DB_bind_apply, DB_pure_apply, DB_ite_apply, DB.orWrap, DB.read, hnode,
      NewHistoryUsername, NewHistoryHostname, NewHistoryLocalname, NewHistoryIPAddress,
      NewRecord, beq_self_eq_true, if_true, DB.write, ite_ok_pair, OsqueryNode_ite_mk,
      Store_ite_mk, ite_self, stamp, Updates, if_pos hI] at hout
    subst hout
    refine ⟨rfl, rfl, rfl, fun _ => ⟨rfl, ?_⟩, fun h => absurd hI h, fun h => absurd hI h,
      fun _ => ?_, rfl⟩
    · rfl
    · simp only [Updates, DB.write, Store_ite_mk, ite_self, if_pos hI]
  · cases hget0 : GetHistoryIPAddress (Store.mk sn s2 s3 s4 s5 s6 s7 s8 s9 s10 s11 s12) node.UUID
        metadata.IPAddress with
    | error err =>
      have herr := GetHistoryIPAddress_error _ _ _ _ hget0
      subst herr
      have hget := hget0
      unfold GetHistoryIPAddress at hget
      simp only at hget
      simp only [DB_bind_apply, DB_pure_apply, DB_ite_apply, DB.orWrap, DB.read, hnode,
        NewHistoryUsername, NewHistoryHostname, NewHistoryLocalname, NewHistoryIPAddress,
        NewRecord, beq_self_eq_true, if_true, DB.write, ite_ok_pair, OsqueryNode_ite_mk,
        Store_ite_mk, ite_self, stamp, Updates, if_neg hI, IncHistoryIPAddress,
        GetHistoryIPAddress, hget] at hout
      subst hout
      refine ⟨rfl, rfl, rfl, fun h => absurd h hI, fun _ e he => ?_, fun _ _ => ⟨rfl, rfl, rfl⟩,
        fun h => ?_, rfl⟩
      · cases he
      · cases h
    | ok e =>
      have hget := hget0
      unfold GetHistoryIPAddress at hget
      simp only at hget
      simp only [DB_bind_apply, DB_pure_apply, DB_ite_apply, DB.orWrap, DB.read, hnode,
        NewHistoryUsername, NewHistoryHostname, NewHistoryLocalname, NewHistoryIPAddress,
        NewRecord, beq_self_eq_true, if_true, DB.write, ite_ok_pair, OsqueryNode_ite_mk,
        Store_ite_mk, ite_self, stamp, Updates, if_neg hI, IncHistoryIPAddress,
        GetHistoryIPAddress, hget] at hout
      subst hout
      refine ⟨rfl, rfl, rfl, fun h => absurd h hI, fun _ e1 he => ?_, fun _ h => ?_,
        fun _ => ?_, rfl⟩
      · have hee : e = e1 := Except.ok.inj he
        subst hee
        exact ⟨rfl, rfl⟩
      · cases h
      · simp only [Updates, DB.write, Store_ite_mk, ite_self, if_neg hI]

/-! ## Node registry: enrollment and history -/

/-- C20 (enrollment seeds the history). For every node record, Create succeeds exactly when
the record is new (its primary key is blank), and a successful Create adds exactly one node
row, holding the record, and exactly four history entries for node.UUID: one each for
hostname, localname, IP address and username, holding the value of that attribute in the
record; the IP-address entry has count 1 and the other three have the zero count. Every
row that was stored before, of the nodes and of the four histories, is left as it was. -/
theorem C20_enrollment_seeds_history (s : Store) (now : Nat) (node : OsqueryNode) (s1 : Store)
    (hok : Create now node s = (.ok (), s1)) :
    NewRecord node.ID = true ∧
    s1.nodes = s.nodes ++
      [{ node with ID := s.nodeSeq + 1, CreatedAt := stamp node.CreatedAt now,
                   UpdatedAt := stamp node.UpdatedAt now }] ∧
    s1.historyHostname = s.historyHostname ++
      [{ ID := s.hostnameSeq + 1, CreatedAt := now, UpdatedAt := now, UUID := node.UUID,
         Hostname := node.Hostname, Count := 0 }] ∧
    s1.historyLocalname = s.historyLocalname ++
      [{ ID := s.localnameSeq + 1, CreatedAt := now, UpdatedAt := now, UUID := node.UUID,
         Localname := node.Localname, Count := 0 }] ∧
    s1.historyIPAddress = s.historyIPAddress ++
      [{ ID := s.ipAddressSeq + 1, CreatedAt := now, UpdatedAt := now, UUID := node.UUID,
         IPAddress := node.IPAddress, Count := 1 }] ∧
    s1.historyUsername = s.historyUsername ++
      [{ ID := s.usernameSeq + 1, CreatedAt := now, UpdatedAt := now, UUID := node.UUID,
         Username := node.Username, Count := 0 }] ∧
    (∀ t : Store, NewRecord node.ID = true → (Create now node t).1 = .ok ()) := by
  by_cases hnew : NewRecord node.ID = true
  · have hrun : ∀ t : Store, Create now node t = (.ok (), { t with
        nodes := t.nodes ++
          [{ node with ID := t.nodeSeq + 1, CreatedAt := stamp node.CreatedAt now,
                       UpdatedAt := stamp node.UpdatedAt now }]
        nodeSeq := t.nodeSeq + 1
        historyHostname := t.historyHostname ++
          [{ ID := t.hostnameSeq + 1, CreatedAt := now, UpdatedAt := now, UUID := node.UUID,
             Hostname := node.Hostname, Count := 0 }]
        hostnameSeq := t.hostnameSeq + 1
        historyLocalname := t.historyLocalname ++
          [{ ID := t.localnameSeq + 1, CreatedAt := now, UpdatedAt := now, UUID := node.UUID,
             Localname := node.Localname, Count := 0 }]
        localnameSeq := t.localnameSeq + 1
        historyIPAddress := t.historyIPAddress ++
          [{ ID := t.ipAddressSeq + 1, CreatedAt := now, UpdatedAt := now, UUID := node.UUID,
             IPAddress := node.IPAddress, Count := 1 }]
        ipAddressSeq := t.ipAddressSeq + 1
        historyUsername := t.historyUsername ++
          [{ ID := t.usernameSeq + 1, CreatedAt := now, UpdatedAt := now, UUID := node.UUID,
             Username := node.Username, Count := 0 }]
        usernameSeq := t.usernameSeq + 1 }) := by
      intro t
      unfold Create
      rw [if_pos hnew]
      simp only [DB_bind_apply, DB.orWrap, DB.write, NewHistoryHostname,
        NewHistoryLocalname, NewHistoryIPAddress, NewHistoryUsername, NewRecord,
        beq_self_eq_true, if_true, stamp]
    rw [hrun s] at hok
    have hs1 := (Prod.mk.inj hok).2
    subst hs1
    exact ⟨hnew, rfl, rfl, rfl, rfl, rfl, fun t _ => by rw [hrun t]⟩
  · unfold Create at hok
    simp only [hnew] at hok
    cases hok

/-- Witness of C20: the sample node enrolled on the empty store at instant 100. -/
theorem C20_enrollment_seeds_history_witness :
    NewRecord sampleNode.ID = true ∧
    sampleEnrolled.nodes = ({} : Store).nodes ++
      [{ sampleNode with ID := ({} : Store).nodeSeq + 1,
                         CreatedAt := stamp sampleNode.CreatedAt 100,
                         UpdatedAt := stamp sampleNode.UpdatedAt 100 }] ∧
    sampleEnrolled.historyHostname = ({} : Store).historyHostname ++
      [{ ID := ({} : Store).hostnameSeq + 1, CreatedAt := 100, UpdatedAt := 100,
         UUID := sampleNode.UUID, Hostname := sampleNode.Hostname, Count := 0 }] ∧
    sampleEnrolled.historyLocalname = ({} : Store).historyLocalname ++
      [{ ID := ({} : Store).localnameSeq + 1, CreatedAt := 100, UpdatedAt := 100,
         UUID := sampleNode.UUID, Localname := sampleNode.Localname, Count := 0 }] ∧
    sampleEnrolled.historyIPAddress = ({} : Store).historyIPAddress ++
      [{ ID := ({} : Store).ipAddressSeq + 1, CreatedAt := 100, UpdatedAt := 100,
         UUID := sampleNode.UUID, IPAddress := sampleNode.IPAddress, Count := 1 }] ∧
    sampleEnrolled.historyUsername = ({} : Store).historyUsername ++
      [{ ID := ({} : Store).usernameSeq + 1, CreatedAt := 100, UpdatedAt := 100,
         UUID := sampleNode.UUID, Username := sampleNode.Username, Count := 0 }] ∧
    (∀ t : Store, NewRecord sampleNode.ID = true → (Create 100 sampleNode t).1 = .ok ()) :=
  C20_enrollment_seeds_history {} 100 sampleNode sampleEnrolled (by rfl)

/-- Evaluation for C19: after the address of N1 went 10.0.0.1, 10.0.0.2, 10.0.0.1 the history
holds two entries for (N1, 10.0.0.1), written at instants 100 and 300. A report of the
unchanged address at instant 400 succeeds and increments the entry written at instant 100,
the one with the oldest updated_at; the entry written at instant 300, the most recent one,
keeps count 1. The next report, at instant 500, increments the other entry. -/
theorem C19_increment_goes_to_oldest_entry :
    sampleRoamed.historyIPAddress =
      [{ ID := 1, CreatedAt := 100, UpdatedAt := 100, UUID := "N1", IPAddress := "10.0.0.1",
         Count := 1 },
       { ID := 2, CreatedAt := 200, UpdatedAt := 200, UUID := "N1", IPAddress := "10.0.0.2",
         Count := 1 },
       { ID := 3, CreatedAt := 300, UpdatedAt := 300, UUID := "N1", IPAddress := "10.0.0.1",
         Count := 1 }] ∧
    (GetByUUID sampleRoamed "N1").toOption.map (fun n => n.IPAddress) = some "10.0.0.1" ∧
    (UpdateMetadataByUUID 400 "N1" { IPAddress := "10.0.0.1" } sampleRoamed).1 = .ok () ∧
    (UpdateMetadataByUUID 400 "N1" { IPAddress := "10.0.0.1" } sampleRoamed).2.historyIPAddress =
      [{ ID := 1, CreatedAt := 100, UpdatedAt := 400, UUID := "N1", IPAddress := "10.0.0.1",
         Count := 2 },
       { ID := 2, CreatedAt := 200, UpdatedAt := 200, UUID := "N1", IPAddress := "10.0.0.2",
         Count := 1 },
       { ID := 3, CreatedAt := 300, UpdatedAt := 300, UUID := "N1", IPAddress := "10.0.0.1",
         Count := 1 }] ∧
    (UpdateMetadataByUUID 500 "N1" { IPAddress := "10.0.0.1" }
      (UpdateMetadataByUUID 400 "N1" { IPAddress := "10.0.0.1" }
        sampleRoamed).2).2.historyIPAddress =
      [{ ID := 1, CreatedAt := 100, UpdatedAt := 400, UUID := "N1", IPAddress := "10.0.0.1",
         Count := 2 },
       { ID := 2, CreatedAt := 200, UpdatedAt := 200, UUID := "N1", IPAddress := "10.0.0.2",
         Count := 1 },
       { ID := 3, CreatedAt := 300, UpdatedAt := 500, UUID := "N1", IPAddress := "10.0.0.1",
         Count := 2 }] := by
  refine ⟨by decide, by decide, by rfl, by decide, by decide⟩

/-- The row that the lookup by UUID finds is, after `Updates` with a struct that carries no
UUID, found again, updated. -/
theorem GetByUUID_Updates (s s1 : Store) (now : Nat) (uuid : String) (node data : OsqueryNode)
    (hnode : GetByUUID s uuid = .ok node) (hU : data.UUID = "")
    (h1 : s1.nodes = (Updates now node.ID data s).2.nodes) :
    GetByUUID s1 uuid = .ok (if data = {} then node else node.updates data now) := by
  have hfind : s.nodes.find? (fun n => n.UUID == toUpper uuid) = some node := by
    unfold GetByUUID at hnode
    cases hf : s.nodes.find? (fun n => n.UUID == toUpper uuid) with
    | none => rw [hf] at hnode; cases hnode
    | some x => rw [hf] at hnode; rw [Except.ok.inj hnode]
  unfold GetByUUID
  rw [h1]
  simp only [Updates, DB.write]
  by_cases hd : data = {}
  · simp only [hd, if_true, hfind]
  · simp only [hd, if_false]
    have hcomp : ((fun n : OsqueryNode => n.UUID == toUpper uuid) ∘
        fun r => if node.ID = 0 ∨ r.ID = node.ID then r.updates data now else r) =
        fun n => n.UUID == toUpper uuid := by
      funext r
      by_cases hr : node.ID = 0 ∨ r.ID = node.ID
      · simp [hr, OsqueryNode.updates, hU]
      · simp [hr]
    rw [List.find?_map, hcomp, hfind]
    simp

/-- A text column of the row that `Updates` leaves: the value in data unless that is blank. -/
theorem updated_field (node data : OsqueryNode) (now : Nat) (f : OsqueryNode → String)
    (hf0 : f {} = "")
    (hfu : f (node.updates data now) = if f data = "" then f node else f data) :
    f (if data = {} then node else node.updates data now) =
      if f data = "" then f node else f data := by
  by_cases hd : data = {}
  · rw [if_pos hd, hd, hf0, if_pos rfl]
  · rw [if_neg hd, hfu]

/-- The value picked for a column: the reported one when it is not empty and differs. -/
theorem picked_value (c : Prop) [Decidable c] (new old : String) (hc : c → new ≠ "") :
    (if (if c then new else "") = "" then old else (if c then new else "")) =
      if c then new else old := by
  by_cases h : c
  · simp [h, hc h]
  · simp [h]

/-- Counterexample to C18 as stated: N1 is enrolled with hostname host1 and address
10.0.0.1; UpdateMetadataByUUID with hostname host2 and no address appends the
hostname-history entry (N1, host2), then returns the error of IncHistoryIPAddress, which
finds no entry for the empty address; host2 is not stored on the node, and a second call
with the same host2 appends a further entry. -/
theorem C18_failed_update_keeps_old_hostname :
    (GetByUUID sampleEnrolled "N1").toOption.map (fun n => n.Hostname) = some "host1" ∧
    (UpdateMetadataByUUID 200 "N1" { Hostname := "host2" } sampleEnrolled).1 =
      .error (.wrap "incNodeHistoryIPAddress"
        (.wrap "getNodeHistoryIPAddress" .recordNotFound)) ∧
    (UpdateMetadataByUUID 200 "N1" { Hostname := "host2" } sampleEnrolled).2.historyHostname =
      [{ ID := 1, CreatedAt := 100, UpdatedAt := 100, UUID := "N1", Hostname := "host1" },
       { ID := 2, CreatedAt := 200, UpdatedAt := 200, UUID := "N1", Hostname := "host2" }] ∧
    (GetByUUID (UpdateMetadataByUUID 200 "N1" { Hostname := "host2" } sampleEnrolled).2
      "N1").toOption.map (fun n => n.Hostname) = some "host1" ∧
    (UpdateMetadataByUUID 300 "N1" { Hostname := "host2" }
      (UpdateMetadataByUUID 200 "N1" { Hostname := "host2" }
        sampleEnrolled).2).2.historyHostname =
      [{ ID := 1, CreatedAt := 100, UpdatedAt := 100, UUID := "N1", Hostname := "host1" },
       { ID := 2, CreatedAt := 200, UpdatedAt := 200, UUID := "N1", Hostname := "host2" },
       { ID := 3, CreatedAt := 300, UpdatedAt := 300, UUID := "N1", Hostname := "host2" }] := by
  refine ⟨by decide, by rfl, by decide, by decide, by decide⟩

/-- C18 as amended. Let the lookup by UUID find a node, and let UpdateMetadataByUUID return
no error. For each of hostname, localname and username: when the reported value is not
empty and differs from the stored one, the value is stored on the node and exactly one
history entry (node.UUID, value) is appended to the history of that attribute; otherwise
the stored value and that history are left as they are. For the IP address: a reported
address that is not empty and differs from the stored one is stored and one entry with
count 1 is appended; otherwise no entry is appended, and the entry that GetHistoryIPAddress
reads for (node.UUID, reported address) - a stored entry with that UUID and address - has
its count raised by exactly 1, its updated_at set, and every other entry is left as it was
(primary keys of the history being distinct and positive, counts below the largest int).
A second call with the same metadata, whatever it returns, appends no entry to any of the
four histories and leaves the hostname, localname and username histories unchanged. -/
theorem C18_history_append_or_increment (s : Store) (now : Nat) (uuid : String)
    (metadata : NodeMetadata) (node : OsqueryNode) (s1 : Store)
    (hnode : GetByUUID s uuid = .ok node)
    (hids : (s.historyIPAddress.map (fun e => e.ID)).Nodup ∧
      ∀ e ∈ s.historyIPAddress, 0 < e.ID)
    (hcount : ∀ e ∈ s.historyIPAddress, -(2 ^ 63) ≤ e.Count ∧ e.Count + 1 < 2 ^ 63)
    (hok : UpdateMetadataByUUID now uuid metadata s = (.ok (), s1)) :
    s1.historyHostname =
      (if metadata.Hostname ≠ "" ∧ metadata.Hostname ≠ node.Hostname then
        s.historyHostname ++
          [{ ID := s.hostnameSeq + 1, CreatedAt := now, UpdatedAt := now, UUID := node.UUID,
             Hostname := metadata.Hostname, Count := 0 }]
      else s.historyHostname) ∧
    s1.historyLocalname =
      (if metadata.Localname ≠ "" ∧ metadata.Localname ≠ node.Localname then
        s.historyLocalname ++
          [{ ID := s.localnameSeq + 1, CreatedAt := now, UpdatedAt := now, UUID := node.UUID,
             Localname := metadata.Localname, Count := 0 }]
      else s.historyLocalname) ∧
    s1.historyUsername =
      (if metadata.Username ≠ "" ∧ metadata.Username ≠ node.Username then
        s.historyUsername ++
          [{ ID := s.usernameSeq + 1, CreatedAt := now, UpdatedAt := now, UUID := node.UUID,
             Username := metadata.Username, Count := 0 }]
      else s.historyUsername) ∧
    (metadata.IPAddress ≠ "" ∧ metadata.IPAddress ≠ node.IPAddress →
      s1.historyIPAddress = s.historyIPAddress ++
        [{ ID := s.ipAddressSeq + 1, CreatedAt := now, UpdatedAt := now, UUID := node.UUID,
           IPAddress := metadata.IPAddress, Count := 1 }]) ∧
    (¬ (metadata.IPAddress ≠ "" ∧ metadata.IPAddress ≠ node.IPAddress) →
      ∃ e, GetHistoryIPAddress s node.UUID metadata.IPAddress = .ok e ∧
        e ∈ s.historyIPAddress ∧ e.UUID = node.UUID ∧ e.IPAddress = metadata.IPAddress ∧
        s1.historyIPAddress = s.historyIPAddress.map (fun r =>
          if r = e then { e with Count := e.Count + 1, UpdatedAt := now } else r)) ∧
    (∃ node1, GetByUUID s1 uuid = .ok node1 ∧
      node1.Hostname =
        (if metadata.Hostname ≠ "" ∧ metadata.Hostname ≠ node.Hostname then metadata.Hostname
          else node.Hostname) ∧
      node1.Localname =
        (if metadata.Localname ≠ "" ∧ metadata.Localname ≠ node.Localname then
          metadata.Localname else node.Localname) ∧
      node1.Username =
        (if metadata.Username ≠ "" ∧ metadata.Username ≠ node.Username then metadata.Username
          else node.Username) ∧
      node1.IPAddress =
        (if metadata.IPAddress ≠ "" ∧ metadata.IPAddress ≠ node.IPAddress then
          metadata.IPAddress else node.IPAddress)) ∧
    (∀ now2 : Nat,
      (UpdateMetadataByUUID now2 uuid metadata s1).2.historyHostname = s1.historyHostname ∧
      (UpdateMetadataByUUID now2 uuid metadata s1).2.historyLocalname = s1.historyLocalname ∧
      (UpdateMetadataByUUID now2 uuid metadata s1).2.historyUsername = s1.historyUsername ∧
      (UpdateMetadataByUUID now2 uuid metadata s1).2.historyIPAddress.length =
        s1.historyIPAddress.length) := by
  obtain ⟨hU, hH, hL, hIpos, hIneg, hIerr, hN, -⟩ :=
    UpdateMetadataByUUID_run s now uuid metadata node hnode
  rw [hok] at hU hH hL hIpos hIneg hIerr hN
  -- the node row
  have hrow := GetByUUID_Updates s s1 now uuid node _ hnode rfl (hN rfl)
  have hnode1 : ∃ node1, GetByUUID s1 uuid = .ok node1 ∧
      node1.Hostname =
        (if metadata.Hostname ≠ "" ∧ metadata.Hostname ≠ node.Hostname then metadata.Hostname
          else node.Hostname) ∧
      node1.Localname =
        (if metadata.Localname ≠ "" ∧ metadata.Localname ≠ node.Localname then
          metadata.Localname else node.Localname) ∧
      node1.Username =
        (if metadata.Username ≠ "" ∧ metadata.Username ≠ node.Username then metadata.Username
          else node.Username) ∧
      node1.IPAddress =
        (if metadata.IPAddress ≠ "" ∧ metadata.IPAddress ≠ node.IPAddress then
          metadata.IPAddress else node.IPAddress) := by
    refine ⟨_, hrow, ?_, ?_, ?_, ?_⟩
    · rw [updated_field node _ now (fun n => n.Hostname) rfl rfl]
      exact picked_value _ _ _ (fun h => h.1)
    · rw [updated_field node _ now (fun n => n.Localname) rfl rfl]
      exact picked_value _ _ _ (fun h => h.1)
    · rw [updated_field node _ now (fun n => n.Username) rfl rfl]
      exact picked_value _ _ _ (fun h => h.1)
    · rw [updated_field node _ now (fun n => n.IPAddress) rfl rfl]
      exact picked_value _ _ _ (fun h => h.1)
  refine ⟨hH, hL, hU, fun h => (hIpos h).2, ?_, hnode1, ?_⟩
  · intro hI
    cases hget : GetHistoryIPAddress s node.UUID metadata.IPAddress with
    | error err =>
      have herr := GetHistoryIPAddress_error _ _ _ _ hget
      subst herr
      exact absurd (hIerr hI hget).1 (by simp)
    | ok e =>
      obtain ⟨hmem, hu, hi⟩ := GetHistoryIPAddress_ok s _ _ e hget
      refine ⟨e, rfl, hmem, hu, hi, ?_⟩
      rw [(hIneg hI e hget).2]
      apply List.map_congr_left
      intro r hr
      have hpos : ¬ e.ID = 0 := by
        have := hids.2 e hmem
        omega
      rw [Queries.goInt_eq_self _ (by have := (hcount e hmem).1; omega) (hcount e hmem).2]
      by_cases hre : r = e
      · subst hre
        simp
      · have : ¬ r.ID = e.ID := fun h => hre (List.inj_on_of_nodup_map hids.1 hr hmem h)
        simp [hpos, this, hre]
  · intro now2
    obtain ⟨node1, hg1, hh, hl, hu, hi⟩ := hnode1
    obtain ⟨hU2, hH2, hL2, -, hIneg2, hIerr2, -, -⟩ :=
      UpdateMetadataByUUID_run s1 now2 uuid metadata node1 hg1
    have cH : ¬ (metadata.Hostname ≠ "" ∧ metadata.Hostname ≠ node1.Hostname) := by
      rw [hh]
      split
      · exact fun h => h.2 rfl
      · next hc => exact hc
    have cL : ¬ (metadata.Localname ≠ "" ∧ metadata.Localname ≠ node1.Localname) := by
      rw [hl]
      split
      · exact fun h => h.2 rfl
      · next hc => exact hc
    have cU : ¬ (metadata.Username ≠ "" ∧ metadata.Username ≠ node1.Username) := by
      rw [hu]
      split
      · exact fun h => h.2 rfl
      · next hc => exact hc
    have cI : ¬ (metadata.IPAddress ≠ "" ∧ metadata.IPAddress ≠ node1.IPAddress) := by
      rw [hi]
      split
      · exact fun h => h.2 rfl
      · next hc => exact hc
    rw [if_neg cU] at hU2
    rw [if_neg cH] at hH2
    rw [if_neg cL] at hL2
    refine ⟨hH2, hL2, hU2, ?_⟩
    cases hget : GetHistoryIPAddress s1 node1.UUID metadata.IPAddress with
    | error err =>
      have herr := GetHistoryIPAddress_error _ _ _ _ hget
      subst herr
      rw [(hIerr2 cI hget).2.1]
    | ok e =>
      rw [(hIneg2 cI e hget).2, List.length_map]

/-- Witness of C18 as amended: N1, enrolled with hostname host1 and address 10.0.0.1, reports
hostname host2 and the unchanged address. One hostname entry is appended, and the count of
the address entry seeded at enrollment goes from 1 to 2; a repeated report appends no
hostname entry. -/
theorem C18_history_append_or_increment_witness :
    sampleRenamed.historyHostname =
      [{ ID := 1, CreatedAt := 100, UpdatedAt := 100, UUID := "N1", Hostname := "host1" },
       { ID := 2, CreatedAt := 200, UpdatedAt := 200, UUID := "N1", Hostname := "host2" }] ∧
    sampleRenamed.historyIPAddress =
      [{ ID := 1, CreatedAt := 100, UpdatedAt := 200, UUID := "N1", IPAddress := "10.0.0.1",
         Count := 2 }] ∧
    (∃ node1, GetByUUID sampleRenamed "N1" = .ok node1 ∧ node1.Hostname = "host2") ∧
    ∀ now2 : Nat,
      (UpdateMetadataByUUID now2 "N1" sampleReport sampleRenamed).2.historyHostname =
        sampleRenamed.historyHostname :=
  have h := C18_history_append_or_increment sampleEnrolled 200 "N1" sampleReport sampleStored
    sampleRenamed (by rfl) (by decide) (by decide) (by rfl)
  ⟨h.1.trans (by decide), by decide,
    h.2.2.2.2.2.1.elim (fun node1 h1 => ⟨node1, h1.1, h1.2.1.trans (by decide)⟩),
    fun now2 => (h.2.2.2.2.2.2 now2).1⟩

end Nodes

namespace Handlers

open Users Permissions Nodes Queries

/-! ## The expected count of QueryRunPOSTHandler -/

/-- Evaluation for C17: the registry holds the single node N1, of environment prod and
hostname host1, active. With the targets environment prod and host host1 the handler
passes 2 to SetExpected: the list it deduplicates holds the UUID N1 and the hostname host1.
With the targets environment prod and UUID n1, which CheckByUUID accepts, it passes 2 as
well: the list holds N1 and n1. With the UUID typed as stored it passes 1. -/
theorem C17_expected_counts_strings :
    sampleEnrolled.nodes.length = 1 ∧
    Nodes.CheckByHost sampleEnrolled "host1" = true ∧
    Nodes.CheckByUUID sampleEnrolled "n1" = true ∧
    (Nodes.GetByEnv sampleEnrolled 200 "prod" "active" (-72)).toOption.map
      (fun l => l.map (fun n => n.UUID)) = some ["N1"] ∧
    Call.QueriesSetExpected "query_1" 2 ∈
      (QueryRunPOSTHandler (registryHandlers sampleEnrolled 200) rootSession
        (some requestEnvHost) sampleUsers []).calls ∧
    Call.QueriesSetExpected "query_1" 2 ∈
      (QueryRunPOSTHandler (registryHandlers sampleEnrolled 200) rootSession
        (some requestEnvLowerUUID) sampleUsers []).calls ∧
    Call.QueriesSetExpected "query_1" 1 ∈
      (QueryRunPOSTHandler (registryHandlers sampleEnrolled 200) rootSession
        (some requestEnvUUID) sampleUsers []).calls := by
  refine ⟨by decide, by decide, by decide, by decide, by decide, by decide, by decide⟩

end Handlers

namespace Permissions

open Users

/-! ## The permission check refuses by default -/

/-- C27: the permission check fails closed. CheckPermissions returns false, for every level
and environment, when no stored user carries the username, and when the user found is not
an admin and the stored permissions do not parse. When it returns true, the user exists and
either is an admin or the parsed permissions hold the grant that the level asks for: Query
for the query level, Carve for the carve level, the entry of the environment for the
environment level. -/
theorem C27_check_fails_closed (s : Store) (username : String) (level : AccessLevel)
    (environment : String) :
    ((∀ u ∈ s.users, u.Username ≠ username) →
      CheckPermissions s username level environment = false) ∧
    (∀ u, Get s username = .ok u → u.Admin = false →
      (∀ p, ConvertPermissions u.Permissions ≠ .ok p) →
      CheckPermissions s username level environment = false) ∧
    (CheckPermissions s username level environment = true →
      ∃ u, Get s username = .ok u ∧ u ∈ s.users ∧ u.Username = username ∧
        (u.Admin = true ∨ ∃ p, ConvertPermissions u.Permissions = .ok p ∧
          ((level = QueryLevel ∧ p.Query = true) ∨ (level = CarveLevel ∧ p.Carve = true) ∨
            (level = EnvLevel ∧ GoMap.get? p.Environments environment = some true)))) := by
  refine ⟨?_, ?_, ?_⟩
  · intro h
    have hfind : s.users.find? (fun u => u.Username == username) = none := by
      rw [List.find?_eq_none]
      intro u hu
      simpa using h u hu
    simp [CheckPermissions, ExistsGet, Get, hfind]
  · intro u hget hadmin hperms
    rw [CheckPermissions_of_Get s username u level environment hget]
    cases hc : ConvertPermissions u.Permissions with
    | error e => simp [hadmin]
    | ok p => exact absurd hc (hperms p)
  · intro h
    cases hget : Get s username with
    | error e =>
      have : CheckPermissions s username level environment = false := by
        simp [CheckPermissions, ExistsGet, hget]
      rw [this] at h
      cases h
    | ok u =>
      have hmem : u ∈ s.users ∧ u.Username = username := by
        unfold Get at hget
        cases hl : s.users.find? (fun u => u.Username == username) with
        | none => rw [hl] at hget; cases hget
        | some x =>
          rw [hl] at hget
          have hx : x = u := Except.ok.inj hget
          subst hx
          exact ⟨List.mem_of_find?_eq_some hl, by simpa using List.find?_some hl⟩
      refine ⟨u, rfl, hmem.1, hmem.2, ?_⟩
      rw [CheckPermissions_of_Get s username u level environment hget] at h
      by_cases hadmin : u.Admin = true
      · exact Or.inl hadmin
      · right
        simp only [hadmin] at h
        cases hc : ConvertPermissions u.Permissions with
        | error e => rw [hc] at h; simp at h
        | ok p =>
          rw [hc] at h
          refine ⟨p, rfl, ?_⟩
          simp only [Bool.false_eq_true, if_false] at h
          by_cases h1 : level = QueryLevel
          · rw [if_pos h1] at h; exact Or.inl ⟨h1, h⟩
          · rw [if_neg h1] at h
            by_cases h2 : level = CarveLevel
            · rw [if_pos h2] at h; exact Or.inr (Or.inl ⟨h2, h⟩)
            · rw [if_neg h2] at h
              by_cases h3 : level = EnvLevel
              · rw [if_pos h3] at h
                refine Or.inr (Or.inr ⟨h3, ?_⟩)
                cases hg : GoMap.get? p.Environments environment with
                | none => rw [hg] at h; simp at h
                | some b => rw [hg] at h; simp at h; rw [h]
              · rw [if_neg h3] at h; cases h

/-- Witness of C27: the guest, who is no admin and whose stored permissions do not parse, is
refused, and so is a name that no user carries. -/
theorem C27_check_fails_closed_witness :
    CheckPermissions { users := [sampleGuest], userSeq := 4 } "guest" EnvLevel "prod" = false ∧
    CheckPermissions { users := [sampleGuest], userSeq := 4 } "nobody" QueryLevel "prod" =
      false :=
  ⟨(C27_check_fails_closed { users := [sampleGuest], userSeq := 4 } "guest" EnvLevel
      "prod").2.1 sampleGuest (by rfl) (by rfl) (fun p h => by cases h),
    (C27_check_fails_closed { users := [sampleGuest], userSeq := 4 } "nobody" QueryLevel
      "prod").1 (by decide)⟩

end Permissions

namespace Nodes

/-! ## Node registry: platforms and statistics -/

/-- The loop of eraseDups keeps what it has collected, without repeats, and adds what is new. -/
theorem eraseDups_loop_spec : ∀ (as bs : List String), bs.Nodup →
    (List.eraseDups.loop as bs).Nodup ∧
      ∀ x, x ∈ List.eraseDups.loop as bs ↔ x ∈ as ∨ x ∈ bs := by
  intro as
  induction as with
  | nil =>
    intro bs hbs
    simp [List.eraseDups.loop, hbs]
  | cons a as ih =>
    intro bs hbs
    unfold List.eraseDups.loop
    by_cases ha : a ∈ bs
    · have he : List.elem a bs = true := by simpa using ha
      simp only [he]
      refine ⟨(ih bs hbs).1, fun x => ?_⟩
      rw [(ih bs hbs).2 x]
      constructor
      · rintro (h | h)
        · exact Or.inl (List.mem_cons_of_mem _ h)
        · exact Or.inr h
      · rintro (h | h)
        · rcases List.mem_cons.mp h with rfl | h
          · exact Or.inr ha
          · exact Or.inl h
        · exact Or.inr h
    · have he : List.elem a bs = false := by simpa using ha
      simp only [he]
      have hnd : (a :: bs).Nodup := List.nodup_cons.mpr ⟨ha, hbs⟩
      refine ⟨(ih _ hnd).1, fun x => ?_⟩
      rw [(ih _ hnd).2 x]
      simp only [List.mem_cons]
      tauto

/-- C30: GetAllPlatforms never reports a failure. For every store the call returns a list
and no error, whether the query for the distinct platforms fails or not: the empty list when
it fails, and when it succeeds a list without repeats whose members are exactly the platform
values of the stored nodes. -/
theorem C30_platforms_never_fail (s : Store) (rowsFail : Bool) :
    ∃ platforms, GetAllPlatforms s rowsFail = .ok platforms ∧
      (rowsFail = true → platforms = []) ∧
      (rowsFail = false → platforms.Nodup ∧
        ∀ p, p ∈ platforms ↔ ∃ n ∈ s.nodes, n.Platform = p) := by
  cases rowsFail with
  | true => exact ⟨[], rfl, fun _ => rfl, fun h => absurd h (by decide)⟩
  | false =>
    refine ⟨(s.nodes.map (fun n : OsqueryNode => n.Platform)).eraseDups, rfl,
      fun h => absurd h (by decide), fun _ => ?_⟩
    have h := eraseDups_loop_spec (s.nodes.map (fun n => n.Platform)) [] List.nodup_nil
    refine ⟨h.1, fun p => ?_⟩
    unfold List.eraseDups
    rw [h.2 p]
    simp

/-- Rows above, below and at a threshold add up to all rows. -/
theorem length_filter_threshold (t : Int) (m : OsqueryNode → Bool) :
    ∀ l : List OsqueryNode,
      ((l.filter (fun n => m n && decide ((n.UpdatedAt : Int) > t))).length : Int) +
        (l.filter (fun n => m n && decide ((n.UpdatedAt : Int) < t))).length +
        (l.filter (fun n => m n && decide ((n.UpdatedAt : Int) = t))).length =
      (l.filter m).length := by
  intro l
  induction l with
  | nil => simp
  | cons a l ih =>
    simp only [List.filter_cons]
    cases hm : m a
    · simpa using ih
    · simp only [Bool.true_and, if_true]
      have e1 : ∀ b1 b2 b3 : Bool,
          decide ((a.UpdatedAt : Int) > t) = b1 → decide ((a.UpdatedAt : Int) < t) = b2 →
          decide ((a.UpdatedAt : Int) = t) = b3 →
          ((b1 = true ∧ b2 = false ∧ b3 = false) ∨ (b1 = false ∧ b2 = true ∧ b3 = false) ∨
            (b1 = false ∧ b2 = false ∧ b3 = true)) := by
        intro b1 b2 b3 h1 h2 h3
        subst h1 h2 h3
        rcases lt_trichotomy (a.UpdatedAt : Int) t with h | h | h
        · right; left
          exact ⟨decide_eq_false (by omega), decide_eq_true h, decide_eq_false (by omega)⟩
        · right; right
          exact ⟨decide_eq_false (by omega), decide_eq_false (by omega), decide_eq_true h⟩
        · left
          exact ⟨decide_eq_true h, decide_eq_false (by omega), decide_eq_false (by omega)⟩
      rcases e1 _ _ _ rfl rfl rfl with ⟨h1, h2, h3⟩ | ⟨h1, h2, h3⟩ | ⟨h1, h2, h3⟩ <;>
      · simp only [h1, h2, h3, if_true, Bool.false_eq_true, if_false, List.length_cons]
        push_cast
        omega

/-- C28: stats accounting. For every store, selector and hours value, the StatsData of
GetStatsByEnv and of GetStatsByPlatform has Active + Inactive at most Total, with equality
exactly when no matching node has updated_at equal to the threshold instant; both counts
compare with the one instant that hoursFrom gives, and no node is both above and below
it. -/
theorem C28_stats_accounting (s : Store) (now : Nat) (selector : String) (hours : Int) :
    ((GetStatsByEnv s now selector hours).Active + (GetStatsByEnv s now selector hours).Inactive ≤
        (GetStatsByEnv s now selector hours).Total ∧
      ((GetStatsByEnv s now selector hours).Active +
          (GetStatsByEnv s now selector hours).Inactive =
          (GetStatsByEnv s now selector hours).Total ↔
        ∀ n ∈ s.nodes, n.Environment = selector → (n.UpdatedAt : Int) ≠ hoursFrom now hours) ∧
      (∀ n ∈ s.nodes, ¬ ((n.UpdatedAt : Int) > hoursFrom now hours ∧
        (n.UpdatedAt : Int) < hoursFrom now hours))) ∧
    ((GetStatsByPlatform s now selector hours).Active +
        (GetStatsByPlatform s now selector hours).Inactive ≤
        (GetStatsByPlatform s now selector hours).Total ∧
      ((GetStatsByPlatform s now selector hours).Active +
          (GetStatsByPlatform s now selector hours).Inactive =
          (GetStatsByPlatform s now selector hours).Total ↔
        ∀ n ∈ s.nodes, n.Platform = selector → (n.UpdatedAt : Int) ≠ hoursFrom now hours)) := by
  have key : ∀ m : OsqueryNode → Bool,
      ((s.nodes.filter (fun n => m n && decide ((n.UpdatedAt : Int) > hoursFrom now hours))).length
          : Int) +
        (s.nodes.filter (fun n => m n && decide ((n.UpdatedAt : Int) < hoursFrom now hours))).length ≤
        (s.nodes.filter m).length ∧
      (((s.nodes.filter (fun n => m n && decide ((n.UpdatedAt : Int) > hoursFrom now hours))).length
          : Int) +
        (s.nodes.filter (fun n => m n && decide ((n.UpdatedAt : Int) < hoursFrom now hours))).length =
        (s.nodes.filter m).length ↔
        ∀ n ∈ s.nodes, m n = true → (n.UpdatedAt : Int) ≠ hoursFrom now hours) := by
    intro m
    have h := length_filter_threshold (hoursFrom now hours) m s.nodes
    have hnn : (0 : Int) ≤ (s.nodes.filter
        (fun n => m n && decide ((n.UpdatedAt : Int) = hoursFrom now hours))).length :=
      Int.natCast_nonneg _
    refine ⟨by omega, ?_⟩
    have hz : ((s.nodes.filter
        (fun n => m n && decide ((n.UpdatedAt : Int) = hoursFrom now hours))).length : Int) = 0 ↔
        ∀ n ∈ s.nodes, m n = true → (n.UpdatedAt : Int) ≠ hoursFrom now hours := by
      rw [Int.natCast_eq_zero, List.length_eq_zero, List.filter_eq_nil_iff]
      constructor
      · intro h1 n hn hm he
        exact h1 n hn (by simp [hm, he])
      · intro h1 n hn hc
        simp only [Bool.and_eq_true, decide_eq_true_eq] at hc
        exact h1 n hn hc.1 hc.2
    rw [← hz]
    omega
  refine ⟨⟨(key (fun n => n.Environment == selector)).1, ?_, fun n _ h => by omega⟩,
    (key (fun n => n.Platform == selector)).1, ?_⟩
  · have := (key (fun n => n.Environment == selector)).2
    simpa [GetStatsByEnv] using this
  · have := (key (fun n => n.Platform == selector)).2
    simpa [GetStatsByPlatform] using this

/-! ## Node registry: the window of activity -/

/-- Counterexample to C25 as stated: at the instant 7200000000100 (two hours after the
epoch, in nanoseconds) with N = 72 hours, the node N1 written at instant 100 is newer than
now - 72 hours, yet GetByEnv and Gets with target active return no node, target inactive
returns N1, and the statistics count it as inactive: the functions compare with
now + 72 hours. -/
theorem C25_positive_hours_look_ahead :
    sampleEnrolled.nodes = [sampleStored] ∧
    ((sampleStored.UpdatedAt : Int) > (7200000000100 : Int) - 72 * 3600000000000) ∧
    GetByEnv sampleEnrolled 7200000000100 "prod" "active" 72 = .ok [] ∧
    GetByEnv sampleEnrolled 7200000000100 "prod" "inactive" 72 = .ok [sampleStored] ∧
    Gets sampleEnrolled 7200000000100 "active" 72 = [] ∧
    (GetStatsByEnv sampleEnrolled 7200000000100 "prod" 72).Active = 0 ∧
    (GetStatsByEnv sampleEnrolled 7200000000100 "prod" 72).Inactive = 1 := by
  refine ⟨by decide, by decide, by rfl, by rfl, by decide, by decide, by decide⟩

/-- The product of the hours and time.Hour does not wrap for up to 2562047 hours. -/
theorem hoursFrom_eq (now : Nat) (hours : Int) (hb : -2562047 ≤ hours ∧ hours ≤ 2562047) :
    hoursFrom now hours = (now : Int) + hours * 3600000000000 := by
  unfold hoursFrom
  rw [Queries.goInt_eq_self _ (by omega) (by omega)]

/-- C25, amended: the activity window. The functions add their hours argument to the clock
reading. For every store, selector and hours between -2562047 and 2562047 (where the product
with time.Hour does not wrap), target active returns exactly the selector-matching nodes
whose updated_at is newer than now + hours, target inactive those older than now + hours,
target all every matching node; GetBySelector by environment and by platform is GetByEnv and
GetByPlatform; Gets does the same over all nodes; GetStatsByEnv and GetStatsByPlatform count
with the same instant. The window of the last N hours is the one of hours = -N. -/
theorem C25_activity_window (s : Store) (now : Nat) (selector : String) (hours : Int)
    (hb : -2562047 ≤ hours ∧ hours ≤ 2562047) :
    (GetByEnv s now selector "active" hours = .ok (s.nodes.filter (fun n =>
        n.Environment == selector &&
          decide ((n.UpdatedAt : Int) > (now : Int) + hours * 3600000000000))) ∧
      GetByEnv s now selector "inactive" hours = .ok (s.nodes.filter (fun n =>
        n.Environment == selector &&
          decide ((n.UpdatedAt : Int) < (now : Int) + hours * 3600000000000))) ∧
      GetByEnv s now selector "all" hours =
        .ok (s.nodes.filter (fun n => n.Environment == selector))) ∧
    (GetByPlatform s now selector "active" hours = .ok (s.nodes.filter (fun n =>
        n.Platform == selector &&
          decide ((n.UpdatedAt : Int) > (now : Int) + hours * 3600000000000))) ∧
      GetByPlatform s now selector "inactive" hours = .ok (s.nodes.filter (fun n =>
        n.Platform == selector &&
          decide ((n.UpdatedAt : Int) < (now : Int) + hours * 3600000000000))) ∧
      GetByPlatform s now selector "all" hours =
        .ok (s.nodes.filter (fun n => n.Platform == selector))) ∧
    (GetBySelector s now "environment" selector "active" hours =
        GetByEnv s now selector "active" hours ∧
      GetBySelector s now "platform" selector "active" hours =
        GetByPlatform s now selector "active" hours) ∧
    (Gets s now "active" hours = s.nodes.filter (fun n =>
        decide ((n.UpdatedAt : Int) > (now : Int) + hours * 3600000000000)) ∧
      Gets s now "inactive" hours = s.nodes.filter (fun n =>
        decide ((n.UpdatedAt : Int) < (now : Int) + hours * 3600000000000)) ∧
      Gets s now "all" hours = s.nodes) ∧
    (GetStatsByEnv s now selector hours =
      { Total := (s.nodes.filter (fun n => n.Environment == selector)).length
        Active := (s.nodes.filter (fun n => n.Environment == selector &&
          decide ((n.UpdatedAt : Int) > (now : Int) + hours * 3600000000000))).length
        Inactive := (s.nodes.filter (fun n => n.Environment == selector &&
          decide ((n.UpdatedAt : Int) < (now : Int) + hours * 3600000000000))).length }) ∧
    (GetStatsByPlatform s now selector hours =
      { Total := (s.nodes.filter (fun n => n.Platform == selector)).length
        Active := (s.nodes.filter (fun n => n.Platform == selector &&
          decide ((n.UpdatedAt : Int) > (now : Int) + hours * 3600000000000))).length
        Inactive := (s.nodes.filter (fun n => n.Platform == selector &&
          decide ((n.UpdatedAt : Int) < (now : Int) + hours * 3600000000000))).length }) := by
  have ht := hoursFrom_eq now hours hb
  refine ⟨⟨?_, ?_, ?_⟩, ⟨?_, ?_, ?_⟩, ⟨rfl, rfl⟩, ⟨?_, ?_, ?_⟩, ?_, ?_⟩
  all_goals
    simp only [GetByEnv, GetByPlatform, GetBySelector, Gets, GetStatsByEnv, GetStatsByPlatform,
      ht, Bool.and_true]

/-- Witness of C25: with hours = -72 at the instant 7200000000100 the node N1, written at
instant 100, is active. -/
theorem C25_activity_window_witness :
    GetByEnv sampleEnrolled 7200000000100 "prod" "active" (-72) = .ok (sampleEnrolled.nodes.filter
      (fun n => n.Environment == "prod" &&
        decide ((n.UpdatedAt : Int) > ((7200000000100 : Nat) : Int) + (-72) * 3600000000000))) ∧
    GetByEnv sampleEnrolled 7200000000100 "prod" "active" (-72) = .ok [sampleStored] :=
  ⟨(C25_activity_window sampleEnrolled 7200000000100 "prod" (-72) (by decide)).1.1, by rfl⟩

/-! ## Node registry: archive and removal -/

/-- What Archive does for a node that the lookup finds. -/
theorem Archive_run (s : Store) (now : Nat) (createErr : Option Error) (uuid trigger : String)
    (node : OsqueryNode) (hnode : GetByUUID s uuid = .ok node) :
    Archive now createErr uuid trigger s =
      match createErr with
      | some err => (.error (.wrap "Create" err), s)
      | none => (.ok (), { s with
          archive := s.archive ++ [{ nodeArchiveFromNode node trigger with
            ID := s.archiveSeq + 1, CreatedAt := now, UpdatedAt := now }]
          archiveSeq := s.archiveSeq + 1 }) := by
  unfold Archive
  cases createErr <;>
    simp [DB_bind_apply, DB.orWrap, DB.read, hnode, NewRecord, nodeArchiveFromNode,
      createArchive, stamp]

/-- What ArchiveDeleteByUUID does for a node that the lookup finds. -/
theorem ArchiveDeleteByUUID_run (s : Store) (now : Nat) (createErr : Option Error)
    (uuid : String) (node : OsqueryNode) (hnode : GetByUUID s uuid = .ok node) :
    ArchiveDeleteByUUID now createErr uuid s =
      match createErr with
      | some err => (.error (.wrap "Create" err), s)
      | none => (.ok (), { s with
          archive := s.archive ++ [{ nodeArchiveFromNode node "delete" with
            ID := s.archiveSeq + 1, CreatedAt := now, UpdatedAt := now }]
          archiveSeq := s.archiveSeq + 1
          nodes := s.nodes.filter (fun r => !(node.ID == 0 || r.ID == node.ID)) }) := by
  unfold ArchiveDeleteByUUID
  cases createErr <;>
    simp [DB_bind_apply, DB_ite_apply, DB.orWrap, DB.read, hnode, NewRecord, nodeArchiveFromNode,
      createArchive, stamp, hardDelete, DB.write]

/-- The node read by GetByUUID is a stored row with the upper-cased UUID. -/
theorem GetByUUID_ok (s : Store) (uuid : String) (node : OsqueryNode)
    (h : GetByUUID s uuid = .ok node) : node ∈ s.nodes ∧ node.UUID = toUpper uuid := by
  unfold GetByUUID at h
  cases hf : s.nodes.find? (fun n => n.UUID == toUpper uuid) with
  | none => rw [hf] at h; cases h
  | some x =>
    rw [hf] at h
    have hx : x = node := Except.ok.inj h
    subst hx
    exact ⟨List.mem_of_find?_eq_some hf, by simpa using List.find?_some hf⟩

/-- GetByUUID fails exactly when no row carries the upper-cased UUID. -/
theorem GetByUUID_error_iff (s : Store) (uuid : String) :
    GetByUUID s uuid = .error .recordNotFound ↔ ∀ n ∈ s.nodes, n.UUID ≠ toUpper uuid := by
  unfold GetByUUID
  cases hf : s.nodes.find? (fun n => n.UUID == toUpper uuid) with
  | none =>
    simp only [true_iff]
    intro n hn
    have := List.find?_eq_none.mp hf n hn
    simpa using this
  | some x =>
    constructor
    · intro h; cases h
    · intro h
      exact absurd (by simpa using List.find?_some hf) (h x (List.mem_of_find?_eq_some hf))

/-- GetByKey fails exactly when no row carries the lower-cased key. -/
theorem GetByKey_error_iff (s : Store) (nodekey : String) :
    GetByKey s nodekey = .error .recordNotFound ↔ ∀ n ∈ s.nodes, n.NodeKey ≠ toLower nodekey := by
  unfold GetByKey
  cases hf : s.nodes.find? (fun n => n.NodeKey == toLower nodekey) with
  | none =>
    simp only [true_iff]
    intro n hn
    have := List.find?_eq_none.mp hf n hn
    simpa using this
  | some x =>
    constructor
    · intro h; cases h
    · intro h
      exact absurd (by simpa using List.find?_some hf) (h x (List.mem_of_find?_eq_some hf))

/-- C22: Archive is a faithful, non-destructive snapshot. When Archive(uuid, trigger)
succeeds, the node that the lookup finds is a stored row; the store left is the store before
with exactly one record appended to the archive, whose key is the next of the sequence and
whose timestamps are the clock reading; the Trigger of that record is the trigger and each of
its data fields equals the field of the same name of the node; the nodes and the four
histories are as before. With a storage that accepts the insert, Archive succeeds on every
store in which the lookup finds a node. -/
theorem C22_archive_is_snapshot (s : Store) (now : Nat) (createErr : Option Error)
    (uuid trigger : String) (s1 : Store)
    (hok : Archive now createErr uuid trigger s = (.ok (), s1)) :
    ∃ node a, GetByUUID s uuid = .ok node ∧ node ∈ s.nodes ∧
      s1 = { s with archive := s.archive ++ [a], archiveSeq := s.archiveSeq + 1 } ∧
      a.ID = s.archiveSeq + 1 ∧ a.CreatedAt = now ∧ a.UpdatedAt = now ∧
      a.Trigger = trigger ∧
      a.NodeKey = node.NodeKey ∧ a.UUID = node.UUID ∧ a.Platform = node.Platform ∧
      a.PlatformVersion = node.PlatformVersion ∧ a.OsqueryVersion = node.OsqueryVersion ∧
      a.Hostname = node.Hostname ∧ a.Localname = node.Localname ∧
      a.IPAddress = node.IPAddress ∧ a.Username = node.Username ∧
      a.OsqueryUser = node.OsqueryUser ∧ a.Environment = node.Environment ∧
      a.CPU = node.CPU ∧ a.Memory = node.Memory ∧ a.HardwareSerial = node.HardwareSerial ∧
      a.DaemonHash = node.DaemonHash ∧ a.ConfigHash = node.ConfigHash ∧
      a.RawEnrollment = node.RawEnrollment ∧ a.LastStatus = node.LastStatus ∧
      a.LastResult = node.LastResult ∧ a.LastConfig = node.LastConfig ∧
      a.LastQueryRead = node.LastQueryRead ∧ a.LastQueryWrite = node.LastQueryWrite ∧
      s1.nodes = s.nodes ∧ s1.historyIPAddress = s.historyIPAddress ∧
      s1.historyHostname = s.historyHostname ∧ s1.historyLocalname = s.historyLocalname ∧
      s1.historyUsername = s.historyUsername ∧
      (∀ t : Store, ∀ n, GetByUUID t uuid = .ok n → (Archive now none uuid trigger t).1 = .ok ()) := by
  cases hg : GetByUUID s uuid with
  | error e =>
    unfold Archive at hok
    simp [DB_bind_apply, DB.orWrap, DB.read, hg] at hok
  | ok node =>
    rw [Archive_run s now createErr uuid trigger node hg] at hok
    cases createErr with
    | some err => simp at hok
    | none =>
      simp only [Prod.mk.injEq, true_and] at hok
      subst hok
      refine ⟨node, _, rfl, (GetByUUID_ok s uuid node hg).1, rfl, rfl, rfl, rfl, rfl, rfl, rfl,
        rfl, rfl, rfl, rfl, rfl, rfl, rfl, rfl, rfl, rfl, rfl, rfl, rfl, rfl, rfl, rfl, rfl,
        rfl, rfl, rfl, rfl, rfl, rfl, rfl, rfl, ?_⟩
      intro t n hn
      rw [Archive_run t now none uuid trigger n hn]

/-- Witness of C22: Archive(n1, manual) on the registry that holds N1 appends one record
with trigger manual and the hostname of the node. -/
theorem C22_archive_is_snapshot_witness :
    ∃ node a, GetByUUID sampleEnrolled "n1" = .ok node ∧ node ∈ sampleEnrolled.nodes ∧
      (Archive 200 none "n1" "manual" sampleEnrolled).2 =
        { sampleEnrolled with
          archive := sampleEnrolled.archive ++ [a]
          archiveSeq := sampleEnrolled.archiveSeq + 1 } ∧
      a.Trigger = "manual" ∧ a.Hostname = node.Hostname :=
  (C22_archive_is_snapshot sampleEnrolled 200 none "n1" "manual"
    (Archive 200 none "n1" "manual" sampleEnrolled).2 (by rfl)).elim
    (fun node h => h.elim (fun a h => ⟨node, a, h.1, h.2.1, h.2.2.1, h.2.2.2.2.2.2.1,
      h.2.2.2.2.2.2.2.2.2.2.2.2.1⟩))

/-- Counterexample to C21 as stated: Create of N1 twice leaves two live rows with UUID N1,
with keys 1 and 2 (the table has no unique index on uuid). ArchiveDeleteByUUID(N1) succeeds
and archives one record with trigger delete; it removes the row that the lookup read, with
key 1, and GetByUUID(N1) then finds the row with key 2. -/
theorem C21_twin_survives_delete :
    (sampleTwins.nodes.map (fun n => (n.ID, n.UUID))) = [(1, "N1"), (2, "N1")] ∧
    sampleTwins.WF ∧
    (ArchiveDeleteByUUID 200 none "N1" sampleTwins).1 = .ok () ∧
    ((ArchiveDeleteByUUID 200 none "N1" sampleTwins).2.archive.map
      (fun a => (a.UUID, a.Trigger))) = [("N1", "delete")] ∧
    GetByUUID (ArchiveDeleteByUUID 200 none "N1" sampleTwins).2 "N1" =
      .ok { sampleNode with ID := 2, CreatedAt := 150, UpdatedAt := 150 } := by
  refine ⟨by decide, by decide, by rfl, by decide, by rfl⟩

/-- C21, amended: archive before delete. For every store with distinct positive keys and
every uuid whose lookup finds a node: when the archive insert is accepted,
ArchiveDeleteByUUID succeeds and leaves the store with one record of the node with trigger
delete appended to the archive and the row of the node removed, which is the store left by
Archive(uuid, delete) followed by the hard delete of the row; the node is no longer stored
and every other row still is; afterwards GetByUUID(uuid) fails with not-found exactly when
no other row carried the same UUID. When the archive insert fails, the call returns that
error wrapped and the store is as before, so the lookup still finds the node. -/
theorem C21_archive_before_delete (s : Store) (hwf : s.WF) (now : Nat) (uuid : String)
    (node : OsqueryNode) (hnode : GetByUUID s uuid = .ok node) :
    ArchiveDeleteByUUID now none uuid s =
      (.ok (), { s with
        archive := s.archive ++ [{ nodeArchiveFromNode node "delete" with
          ID := s.archiveSeq + 1, CreatedAt := now, UpdatedAt := now }]
        archiveSeq := s.archiveSeq + 1
        nodes := s.nodes.filter (fun r => r.ID != node.ID) }) ∧
    (ArchiveDeleteByUUID now none uuid s).2 =
      (hardDelete node.ID (Archive now none uuid "delete" s).2).2 ∧
    node ∉ (ArchiveDeleteByUUID now none uuid s).2.nodes ∧
    (∀ r ∈ s.nodes, r ≠ node → r ∈ (ArchiveDeleteByUUID now none uuid s).2.nodes) ∧
    (GetByUUID (ArchiveDeleteByUUID now none uuid s).2 uuid = .error .recordNotFound ↔
      ∀ r ∈ s.nodes, r.UUID = toUpper uuid → r = node) ∧
    (∀ err, ArchiveDeleteByUUID now (some err) uuid s = (.error (.wrap "Create" err), s) ∧
      GetByUUID (ArchiveDeleteByUUID now (some err) uuid s).2 uuid = .ok node) := by
  have hmem := (GetByUUID_ok s uuid node hnode).1
  have hpos : ¬ node.ID = 0 := by
    have := (hwf.2 node hmem).1
    omega
  have hfilter : s.nodes.filter (fun r => !(node.ID == 0 || r.ID == node.ID)) =
      s.nodes.filter (fun r => r.ID != node.ID) := by
    apply List.filter_congr
    intro r _
    simp [hpos, bne]
  have hrun : ArchiveDeleteByUUID now none uuid s =
      (.ok (), { s with
        archive := s.archive ++ [{ nodeArchiveFromNode node "delete" with
          ID := s.archiveSeq + 1, CreatedAt := now, UpdatedAt := now }]
        archiveSeq := s.archiveSeq + 1
        nodes := s.nodes.filter (fun r => r.ID != node.ID) }) := by
    rw [ArchiveDeleteByUUID_run s now none uuid node hnode]
    simp only [hfilter]
  have hinj : ∀ r ∈ s.nodes, r.ID = node.ID → r = node := fun r hr h =>
    List.inj_on_of_nodup_map hwf.1 hr hmem h
  refine ⟨hrun, ?_, ?_, ?_, ?_, ?_⟩
  · rw [hrun, Archive_run s now none uuid "delete" node hnode]
    simp only [hardDelete, DB.write, hfilter]
  · rw [hrun]
    simp
  · intro r hr hne
    rw [hrun]
    simp only [List.mem_filter, bne_iff_ne, ne_eq]
    exact ⟨hr, fun h => hne (hinj r hr h)⟩
  · rw [hrun, GetByUUID_error_iff]
    simp only [List.mem_filter, bne_iff_ne, ne_eq, and_imp]
    constructor
    · intro h r hr hu
      by_contra hne
      exact h r hr (fun hid => hne (hinj r hr hid)) hu
    · intro h r hr hid hu
      exact hid (by rw [h r hr hu])
  · intro err
    rw [ArchiveDeleteByUUID_run s now (some err) uuid node hnode]
    exact ⟨rfl, hnode⟩

/-- Witness of C21: on the registry that holds the single node N1, the lookup fails after
ArchiveDeleteByUUID exactly when no other row carries N1, and a failing archive insert
leaves the registry as it was. -/
theorem C21_archive_before_delete_witness :
    (GetByUUID (ArchiveDeleteByUUID 200 none "n1" sampleEnrolled).2 "n1" =
        .error .recordNotFound ↔
      ∀ r ∈ sampleEnrolled.nodes, r.UUID = toUpper "n1" → r = sampleStored) ∧
    (∀ err, ArchiveDeleteByUUID 200 (some err) "n1" sampleEnrolled =
        (.error (.wrap "Create" err), sampleEnrolled) ∧
      GetByUUID (ArchiveDeleteByUUID 200 (some err) "n1" sampleEnrolled).2 "n1" =
        .ok sampleStored) :=
  ⟨(C21_archive_before_delete sampleEnrolled (by decide) 200 "n1" sampleStored (by rfl)).2.2.2.2.1,
    (C21_archive_before_delete sampleEnrolled (by decide) 200 "n1" sampleStored (by rfl)).2.2.2.2.2⟩

/-! ## Node registry: a node that is missing -/

/-- An error of GetByUUID is the error of a record that is not found. -/
theorem GetByUUID_error (s : Store) (uuid : String) (e : Error)
    (h : GetByUUID s uuid = .error e) : e = .recordNotFound := by
  unfold GetByUUID at h
  cases hf : s.nodes.find? (fun n => n.UUID == toUpper uuid) with
  | none => rw [hf] at h; exact (Except.error.inj h).symm
  | some x => rw [hf] at h; cases h

/-- An error of GetByKey is the error of a record that is not found. -/
theorem GetByKey_error (s : Store) (nodekey : String) (e : Error)
    (h : GetByKey s nodekey = .error e) : e = .recordNotFound := by
  unfold GetByKey at h
  cases hf : s.nodes.find? (fun n => n.NodeKey == toLower nodekey) with
  | none => rw [hf] at h; exact (Except.error.inj h).symm
  | some x => rw [hf] at h; cases h

/-- UpdateMetadataByUUID stops at a lookup that fails. -/
theorem UpdateMetadataByUUID_missing (s : Store) (now : Nat) (uuid : String)
    (metadata : NodeMetadata) (hg : GetByUUID s uuid = .error .recordNotFound) :
    UpdateMetadataByUUID now uuid metadata s =
      (.error (.wrap "getNodeByUUID" .recordNotFound), s) := by
  unfold UpdateMetadataByUUID
  simp only [DB_bind_apply, DB.orWrap, DB.read, hg]

/-- C23: mutations on a missing node fail and do nothing. For every store: when no node
carries the upper-cased uuid, each of UpdateMetadataByUUID, UpdateIPAddressByUUID,
UpdateByUUID, Archive, ArchiveDeleteByUUID and RefreshLastEventByUUID returns the wrapped
not-found error of the lookup and leaves the whole store (nodes, archive, histories) as it
was; when no node carries the lower-cased key, UpdateIPAddressByKey and
RefreshLastEventByKey return the error of the lookup and leave the store as it was;
GetByUUID and GetByKey return an error exactly when no node carries the normalized uuid or
key. -/
theorem C23_missing_node_mutations_fail (s : Store) (now : Nat)
    (uuid nodekey ipaddress event trigger : String) (metadata : NodeMetadata)
    (data : OsqueryNode) (createErr : Option Error) :
    ((∀ n ∈ s.nodes, n.UUID ≠ toUpper uuid) →
      UpdateMetadataByUUID now uuid metadata s =
        (.error (.wrap "getNodeByUUID" .recordNotFound), s) ∧
      UpdateIPAddressByUUID now ipaddress uuid s =
        (.error (.wrap "getNodeByUUID" .recordNotFound), s) ∧
      UpdateByUUID now data uuid s = (.error (.wrap "getNodeByUUID" .recordNotFound), s) ∧
      Archive now createErr uuid trigger s =
        (.error (.wrap "getNodeByUUID" .recordNotFound), s) ∧
      ArchiveDeleteByUUID now createErr uuid s =
        (.error (.wrap "getNodeByUUID" .recordNotFound), s) ∧
      RefreshLastEventByUUID now uuid event s =
        (.error (.wrap "getNodeByUUID" .recordNotFound), s)) ∧
    ((∀ n ∈ s.nodes, n.NodeKey ≠ toLower nodekey) →
      UpdateIPAddressByKey now ipaddress nodekey s =
        (.error (.wrap "getNodeByKey" .recordNotFound), s) ∧
      RefreshLastEventByKey now nodekey event s = (.error .recordNotFound, s)) ∧
    ((∃ e, GetByUUID s uuid = .error e) ↔ ∀ n ∈ s.nodes, n.UUID ≠ toUpper uuid) ∧
    ((∃ e, GetByKey s nodekey = .error e) ↔ ∀ n ∈ s.nodes, n.NodeKey ≠ toLower nodekey) := by
  refine ⟨fun h => ?_, fun h => ?_, ?_, ?_⟩
  · have hg := (GetByUUID_error_iff s uuid).mpr h
    refine ⟨UpdateMetadataByUUID_missing s now uuid metadata hg, ?_, ?_, ?_, ?_, ?_⟩
    · unfold UpdateIPAddressByUUID
      simp only [DB_bind_apply, DB.orWrap, DB.read, hg]
    · unfold UpdateByUUID
      simp only [DB_bind_apply, DB.orWrap, DB.read, hg]
    · unfold Archive
      simp only [DB_bind_apply, DB.orWrap, DB.read, hg]
    · unfold ArchiveDeleteByUUID
      simp only [DB_bind_apply, DB.orWrap, DB.read, hg]
    · unfold RefreshLastEventByUUID
      simp only [DB_bind_apply, DB.orWrap, DB.read, hg]
  · have hg := (GetByKey_error_iff s nodekey).mpr h
    refine ⟨?_, ?_⟩
    · unfold UpdateIPAddressByKey
      simp only [DB_bind_apply, DB.orWrap, DB.read, hg]
    · unfold RefreshLastEventByKey
      simp only [DB_bind_apply, DB.orWrap, DB.read, hg]
  · rw [← GetByUUID_error_iff]
    exact ⟨fun ⟨e, he⟩ => by rw [he, GetByUUID_error s uuid e he], fun h => ⟨_, h⟩⟩
  · rw [← GetByKey_error_iff]
    exact ⟨fun ⟨e, he⟩ => by rw [he, GetByKey_error s nodekey e he], fun h => ⟨_, h⟩⟩

/-- Witness of C23: no node of the registry that holds N1 carries the uuid ZZ or the key zz;
UpdateByUUID and RefreshLastEventByKey fail and leave the registry as it was. -/
theorem C23_missing_node_mutations_fail_witness :
    UpdateByUUID 200 { Hostname := "host9" } "zz" sampleEnrolled =
      (.error (.wrap "getNodeByUUID" .recordNotFound), sampleEnrolled) ∧
    RefreshLastEventByKey 200 "ZZ" "last_status" sampleEnrolled =
      (.error .recordNotFound, sampleEnrolled) :=
  ⟨((C23_missing_node_mutations_fail sampleEnrolled 200 "zz" "ZZ" "" "last_status" ""
      {} { Hostname := "host9" } none).1 (by decide)).2.2.1,
    ((C23_missing_node_mutations_fail sampleEnrolled 200 "zz" "ZZ" "" "last_status" ""
      {} { Hostname := "host9" } none).2.1 (by decide)).2⟩

/-! ## Node registry: an update that fails -/

/-- Counterexample to C24 as stated: N1 is enrolled with hostname host1. The call of
UpdateMetadataByUUID with hostname host2 and no IP address returns the error of the
IP-address step, and the hostname history has gained the entry (N1, host2): the store is not
the one before the call. -/
theorem C24_failed_update_leaves_history_entry :
    sampleEnrolled.historyHostname =
      [{ ID := 1, CreatedAt := 100, UpdatedAt := 100, UUID := "N1", Hostname := "host1" }] ∧
    (UpdateMetadataByUUID 200 "N1" { Hostname := "host2" } sampleEnrolled).1 =
      .error (.wrap "incNodeHistoryIPAddress"
        (.wrap "getNodeHistoryIPAddress" .recordNotFound)) ∧
    (UpdateMetadataByUUID 200 "N1" { Hostname := "host2" } sampleEnrolled).2.historyHostname =
      [{ ID := 1, CreatedAt := 100, UpdatedAt := 100, UUID := "N1", Hostname := "host1" },
       { ID := 2, CreatedAt := 200, UpdatedAt := 200, UUID := "N1", Hostname := "host2" }] ∧
    (UpdateMetadataByUUID 200 "N1" { Hostname := "host2" } sampleEnrolled).2.nodes =
      sampleEnrolled.nodes := by
  refine ⟨by decide, by rfl, by decide, by decide⟩

/-- A sequence that returns an error: its first part did, or its first part returned a value
and the rest returned the error. -/
theorem DB_bind_error_cases {α β : Type} (m : DB α) (g : α → DB β) (s : Store) (e : Error)
    (t : Store) (h : (m >>= g) s = (.error e, t)) :
    m s = (.error e, t) ∨ ∃ a t1, m s = (.ok a, t1) ∧ g a t1 = (.error e, t) := by
  rw [DB_bind_apply] at h
  cases hm : m s with
  | mk res t1 =>
    cases res with
    | error e1 =>
      rw [hm] at h
      simp only [Prod.mk.injEq, Except.error.injEq] at h
      obtain ⟨rfl, rfl⟩ := h
      exact Or.inl rfl
    | ok a =>
      rw [hm] at h
      exact Or.inr ⟨a, t1, rfl, h⟩

/-- A step under a condition that returns a value: the statement ran, or the condition did
not hold and the store is as before. -/
theorem cond_step_ok (c : Prop) [Decidable c] (m : DB Unit) (d d1 a : OsqueryNode)
    (t t1 : Store)
    (h : (if c then (do m; pure d1) else pure d : DB OsqueryNode) t = (.ok a, t1)) :
    (c ∧ m t = (.ok (), t1)) ∨ (¬ c ∧ t1 = t) := by
  by_cases hc : c
  · rw [if_pos hc, DB_bind_apply] at h
    cases hm : m t with
    | mk res t2 =>
      cases res with
      | error e1 => rw [hm] at h; cases h
      | ok u =>
        rw [hm] at h
        simp only [DB_pure_apply, Prod.mk.injEq] at h
        exact Or.inl ⟨hc, by rw [h.2]⟩
  · rw [if_neg hc, DB_pure_apply] at h
    exact Or.inr ⟨hc, (Prod.mk.inj h).2.symm⟩

/-- A step under a condition that returns an error: the condition held and the statement
returned the error. -/
theorem cond_step_error (c : Prop) [Decidable c] (m : DB Unit) (d d1 : OsqueryNode)
    (t t1 : Store) (e : Error)
    (h : (if c then (do m; pure d1) else pure d : DB OsqueryNode) t = (.error e, t1)) :
    c ∧ m t = (.error e, t1) := by
  by_cases hc : c
  · rw [if_pos hc, DB_bind_apply] at h
    cases hm : m t with
    | mk res t2 =>
      cases res with
      | error e1 =>
        rw [hm] at h
        simp only [Prod.mk.injEq, Except.error.injEq] at h
        obtain ⟨rfl, rfl⟩ := h
        exact ⟨hc, rfl⟩
      | ok u =>
        rw [hm] at h
        simp only [DB_pure_apply, Prod.mk.injEq] at h
        cases h.1
  · rw [if_neg hc, DB_pure_apply] at h
    cases (Prod.mk.inj h).1

/-- A step with a statement on either side of the condition, that returns a value. -/
theorem cond2_step_ok (c : Prop) [Decidable c] (m1 m2 : DB Unit) (d1 d2 a : OsqueryNode)
    (t t1 : Store)
    (h : (if c then (do m1; pure d1) else (do m2; pure d2) : DB OsqueryNode) t = (.ok a, t1)) :
    (c ∧ m1 t = (.ok (), t1)) ∨ (¬ c ∧ m2 t = (.ok (), t1)) := by
  by_cases hc : c
  · rw [if_pos hc, DB_bind_apply] at h
    cases hm : m1 t with
    | mk res t2 =>
      cases res with
      | error e1 => rw [hm] at h; cases h
      | ok u =>
        rw [hm] at h
        simp only [DB_pure_apply, Prod.mk.injEq] at h
        exact Or.inl ⟨hc, by rw [h.2]⟩
  · rw [if_neg hc, DB_bind_apply] at h
    cases hm : m2 t with
    | mk res t2 =>
      cases res with
      | error e1 => rw [hm] at h; cases h
      | ok u =>
        rw [hm] at h
        simp only [DB_pure_apply, Prod.mk.injEq] at h
        exact Or.inr ⟨hc, by rw [h.2]⟩

/-- A step with a statement on either side of the condition, that returns an error. -/
theorem cond2_step_error (c : Prop) [Decidable c] (m1 m2 : DB Unit) (d1 d2 : OsqueryNode)
    (t t1 : Store) (e : Error)
    (h : (if c then (do m1; pure d1) else (do m2; pure d2) : DB OsqueryNode) t =
      (.error e, t1)) :
    (c ∧ m1 t = (.error e, t1)) ∨ (¬ c ∧ m2 t = (.error e, t1)) := by
  by_cases hc : c
  · rw [if_pos hc, DB_bind_apply] at h
    cases hm : m1 t with
    | mk res t2 =>
      cases res with
      | error e1 =>
        rw [hm] at h
        simp only [Prod.mk.injEq, Except.error.injEq] at h
        obtain ⟨rfl, rfl⟩ := h
        exact Or.inl ⟨hc, rfl⟩
      | ok u =>
        rw [hm] at h
        simp only [DB_pure_apply, Prod.mk.injEq] at h
        cases h.1
  · rw [if_neg hc, DB_bind_apply] at h
    cases hm : m2 t with
    | mk res t2 =>
      cases res with
      | error e1 =>
        rw [hm] at h
        simp only [Prod.mk.injEq, Except.error.injEq] at h
        obtain ⟨rfl, rfl⟩ := h
        exact Or.inr ⟨hc, rfl⟩
      | ok u =>
        rw [hm] at h
        simp only [DB_pure_apply, Prod.mk.injEq] at h
        cases h.1

/-- A step that only fills the struct returns a value and leaves the store. -/
theorem pure_step (c : Prop) [Decidable c] (d d1 : OsqueryNode) (t : Store) :
    (if c then pure d1 else pure d : DB OsqueryNode) t = (.ok (if c then d1 else d), t) := by
  split <;> rfl

/-- The lookup of the node of Unreliable.UpdateMetadataByUUID. -/
theorem Unreliable_lookup_run (refused : Option Error) (uuid : String) (t : Store) :
    DB.orWrap "getNodeByUUID" (DB.attempt refused (DB.read (fun s => GetByUUID s uuid))) t =
      match refused with
      | some err => (.error (.wrap "getNodeByUUID" err), t)
      | none =>
        match GetByUUID t uuid with
        | .ok node => (.ok node, t)
        | .error err => (.error (.wrap "getNodeByUUID" err), t) := by
  cases refused with
  | some err => rfl
  | none =>
    simp only [DB.orWrap, DB.attempt, DB.read]
    cases GetByUUID t uuid <;> rfl

/-- The insert of a username-history entry, refused or not. -/
theorem Unreliable_NewHistoryUsername_run (refused : Option Error) (now : Nat)
    (uuid value : String) (t : Store) :
    DB.orWrap "newNodeHistoryUsername"
        (Unreliable.NewHistoryUsername refused now { UUID := uuid, Username := value }) t =
      match refused with
      | some err =>
        (.error (.wrap "newNodeHistoryUsername" (.wrap "Create newNodeHistoryUsername" err)), t)
      | none => (.ok (), { t with
          historyUsername := t.historyUsername ++
            [{ ID := t.usernameSeq + 1, CreatedAt := now, UpdatedAt := now, UUID := uuid,
                Username := value }]
          usernameSeq := t.usernameSeq + 1 }) := by
  cases refused <;> rfl

/-- The insert of a hostname-history entry, refused or not. -/
theorem Unreliable_NewHistoryHostname_run (refused : Option Error) (now : Nat)
    (uuid value : String) (t : Store) :
    DB.orWrap "newNodeHistoryHostname"
        (Unreliable.NewHistoryHostname refused now { UUID := uuid, Hostname := value }) t =
      match refused with
      | some err =>
        (.error (.wrap "newNodeHistoryHostname" (.wrap "Create newNodeHistoryHostname" err)), t)
      | none => (.ok (), { t with
          historyHostname := t.historyHostname ++
            [{ ID := t.hostnameSeq + 1, CreatedAt := now, UpdatedAt := now, UUID := uuid,
                Hostname := value }]
          hostnameSeq := t.hostnameSeq + 1 }) := by
  cases refused <;> rfl

/-- The insert of a localname-history entry, refused or not. -/
theorem Unreliable_NewHistoryLocalname_run (refused : Option Error) (now : Nat)
    (uuid value : String) (t : Store) :
    DB.orWrap "newNodeHistoryLocalname"
        (Unreliable.NewHistoryLocalname refused now { UUID := uuid, Localname := value }) t =
      match refused with
      | some err =>
        (.error (.wrap "newNodeHistoryLocalname" (.wrap "Create newNodeHistoryLocalname" err)),
          t)
      | none => (.ok (), { t with
          historyLocalname := t.historyLocalname ++
            [{ ID := t.localnameSeq + 1, CreatedAt := now, UpdatedAt := now, UUID := uuid,
                Localname := value }]
          localnameSeq := t.localnameSeq + 1 }) := by
  cases refused <;> rfl

/-- The insert of an IP-address-history entry, refused or not. -/
theorem Unreliable_NewHistoryIPAddress_run (refused : Option Error) (now : Nat)
    (uuid value : String) (t : Store) :
    DB.orWrap "newNodeHistoryIPAddress"
        (Unreliable.NewHistoryIPAddress refused now
          { UUID := uuid, IPAddress := value, Count := 1 }) t =
      match refused with
      | some err => (.error (.wrap "newNodeHistoryIPAddress" err), t)
      | none => (.ok (), { t with
          historyIPAddress := t.historyIPAddress ++
            [{ ID := t.ipAddressSeq + 1, CreatedAt := now, UpdatedAt := now, UUID := uuid,
                IPAddress := value, Count := 1 }]
          ipAddressSeq := t.ipAddressSeq + 1 }) := by
  cases refused <;> rfl

/-- The increment of the count of an IP-address-history entry, refused or not. -/
theorem Unreliable_IncHistoryIPAddress_run (refusedGet refusedUpdate : Option Error)
    (now : Nat) (uuid value : String) (t : Store) :
    DB.orWrap "incNodeHistoryIPAddress"
        (Unreliable.IncHistoryIPAddress refusedGet refusedUpdate now uuid value) t =
      match refusedGet with
      | some err =>
        (.error (.wrap "incNodeHistoryIPAddress" (.wrap "getNodeHistoryIPAddress" err)), t)
      | none =>
        match GetHistoryIPAddress t uuid value with
        | .error err =>
          (.error (.wrap "incNodeHistoryIPAddress" (.wrap "getNodeHistoryIPAddress" err)), t)
        | .ok nodeip =>
          match refusedUpdate with
          | some err => (.error (.wrap "incNodeHistoryIPAddress" (.wrap "Update" err)), t)
          | none => (.ok (), { t with historyIPAddress := t.historyIPAddress.map (fun r =>
              if nodeip.ID = 0 ∨ r.ID = nodeip.ID then
                { r with Count := goInt (nodeip.Count + 1), UpdatedAt := now }
              else r) }) := by
  unfold Unreliable.IncHistoryIPAddress
  cases refusedGet with
  | some err => rfl
  | none =>
    simp only [DB.orWrap, DB_bind_apply, DB.attempt, DB.read]
    cases GetHistoryIPAddress t uuid value with
    | error err => rfl
    | ok nodeip => cases refusedUpdate <;> rfl

/-- The history entry that GetHistoryIPAddress reads depends on the IP-address history
only. -/
theorem GetHistoryIPAddress_congr (t s : Store) (uuid value : String)
    (h : t.historyIPAddress = s.historyIPAddress) :
    GetHistoryIPAddress t uuid value = GetHistoryIPAddress s uuid value := by
  unfold GetHistoryIPAddress
  rw [h]

/-- When no statement is refused, Unreliable.UpdateMetadataByUUID is UpdateMetadataByUUID. -/
theorem UpdateMetadataByUUID_reliable (now : Nat) (uuid : String) (metadata : NodeMetadata)
    (s : Store) :
    Unreliable.UpdateMetadataByUUID {} now uuid metadata s =
      UpdateMetadataByUUID now uuid metadata s := by
  have h1 : ∀ e, Unreliable.NewHistoryUsername none now e = NewHistoryUsername now e := by
    intro e; funext t
    unfold Unreliable.NewHistoryUsername NewHistoryUsername
    split <;> rfl
  have h2 : ∀ e, Unreliable.NewHistoryHostname none now e = NewHistoryHostname now e := by
    intro e; funext t
    unfold Unreliable.NewHistoryHostname NewHistoryHostname
    split <;> rfl
  have h3 : ∀ e, Unreliable.NewHistoryLocalname none now e = NewHistoryLocalname now e := by
    intro e; funext t
    unfold Unreliable.NewHistoryLocalname NewHistoryLocalname
    split <;> rfl
  have h4 : ∀ e, Unreliable.NewHistoryIPAddress none now e = NewHistoryIPAddress now e := by
    intro e; funext t
    unfold Unreliable.NewHistoryIPAddress NewHistoryIPAddress
    split <;> rfl
  have h5 : ∀ u v, Unreliable.IncHistoryIPAddress none none now u v =
      IncHistoryIPAddress now u v := by
    intro u v; funext t
    unfold Unreliable.IncHistoryIPAddress IncHistoryIPAddress
    simp only [DB_bind_apply, DB.orWrap, DB.attempt, DB.read, DB.write]
  have h6 : ∀ {α : Type} (m : DB α), DB.attempt none m = m := fun m => rfl
  unfold Unreliable.UpdateMetadataByUUID UpdateMetadataByUUID
  simp only [h1, h2, h3, h4, h5, h6]

/-- C24, amended: what a failed update leaves, whichever statements the database refuses.
When UpdateMetadataByUUID returns an error, no node row has changed and the archive is as
before. Either the error is that of the lookup of the node and the whole store is as before;
or the node was found, each of the username, hostname and localname histories is as before
or holds one new entry for the observed value, which is then non-empty and differs from the
stored one, and the IP-address history is as before unless the error is that of the final
Updates, in which case it holds the new entry of a changed address or the count raised by
the increment. When no statement is refused the IP-address history is as before and the
error is that of a lookup: the node is not found, or no history entry exists for the
address. -/
theorem C24_failed_update_effects (r : Refusals) (s : Store) (now : Nat) (uuid : String)
    (metadata : NodeMetadata) (e : Error)
    (herr : (Unreliable.UpdateMetadataByUUID r now uuid metadata s).1 = .error e) :
    (Unreliable.UpdateMetadataByUUID r now uuid metadata s).2.nodes = s.nodes ∧
    (Unreliable.UpdateMetadataByUUID r now uuid metadata s).2.archive = s.archive ∧
    (((∃ err, e = .wrap "getNodeByUUID" err) ∧ (Unreliable.UpdateMetadataByUUID r now uuid metadata s).2 = s) ∨
      ∃ node, GetByUUID s uuid = .ok node ∧
        ((Unreliable.UpdateMetadataByUUID r now uuid metadata s).2.historyUsername = s.historyUsername ∨
          (metadata.Username ≠ "" ∧ metadata.Username ≠ node.Username) ∧
            (Unreliable.UpdateMetadataByUUID r now uuid metadata s).2.historyUsername = s.historyUsername ++
              [{ ID := s.usernameSeq + 1, CreatedAt := now, UpdatedAt := now, UUID := node.UUID,
                  Username := metadata.Username }]) ∧
        ((Unreliable.UpdateMetadataByUUID r now uuid metadata s).2.historyHostname = s.historyHostname ∨
          (metadata.Hostname ≠ "" ∧ metadata.Hostname ≠ node.Hostname) ∧
            (Unreliable.UpdateMetadataByUUID r now uuid metadata s).2.historyHostname = s.historyHostname ++
              [{ ID := s.hostnameSeq + 1, CreatedAt := now, UpdatedAt := now, UUID := node.UUID,
                  Hostname := metadata.Hostname }]) ∧
        ((Unreliable.UpdateMetadataByUUID r now uuid metadata s).2.historyLocalname = s.historyLocalname ∨
          (metadata.Localname ≠ "" ∧ metadata.Localname ≠ node.Localname) ∧
            (Unreliable.UpdateMetadataByUUID r now uuid metadata s).2.historyLocalname = s.historyLocalname ++
              [{ ID := s.localnameSeq + 1, CreatedAt := now, UpdatedAt := now, UUID := node.UUID,
                  Localname := metadata.Localname }]) ∧
        ((Unreliable.UpdateMetadataByUUID r now uuid metadata s).2.historyIPAddress = s.historyIPAddress ∨
          (∃ err, e = .wrap "Updates" err) ∧
          ((metadata.IPAddress ≠ "" ∧ metadata.IPAddress ≠ node.IPAddress) ∧
            (Unreliable.UpdateMetadataByUUID r now uuid metadata s).2.historyIPAddress = s.historyIPAddress ++
              [{ ID := s.ipAddressSeq + 1, CreatedAt := now, UpdatedAt := now, UUID := node.UUID,
                  IPAddress := metadata.IPAddress, Count := 1 }] ∨
          ¬ (metadata.IPAddress ≠ "" ∧ metadata.IPAddress ≠ node.IPAddress) ∧
            ∃ e0, GetHistoryIPAddress s node.UUID metadata.IPAddress = .ok e0 ∧
              (Unreliable.UpdateMetadataByUUID r now uuid metadata s).2.historyIPAddress = s.historyIPAddress.map (fun r =>
                if e0.ID = 0 ∨ r.ID = e0.ID then
                  { r with Count := goInt (e0.Count + 1), UpdatedAt := now }
                else r)))) ∧
    (r = {} →
      (Unreliable.UpdateMetadataByUUID r now uuid metadata s).2.historyIPAddress = s.historyIPAddress ∧
      (e = .wrap "getNodeByUUID" .recordNotFound ∨
        e = .wrap "incNodeHistoryIPAddress"
          (.wrap "getNodeHistoryIPAddress" .recordNotFound))) := by
  generalize hout : Unreliable.UpdateMetadataByUUID r now uuid metadata s = out at herr ⊢
  obtain ⟨res, t⟩ := out
  simp only at herr
  subst herr
  show t.nodes = s.nodes ∧
    t.archive = s.archive ∧
    (((∃ err, e = .wrap "getNodeByUUID" err) ∧ t = s) ∨
      ∃ node, GetByUUID s uuid = .ok node ∧
        (t.historyUsername = s.historyUsername ∨
          (metadata.Username ≠ "" ∧ metadata.Username ≠ node.Username) ∧
            t.historyUsername = s.historyUsername ++
              [{ ID := s.usernameSeq + 1, CreatedAt := now, UpdatedAt := now, UUID := node.UUID,
                  Username := metadata.Username }]) ∧
        (t.historyHostname = s.historyHostname ∨
          (metadata.Hostname ≠ "" ∧ metadata.Hostname ≠ node.Hostname) ∧
            t.historyHostname = s.historyHostname ++
              [{ ID := s.hostnameSeq + 1, CreatedAt := now, UpdatedAt := now, UUID := node.UUID,
                  Hostname := metadata.Hostname }]) ∧
        (t.historyLocalname = s.historyLocalname ∨
          (metadata.Localname ≠ "" ∧ metadata.Localname ≠ node.Localname) ∧
            t.historyLocalname = s.historyLocalname ++
              [{ ID := s.localnameSeq + 1, CreatedAt := now, UpdatedAt := now, UUID := node.UUID,
                  Localname := metadata.Localname }]) ∧
        (t.historyIPAddress = s.historyIPAddress ∨
          (∃ err, e = .wrap "Updates" err) ∧
          ((metadata.IPAddress ≠ "" ∧ metadata.IPAddress ≠ node.IPAddress) ∧
            t.historyIPAddress = s.historyIPAddress ++
              [{ ID := s.ipAddressSeq + 1, CreatedAt := now, UpdatedAt := now, UUID := node.UUID,
                  IPAddress := metadata.IPAddress, Count := 1 }] ∨
          ¬ (metadata.IPAddress ≠ "" ∧ metadata.IPAddress ≠ node.IPAddress) ∧
            ∃ e0, GetHistoryIPAddress s node.UUID metadata.IPAddress = .ok e0 ∧
              t.historyIPAddress = s.historyIPAddress.map (fun r =>
                if e0.ID = 0 ∨ r.ID = e0.ID then
                  { r with Count := goInt (e0.Count + 1), UpdatedAt := now }
                else r)))) ∧
    (r = {} →
      t.historyIPAddress = s.historyIPAddress ∧
      (e = .wrap "getNodeByUUID" .recordNotFound ∨
        e = .wrap "incNodeHistoryIPAddress"
          (.wrap "getNodeHistoryIPAddress" .recordNotFound)))
  unfold Unreliable.UpdateMetadataByUUID at hout
  rcases DB_bind_error_cases _ _ _ _ _ hout with h0 | ⟨node, t0, h0, h1⟩
  · rw [Unreliable_lookup_run] at h0
    cases hr : r.getNode with
    | some err =>
      rw [hr] at h0
      simp only [Prod.mk.injEq, Except.error.injEq] at h0
      obtain ⟨rfl, rfl⟩ := h0
      exact ⟨rfl, rfl, Or.inl ⟨⟨_, rfl⟩, rfl⟩, fun hr0 => by
        subst hr0
        exact absurd hr (by simp)⟩
    | none =>
      rw [hr] at h0
      cases hg : GetByUUID s uuid with
      | ok n => rw [hg] at h0; simp at h0
      | error e0 =>
        rw [hg] at h0
        simp only [Prod.mk.injEq, Except.error.injEq] at h0
        obtain ⟨rfl, rfl⟩ := h0
        have he0 := GetByUUID_error s uuid e0 hg
        subst he0
        exact ⟨rfl, rfl, Or.inl ⟨⟨_, rfl⟩, rfl⟩, fun _ => ⟨rfl, Or.inl rfl⟩⟩
  rw [Unreliable_lookup_run] at h0
  have hnode : GetByUUID s uuid = .ok node ∧ s = t0 := by
    cases hr : r.getNode with
    | some err => rw [hr] at h0; simp at h0
    | none =>
      rw [hr] at h0
      cases hg : GetByUUID s uuid with
      | error e0 => rw [hg] at h0; simp at h0
      | ok n =>
        rw [hg] at h0
        simp only [Prod.mk.injEq, Except.ok.injEq] at h0
        exact ⟨by rw [h0.1], h0.2⟩
  obtain ⟨hnode, rfl⟩ := hnode
  clear h0 hout
  try dsimp only at h1
  -- the username step
  rcases DB_bind_error_cases _ _ _ _ _ h1 with hU | ⟨d1, t1, hU, h2⟩
  · obtain ⟨hc, hm⟩ := cond_step_error _ _ _ _ _ _ _ hU
    rw [Unreliable_NewHistoryUsername_run] at hm
    cases hr : r.createUsername with
    | none => rw [hr] at hm; simp at hm
    | some err =>
      rw [hr] at hm
      simp only [Prod.mk.injEq, Except.error.injEq] at hm
      obtain ⟨rfl, rfl⟩ := hm
      exact ⟨rfl, rfl, Or.inr ⟨node, hnode, Or.inl rfl, Or.inl rfl, Or.inl rfl, Or.inl rfl⟩,
        fun hr0 => by
        subst hr0
        exact absurd hr (by simp)⟩
  have F1 : t1.nodes = s.nodes ∧
        t1.archive = s.archive ∧
        t1.historyIPAddress = s.historyIPAddress ∧
        t1.ipAddressSeq = s.ipAddressSeq ∧
        t1.historyHostname = s.historyHostname ∧
        t1.hostnameSeq = s.hostnameSeq ∧
        t1.historyLocalname = s.historyLocalname ∧
        t1.localnameSeq = s.localnameSeq ∧
        (t1.historyUsername = s.historyUsername ∨
          (metadata.Username ≠ "" ∧ metadata.Username ≠ node.Username) ∧
            t1.historyUsername = s.historyUsername ++
              [{ ID := s.usernameSeq + 1, CreatedAt := now, UpdatedAt := now, UUID := node.UUID,
                  Username := metadata.Username }]) := by
    rcases cond_step_ok _ _ _ _ _ _ _ hU with ⟨hc, hm⟩ | ⟨hc, rfl⟩
    · rw [Unreliable_NewHistoryUsername_run] at hm
      cases hr : r.createUsername with
      | some err => rw [hr] at hm; simp at hm
      | none =>
        rw [hr] at hm
        simp only [Prod.mk.injEq, true_and] at hm
        subst hm
        exact ⟨rfl, rfl, rfl, rfl, rfl, rfl, rfl, rfl, Or.inr ⟨hc, rfl⟩⟩
    · exact ⟨rfl, rfl, rfl, rfl, rfl, rfl, rfl, rfl, Or.inl rfl⟩
  clear hU h1
  obtain ⟨hN1, hA1, hI1, hIS1, hH1, hHS1, hL1, hLS1, hPU1⟩ := F1
  try dsimp only at h2
  -- the osquery user step
  rcases DB_bind_error_cases _ _ _ _ _ h2 with hO | ⟨d2, t2, hO, h3⟩
  · rw [pure_step] at hO
    simp at hO
  rw [pure_step] at hO
  have ht2 : t2 = t1 := (Prod.mk.inj hO).2.symm
  subst ht2
  clear hO h2
  try dsimp only at h3
  -- the hostname step
  rcases DB_bind_error_cases _ _ _ _ _ h3 with hH | ⟨d3, t3, hH, h4⟩
  · obtain ⟨hc, hm⟩ := cond_step_error _ _ _ _ _ _ _ hH
    rw [Unreliable_NewHistoryHostname_run] at hm
    cases hr : r.createHostname with
    | none => rw [hr] at hm; simp at hm
    | some err =>
      rw [hr] at hm
      simp only [Prod.mk.injEq, Except.error.injEq] at hm
      obtain ⟨rfl, rfl⟩ := hm
      exact ⟨hN1, hA1, Or.inr ⟨node, hnode, hPU1, Or.inl hH1, Or.inl hL1, Or.inl hI1⟩,
        fun hr0 => by
        subst hr0
        exact absurd hr (by simp)⟩
  have F3 : t3.nodes = s.nodes ∧
        t3.archive = s.archive ∧
        t3.historyIPAddress = s.historyIPAddress ∧
        t3.ipAddressSeq = s.ipAddressSeq ∧
        t3.historyLocalname = s.historyLocalname ∧
        t3.localnameSeq = s.localnameSeq ∧
        (t3.historyUsername = s.historyUsername ∨
          (metadata.Username ≠ "" ∧ metadata.Username ≠ node.Username) ∧
            t3.historyUsername = s.historyUsername ++
              [{ ID := s.usernameSeq + 1, CreatedAt := now, UpdatedAt := now, UUID := node.UUID,
                  Username := metadata.Username }]) ∧
        (t3.historyHostname = s.historyHostname ∨
          (metadata.Hostname ≠ "" ∧ metadata.Hostname ≠ node.Hostname) ∧
            t3.historyHostname = s.historyHostname ++
              [{ ID := s.hostnameSeq + 1, CreatedAt := now, UpdatedAt := now, UUID := node.UUID,
                  Hostname := metadata.Hostname }]) := by
    rcases cond_step_ok _ _ _ _ _ _ _ hH with ⟨hc, hm⟩ | ⟨hc, rfl⟩
    · rw [Unreliable_NewHistoryHostname_run] at hm
      cases hr : r.createHostname with
      | some err => rw [hr] at hm; simp at hm
      | none =>
        rw [hr] at hm
        simp only [Prod.mk.injEq, true_and] at hm
        subst hm
        refine ⟨hN1, hA1, hI1, hIS1, hL1, hLS1, hPU1, Or.inr ⟨hc, ?_⟩⟩
        simp only [hH1, hHS1]
    · exact ⟨hN1, hA1, hI1, hIS1, hL1, hLS1, hPU1, Or.inl hH1⟩
  clear hH h3 hN1 hA1 hI1 hIS1 hH1 hHS1 hL1 hLS1 hPU1
  obtain ⟨hN3, hA3, hI3, hIS3, hL3, hLS3, hPU3, hPH3⟩ := F3
  try dsimp only at h4
  -- the localname step
  rcases DB_bind_error_cases _ _ _ _ _ h4 with hL | ⟨d4, t4, hL, h5⟩
  · obtain ⟨hc, hm⟩ := cond_step_error _ _ _ _ _ _ _ hL
    rw [Unreliable_NewHistoryLocalname_run] at hm
    cases hr : r.createLocalname with
    | none => rw [hr] at hm; simp at hm
    | some err =>
      rw [hr] at hm
      simp only [Prod.mk.injEq, Except.error.injEq] at hm
      obtain ⟨rfl, rfl⟩ := hm
      exact ⟨hN3, hA3, Or.inr ⟨node, hnode, hPU3, hPH3, Or.inl hL3, Or.inl hI3⟩,
        fun hr0 => by
        subst hr0
        exact absurd hr (by simp)⟩
  have F4 : t4.nodes = s.nodes ∧
        t4.archive = s.archive ∧
        t4.historyIPAddress = s.historyIPAddress ∧
        t4.ipAddressSeq = s.ipAddressSeq ∧
        (t4.historyUsername = s.historyUsername ∨
          (metadata.Username ≠ "" ∧ metadata.Username ≠ node.Username) ∧
            t4.historyUsername = s.historyUsername ++
              [{ ID := s.usernameSeq + 1, CreatedAt := now, UpdatedAt := now, UUID := node.UUID,
                  Username := metadata.Username }]) ∧
        (t4.historyHostname = s.historyHostname ∨
          (metadata.Hostname ≠ "" ∧ metadata.Hostname ≠ node.Hostname) ∧
            t4.historyHostname = s.historyHostname ++
              [{ ID := s.hostnameSeq + 1, CreatedAt := now, UpdatedAt := now, UUID := node.UUID,
                  Hostname := metadata.Hostname }]) ∧
        (t4.historyLocalname = s.historyLocalname ∨
          (metadata.Localname ≠ "" ∧ metadata.Localname ≠ node.Localname) ∧
            t4.historyLocalname = s.historyLocalname ++
              [{ ID := s.localnameSeq + 1, CreatedAt := now, UpdatedAt := now, UUID := node.UUID,
                  Localname := metadata.Localname }]) := by
    rcases cond_step_ok _ _ _ _ _ _ _ hL with ⟨hc, hm⟩ | ⟨hc, rfl⟩
    · rw [Unreliable_NewHistoryLocalname_run] at hm
      cases hr : r.createLocalname with
      | some err => rw [hr] at hm; simp at hm
      | none =>
        rw [hr] at hm
        simp only [Prod.mk.injEq, true_and] at hm
        subst hm
        refine ⟨hN3, hA3, hI3, hIS3, hPU3, hPH3, Or.inr ⟨hc, ?_⟩⟩
        simp only [hL3, hLS3]
    · exact ⟨hN3, hA3, hI3, hIS3, hPU3, hPH3, Or.inl hL3⟩
  clear hL h4 hN3 hA3 hI3 hIS3 hL3 hLS3 hPU3 hPH3
  obtain ⟨hN4, hA4, hI4, hIS4, hPU4, hPH4, hPL4⟩ := F4
  try dsimp only at h5
  -- the IP address step
  rcases DB_bind_error_cases _ _ _ _ _ h5 with hI | ⟨d5, t5, hI, h6⟩
  · rcases cond2_step_error _ _ _ _ _ _ _ _ hI with ⟨hc, hm⟩ | ⟨hc, hm⟩
    · rw [Unreliable_NewHistoryIPAddress_run] at hm
      cases hr : r.createIPAddress with
      | none => rw [hr] at hm; simp at hm
      | some err =>
        rw [hr] at hm
        simp only [Prod.mk.injEq, Except.error.injEq] at hm
        obtain ⟨rfl, rfl⟩ := hm
        exact ⟨hN4, hA4, Or.inr ⟨node, hnode, hPU4, hPH4, hPL4, Or.inl hI4⟩,
          fun hr0 => by
        subst hr0
        exact absurd hr (by simp)⟩
    · rw [Unreliable_IncHistoryIPAddress_run] at hm
      cases hr : r.getHistoryIPAddress with
      | some err =>
        rw [hr] at hm
        simp only [Prod.mk.injEq, Except.error.injEq] at hm
        obtain ⟨rfl, rfl⟩ := hm
        exact ⟨hN4, hA4, Or.inr ⟨node, hnode, hPU4, hPH4, hPL4, Or.inl hI4⟩,
          fun hr0 => by
        subst hr0
        exact absurd hr (by simp)⟩
      | none =>
        rw [hr] at hm
        cases hg : GetHistoryIPAddress t4 node.UUID metadata.IPAddress with
        | error err =>
          rw [hg] at hm
          simp only [Prod.mk.injEq, Except.error.injEq] at hm
          obtain ⟨rfl, rfl⟩ := hm
          have he := GetHistoryIPAddress_error _ _ _ _ hg
          subst he
          exact ⟨hN4, hA4, Or.inr ⟨node, hnode, hPU4, hPH4, hPL4, Or.inl hI4⟩,
            fun _ => ⟨hI4, Or.inr rfl⟩⟩
        | ok e0 =>
          rw [hg] at hm
          cases hr2 : r.updateCount with
          | none => rw [hr2] at hm; simp at hm
          | some err =>
            rw [hr2] at hm
            simp only [Prod.mk.injEq, Except.error.injEq] at hm
            obtain ⟨rfl, rfl⟩ := hm
            exact ⟨hN4, hA4, Or.inr ⟨node, hnode, hPU4, hPH4, hPL4, Or.inl hI4⟩,
              fun hr0 => by
                subst hr0
                exact absurd hr2 (by simp)⟩
  have F5 : t5.nodes = s.nodes ∧
        t5.archive = s.archive ∧
        (t5.historyUsername = s.historyUsername ∨
          (metadata.Username ≠ "" ∧ metadata.Username ≠ node.Username) ∧
            t5.historyUsername = s.historyUsername ++
              [{ ID := s.usernameSeq + 1, CreatedAt := now, UpdatedAt := now, UUID := node.UUID,
                  Username := metadata.Username }]) ∧
        (t5.historyHostname = s.historyHostname ∨
          (metadata.Hostname ≠ "" ∧ metadata.Hostname ≠ node.Hostname) ∧
            t5.historyHostname = s.historyHostname ++
              [{ ID := s.hostnameSeq + 1, CreatedAt := now, UpdatedAt := now, UUID := node.UUID,
                  Hostname := metadata.Hostname }]) ∧
        (t5.historyLocalname = s.historyLocalname ∨
          (metadata.Localname ≠ "" ∧ metadata.Localname ≠ node.Localname) ∧
            t5.historyLocalname = s.historyLocalname ++
              [{ ID := s.localnameSeq + 1, CreatedAt := now, UpdatedAt := now, UUID := node.UUID,
                  Localname := metadata.Localname }]) ∧
        ((metadata.IPAddress ≠ "" ∧ metadata.IPAddress ≠ node.IPAddress) ∧
            t5.historyIPAddress = s.historyIPAddress ++
              [{ ID := s.ipAddressSeq + 1, CreatedAt := now, UpdatedAt := now, UUID := node.UUID,
                  IPAddress := metadata.IPAddress, Count := 1 }] ∨
          ¬ (metadata.IPAddress ≠ "" ∧ metadata.IPAddress ≠ node.IPAddress) ∧
            ∃ e0, GetHistoryIPAddress s node.UUID metadata.IPAddress = .ok e0 ∧
              t5.historyIPAddress = s.historyIPAddress.map (fun r =>
                if e0.ID = 0 ∨ r.ID = e0.ID then
                  { r with Count := goInt (e0.Count + 1), UpdatedAt := now }
                else r)) := by
    rcases cond2_step_ok _ _ _ _ _ _ _ _ hI with ⟨hc, hm⟩ | ⟨hc, hm⟩
    · rw [Unreliable_NewHistoryIPAddress_run] at hm
      cases hr : r.createIPAddress with
      | some err => rw [hr] at hm; simp at hm
      | none =>
        rw [hr] at hm
        simp only [Prod.mk.injEq, true_and] at hm
        subst hm
        refine ⟨hN4, hA4, hPU4, hPH4, hPL4, Or.inl ⟨hc, ?_⟩⟩
        simp only [hI4, hIS4]
    · rw [Unreliable_IncHistoryIPAddress_run] at hm
      cases hr : r.getHistoryIPAddress with
      | some err => rw [hr] at hm; simp at hm
      | none =>
        rw [hr] at hm
        cases hg : GetHistoryIPAddress t4 node.UUID metadata.IPAddress with
        | error err => rw [hg] at hm; simp at hm
        | ok e0 =>
          rw [hg] at hm
          cases hr2 : r.updateCount with
          | some err => rw [hr2] at hm; simp at hm
          | none =>
            rw [hr2] at hm
            simp only [Prod.mk.injEq, true_and] at hm
            subst hm
            refine ⟨hN4, hA4, hPU4, hPH4, hPL4, Or.inr ⟨hc, e0, ?_, ?_⟩⟩
            · rw [← GetHistoryIPAddress_congr t4 s _ _ hI4]
              exact hg
            · simp only [hI4]
  clear hI h5 hN4 hA4 hI4 hIS4 hPU4 hPH4 hPL4
  obtain ⟨hN5, hA5, hPU5, hPH5, hPL5, hPI5⟩ := F5
  try dsimp only at h6
  -- the three steps that only fill the struct
  rcases DB_bind_error_cases _ _ _ _ _ h6 with hC | ⟨d6, t6, hC, h7⟩
  · rw [pure_step] at hC
    simp at hC
  rw [pure_step] at hC
  have ht6 : t6 = t5 := (Prod.mk.inj hC).2.symm
  subst ht6
  clear hC h6
  try dsimp only at h7
  rcases DB_bind_error_cases _ _ _ _ _ h7 with hD | ⟨d7, t7, hD, h8⟩
  · rw [pure_step] at hD
    simp at hD
  rw [pure_step] at hD
  have ht7 : t7 = t6 := (Prod.mk.inj hD).2.symm
  subst ht7
  clear hD h7
  try dsimp only at h8
  rcases DB_bind_error_cases _ _ _ _ _ h8 with hV | ⟨d8, t8, hV, h9⟩
  · rw [pure_step] at hV
    simp at hV
  rw [pure_step] at hV
  have ht8 : t8 = t7 := (Prod.mk.inj hV).2.symm
  subst ht8
  clear hV h8
  try dsimp only at h9
  -- the final update
  cases hr : r.updates with
  | none =>
    simp [DB.orWrap, DB.attempt, hr, Updates, DB.write] at h9
  | some err =>
    simp only [DB.orWrap, DB.attempt, hr, Prod.mk.injEq, Except.error.injEq] at h9
    obtain ⟨rfl, rfl⟩ := h9
    exact ⟨hN5, hA5, Or.inr ⟨node, hnode, hPU5, hPH5, hPL5, Or.inr ⟨⟨_, rfl⟩, hPI5⟩⟩,
      fun hr0 => by
        subst hr0
        exact absurd hr (by simp)⟩

/-- Witness of C24: on the registry that holds N1, the report of hostname host2 with the
unchanged address, the final Updates being refused, returns the error of Updates and leaves
the node rows and the archive as they were; the report of hostname host2 without an address,
no statement being refused, leaves the IP-address history as it was. -/
theorem C24_failed_update_effects_witness :
    (Unreliable.UpdateMetadataByUUID { updates := some .sql } 200 "N1" sampleReport
        sampleEnrolled).1 = .error (.wrap "Updates" .sql) ∧
    (Unreliable.UpdateMetadataByUUID { updates := some .sql } 200 "N1" sampleReport
        sampleEnrolled).2.nodes = sampleEnrolled.nodes ∧
    (Unreliable.UpdateMetadataByUUID { updates := some .sql } 200 "N1" sampleReport
        sampleEnrolled).2.archive = sampleEnrolled.archive ∧
    (Unreliable.UpdateMetadataByUUID {} 200 "N1" { Hostname := "host2" }
        sampleEnrolled).2.historyIPAddress = sampleEnrolled.historyIPAddress :=
  ⟨by rfl,
    (C24_failed_update_effects { updates := some .sql } sampleEnrolled 200 "N1" sampleReport
      (.wrap "Updates" .sql) (by rfl)).1,
    (C24_failed_update_effects { updates := some .sql } sampleEnrolled 200 "N1" sampleReport
      (.wrap "Updates" .sql) (by rfl)).2.1,
    ((C24_failed_update_effects {} sampleEnrolled 200 "N1" { Hostname := "host2" }
      (.wrap "incNodeHistoryIPAddress" (.wrap "getNodeHistoryIPAddress" .recordNotFound))
      (by rfl)).2.2.2 rfl).1⟩

/-! ## Node registry: the letter case of identifiers -/

/-- The lookups defined first are the lookups under the binary collation. -/
theorem Collated_binary (s : Store) (x : String) :
    Collated.CheckByUUID Collated.binary s x = CheckByUUID s x ∧
    Collated.GetByUUID Collated.binary s x = GetByUUID s x ∧
    Collated.CheckByKey Collated.binary s x = CheckByKey s x ∧
    Collated.GetByKey Collated.binary s x = GetByKey s x :=
  ⟨rfl, rfl, rfl, rfl⟩

/-- The row that a successful Create appends to the table of nodes. -/
theorem Create_nodes (s : Store) (now : Nat) (node : OsqueryNode) (s1 : Store)
    (hok : Create now node s = (.ok (), s1)) :
    s1.nodes = s.nodes ++
      [{ node with ID := s.nodeSeq + 1, CreatedAt := stamp node.CreatedAt now,
                   UpdatedAt := stamp node.UpdatedAt now }] := by
  by_cases hnew : NewRecord node.ID = true
  · unfold Create at hok
    rw [if_pos hnew] at hok
    simp only [DB_bind_apply, DB.orWrap, DB.write, NewHistoryHostname,
      NewHistoryLocalname, NewHistoryIPAddress, NewHistoryUsername, NewRecord,
      beq_self_eq_true, if_true, stamp] at hok
    have hs1 := (Prod.mk.inj hok).2
    subst hs1
    rfl
  · unfold Create at hok
    simp only [hnew] at hok
    cases hok

/-- Counterexample to C26 as stated: Create of a node with UUID n2 and node_key K2 succeeds
and stores both as given: the stored UUID is not its upper-casing N2 and the stored node_key
is not its lower-casing k2. -/
theorem C26_create_keeps_letter_case :
    (Create 100 sampleMixedCase {}).1 = .ok () ∧
    (Create 100 sampleMixedCase {}).2.nodes.map (fun n => (n.UUID, n.NodeKey)) =
      [("n2", "K2")] ∧
    toUpper "n2" = "N2" ∧ toLower "K2" = "k2" ∧
    (∀ n ∈ (Create 100 sampleMixedCase {}).2.nodes,
      n.UUID ≠ toUpper n.UUID ∧ n.NodeKey ≠ toLower n.NodeKey) := by
  refine ⟨by rfl, by decide, by decide, by decide, by decide⟩

/-- C26, amended: the lookups normalize their argument, Create stores what it is given.
After a successful Create(node) the stored row carries node.UUID and node.NodeKey unchanged.
Under every collation of the text columns in which a text equals itself: for every u whose
upper-casing is node.UUID, CheckByUUID(u) is true and GetByUUID(u) returns a stored node
whose UUID the collation equates with node.UUID, the created one when the collation equates
the UUID of no earlier row with it; the same holds for GetByKey and CheckByKey with the
lower-casing of the key. So the lookups are insensitive to the letter case of their argument
for the nodes created with an upper-case UUID and a lower-case node_key. -/
theorem C26_lookup_normalizes_argument (same : String → String → Bool)
    (hrefl : ∀ a, same a a = true) (s : Store) (now : Nat) (node : OsqueryNode)
    (s1 : Store) (hok : Create now node s = (.ok (), s1)) :
    s1.nodes = s.nodes ++
      [{ node with ID := s.nodeSeq + 1, CreatedAt := stamp node.CreatedAt now,
                   UpdatedAt := stamp node.UpdatedAt now }] ∧
    (∀ u, toUpper u = node.UUID →
      Collated.CheckByUUID same s1 u = true ∧
      (∃ n, Collated.GetByUUID same s1 u = .ok n ∧ n ∈ s1.nodes ∧
        same n.UUID node.UUID = true) ∧
      ((∀ r ∈ s.nodes, same r.UUID node.UUID = false) →
        Collated.GetByUUID same s1 u = .ok
          { node with ID := s.nodeSeq + 1, CreatedAt := stamp node.CreatedAt now,
                      UpdatedAt := stamp node.UpdatedAt now })) ∧
    (∀ k, toLower k = node.NodeKey →
      Collated.CheckByKey same s1 k = true ∧
      (∃ n, Collated.GetByKey same s1 k = .ok n ∧ n ∈ s1.nodes ∧
        same n.NodeKey node.NodeKey = true) ∧
      ((∀ r ∈ s.nodes, same r.NodeKey node.NodeKey = false) →
        Collated.GetByKey same s1 k = .ok
          { node with ID := s.nodeSeq + 1, CreatedAt := stamp node.CreatedAt now,
                      UpdatedAt := stamp node.UpdatedAt now })) := by
  have hn := Create_nodes s now node s1 hok
  refine ⟨hn, fun u hu => ⟨?_, ?_, fun hfresh => ?_⟩, fun k hk => ⟨?_, ?_, fun hfresh => ?_⟩⟩
  · unfold Collated.CheckByUUID
    rw [hn, hu]
    simp [List.filter_append, List.filter_cons, hrefl]
  · unfold Collated.GetByUUID
    rw [hu]
    cases hf : s1.nodes.find? (fun n => same n.UUID node.UUID) with
    | some x =>
      exact ⟨x, rfl, List.mem_of_find?_eq_some hf, by simpa using List.find?_some hf⟩
    | none =>
      have := List.find?_eq_none.mp hf
        { node with ID := s.nodeSeq + 1, CreatedAt := stamp node.CreatedAt now,
                    UpdatedAt := stamp node.UpdatedAt now } (by rw [hn]; simp)
      simp [hrefl] at this
  · unfold Collated.GetByUUID
    rw [hn, hu, List.find?_append]
    have hf : s.nodes.find? (fun n => same n.UUID node.UUID) = none := by
      rw [List.find?_eq_none]
      intro r hr
      simp [hfresh r hr]
    simp [hf, hrefl]
  · unfold Collated.CheckByKey
    rw [hn, hk]
    simp [List.filter_append, List.filter_cons, hrefl]
  · unfold Collated.GetByKey
    rw [hk]
    cases hf : s1.nodes.find? (fun n => same n.NodeKey node.NodeKey) with
    | some x =>
      exact ⟨x, rfl, List.mem_of_find?_eq_some hf, by simpa using List.find?_some hf⟩
    | none =>
      have := List.find?_eq_none.mp hf
        { node with ID := s.nodeSeq + 1, CreatedAt := stamp node.CreatedAt now,
                    UpdatedAt := stamp node.UpdatedAt now } (by rw [hn]; simp)
      simp [hrefl] at this
  · unfold Collated.GetByKey
    rw [hn, hk, List.find?_append]
    have hf : s.nodes.find? (fun n => same n.NodeKey node.NodeKey) = none := by
      rw [List.find?_eq_none]
      intro r hr
      simp [hfresh r hr]
    simp [hf, hrefl]

/-- Witness of C26: the node with UUID N1 and key k1, created on the empty registry, is
found by the uuid n1 and by the key K1, under the collation without regard to letter case
and, the lookups defined first being those of the binary collation, under that one. -/
theorem C26_lookup_normalizes_argument_witness :
    (Collated.CheckByUUID Collated.caseInsensitive sampleEnrolled "n1" = true ∧
      Collated.GetByUUID Collated.caseInsensitive sampleEnrolled "n1" = .ok sampleStored) ∧
    (Collated.CheckByKey Collated.binary sampleEnrolled "K1" = true ∧
      Collated.GetByKey Collated.binary sampleEnrolled "K1" = .ok sampleStored) :=
  ⟨⟨((C26_lookup_normalizes_argument Collated.caseInsensitive
        (fun a => by simp [Collated.caseInsensitive]) {} 100 sampleNode sampleEnrolled
        (by rfl)).2.1 "n1" (by decide)).1,
      ((C26_lookup_normalizes_argument Collated.caseInsensitive
        (fun a => by simp [Collated.caseInsensitive]) {} 100 sampleNode sampleEnrolled
        (by rfl)).2.1 "n1" (by decide)).2.2 (by decide)⟩,
    ⟨((C26_lookup_normalizes_argument Collated.binary
        (fun a => by simp [Collated.binary]) {} 100 sampleNode sampleEnrolled
        (by rfl)).2.2 "K1" (by decide)).1,
      ((C26_lookup_normalizes_argument Collated.binary
        (fun a => by simp [Collated.binary]) {} 100 sampleNode sampleEnrolled
        (by rfl)).2.2 "K1" (by decide)).2.2 (by decide)⟩⟩

/-! ## Node registry: values that a report leaves out -/

/-- The row that Updates leaves when the struct carries the eight picked values. -/
theorem updates_picked (node data : OsqueryNode) (now : Nat)
    (c1 c2 c3 c4 c5 c6 c7 c8 : Prop) [Decidable c1] [Decidable c2] [Decidable c3]
    [Decidable c4] [Decidable c5] [Decidable c6] [Decidable c7] [Decidable c8]
    (v1 v2 v3 v4 v5 v6 v7 v8 : String)
    (h1 : c1 → v1 ≠ "") (h2 : c2 → v2 ≠ "") (h3 : c3 → v3 ≠ "") (h4 : c4 → v4 ≠ "")
    (h5 : c5 → v5 ≠ "") (h6 : c6 → v6 ≠ "") (h7 : c7 → v7 ≠ "") (h8 : c8 → v8 ≠ "")
    (hd : data =
      { Username := (if c1 then v1 else ""), OsqueryUser := (if c2 then v2 else ""),
        Hostname := (if c3 then v3 else ""), Localname := (if c4 then v4 else ""),
        IPAddress := (if c5 then v5 else ""), ConfigHash := (if c6 then v6 else ""),
        DaemonHash := (if c7 then v7 else ""),
        OsqueryVersion := (if c8 then v8 else "") }) :
    (if data = {} then node else node.updates data now) =
      { node with
        Username := (if c1 then v1 else node.Username)
        OsqueryUser := (if c2 then v2 else node.OsqueryUser)
        Hostname := (if c3 then v3 else node.Hostname)
        Localname := (if c4 then v4 else node.Localname)
        IPAddress := (if c5 then v5 else node.IPAddress)
        ConfigHash := (if c6 then v6 else node.ConfigHash)
        DaemonHash := (if c7 then v7 else node.DaemonHash)
        OsqueryVersion := (if c8 then v8 else node.OsqueryVersion)
        UpdatedAt := (if c1 ∨ c2 ∨ c3 ∨ c4 ∨ c5 ∨ c6 ∨ c7 ∨ c8 then now else node.UpdatedAt) } := by
  by_cases hany : c1 ∨ c2 ∨ c3 ∨ c4 ∨ c5 ∨ c6 ∨ c7 ∨ c8
  · have hne : ¬ data = {} := by
      intro h
      rw [hd] at h
      have e1 := congrArg OsqueryNode.Username h
      have e2 := congrArg OsqueryNode.OsqueryUser h
      have e3 := congrArg OsqueryNode.Hostname h
      have e4 := congrArg OsqueryNode.Localname h
      have e5 := congrArg OsqueryNode.IPAddress h
      have e6 := congrArg OsqueryNode.ConfigHash h
      have e7 := congrArg OsqueryNode.DaemonHash h
      have e8 := congrArg OsqueryNode.OsqueryVersion h
      simp only at e1 e2 e3 e4 e5 e6 e7 e8
      rcases hany with c | c | c | c | c | c | c | c
      · rw [if_pos c] at e1; exact h1 c e1
      · rw [if_pos c] at e2; exact h2 c e2
      · rw [if_pos c] at e3; exact h3 c e3
      · rw [if_pos c] at e4; exact h4 c e4
      · rw [if_pos c] at e5; exact h5 c e5
      · rw [if_pos c] at e6; exact h6 c e6
      · rw [if_pos c] at e7; exact h7 c e7
      · rw [if_pos c] at e8; exact h8 c e8
    rw [if_neg hne, if_pos hany, hd]
    unfold OsqueryNode.updates
    simp only [picked_value c1 v1 _ h1, picked_value c2 v2 _ h2, picked_value c3 v3 _ h3,
      picked_value c4 v4 _ h4, picked_value c5 v5 _ h5, picked_value c6 v6 _ h6,
      picked_value c7 v7 _ h7, picked_value c8 v8 _ h8, if_true]
  · have n1 : ¬ c1 := fun c => hany (Or.inl c)
    have n2 : ¬ c2 := fun c => hany (Or.inr (Or.inl c))
    have n3 : ¬ c3 := fun c => hany (Or.inr (Or.inr (Or.inl c)))
    have n4 : ¬ c4 := fun c => hany (Or.inr (Or.inr (Or.inr (Or.inl c))))
    have n5 : ¬ c5 := fun c => hany (Or.inr (Or.inr (Or.inr (Or.inr (Or.inl c)))))
    have n6 : ¬ c6 := fun c => hany (Or.inr (Or.inr (Or.inr (Or.inr (Or.inr (Or.inl c))))))
    have n7 : ¬ c7 := fun c =>
      hany (Or.inr (Or.inr (Or.inr (Or.inr (Or.inr (Or.inr (Or.inl c)))))))
    have n8 : ¬ c8 := fun c =>
      hany (Or.inr (Or.inr (Or.inr (Or.inr (Or.inr (Or.inr (Or.inr c)))))))
    rw [hd]
    simp only [if_neg n1, if_neg n2, if_neg n3, if_neg n4, if_neg n5, if_neg n6, if_neg n7,
      if_neg n8, if_neg hany, if_true]

/-- The rows that Updates leaves, when the model value is a stored row and keys are
distinct and positive: that row updated, every other row as it was. -/
theorem Updates_nodes (s : Store) (hwf : s.WF) (now : Nat) (node data : OsqueryNode)
    (hmem : node ∈ s.nodes) :
    (Updates now node.ID data s).2.nodes =
      s.nodes.map (fun r =>
        if r.ID = node.ID then (if data = {} then node else node.updates data now) else r) := by
  have hpos : ¬ node.ID = 0 := by
    have := (hwf.2 node hmem).1
    omega
  have hinj : ∀ r ∈ s.nodes, r.ID = node.ID → r = node := fun r hr h =>
    List.inj_on_of_nodup_map hwf.1 hr hmem h
  simp only [Updates, DB.write]
  by_cases hd : data = {}
  · simp only [if_pos hd]
    conv_lhs => rw [← List.map_id s.nodes]
    apply List.map_congr_left
    intro r hr
    by_cases h : r.ID = node.ID
    · simp only [if_pos h, id, hinj r hr h, if_true]
    · simp only [if_neg h, id]
  · simp only [if_neg hd]
    apply List.map_congr_left
    intro r hr
    by_cases h : r.ID = node.ID
    · simp only [if_pos h, hpos, false_or, if_true, hinj r hr h]
    · simp only [if_neg h, hpos, false_or, if_false]

/-- C29: an empty observed value never erases stored data. For every store with distinct
positive keys and every node that the lookup finds, after a successful UpdateMetadataByUUID
the lookup finds the node with each of Username, OsqueryUser, Hostname, Localname,
IPAddress, ConfigHash, DaemonHash and OsqueryVersion equal to the observed value when that
is non-empty and differs from the stored one, and to the stored value otherwise; every other
field is as before, except updated_at, which is the clock reading unless the row is left as
it was; every other node row is as before; each of the username, hostname and localname
histories is as before or has gained one entry, whose value is the observed one and is not
empty; the IP-address history holds the same entries (keys, UUIDs and addresses) or has
gained one entry with the observed, non-empty address. -/
theorem C29_empty_value_keeps_stored (s : Store) (hwf : s.WF) (now : Nat) (uuid : String)
    (metadata : NodeMetadata) (node : OsqueryNode) (s1 : Store)
    (hnode : GetByUUID s uuid = .ok node)
    (hok : UpdateMetadataByUUID now uuid metadata s = (.ok (), s1)) :
    ∃ node1, GetByUUID s1 uuid = .ok node1 ∧
      node1 = { node with
        Username := (if metadata.Username ≠ "" ∧ metadata.Username ≠ node.Username then
          metadata.Username else node.Username)
        OsqueryUser := (if metadata.OsqueryUser ≠ "" ∧ metadata.OsqueryUser ≠ node.OsqueryUser then
          metadata.OsqueryUser else node.OsqueryUser)
        Hostname := (if metadata.Hostname ≠ "" ∧ metadata.Hostname ≠ node.Hostname then
          metadata.Hostname else node.Hostname)
        Localname := (if metadata.Localname ≠ "" ∧ metadata.Localname ≠ node.Localname then
          metadata.Localname else node.Localname)
        IPAddress := (if metadata.IPAddress ≠ "" ∧ metadata.IPAddress ≠ node.IPAddress then
          metadata.IPAddress else node.IPAddress)
        ConfigHash := (if metadata.ConfigHash ≠ "" ∧ metadata.ConfigHash ≠ node.ConfigHash then
          metadata.ConfigHash else node.ConfigHash)
        DaemonHash := (if metadata.DaemonHash ≠ "" ∧ metadata.DaemonHash ≠ node.DaemonHash then
          metadata.DaemonHash else node.DaemonHash)
        OsqueryVersion :=
          (if metadata.OsqueryVersion ≠ "" ∧ metadata.OsqueryVersion ≠ node.OsqueryVersion then
            metadata.OsqueryVersion else node.OsqueryVersion)
        UpdatedAt := node1.UpdatedAt } ∧
      (node1 = node ∨ node1.UpdatedAt = now) ∧
      s1.nodes = s.nodes.map (fun r => if r.ID = node.ID then node1 else r) ∧
      (s1.historyUsername = s.historyUsername ∨
        ∃ e, s1.historyUsername = s.historyUsername ++ [e] ∧
          e.Username = metadata.Username ∧ metadata.Username ≠ "") ∧
      (s1.historyHostname = s.historyHostname ∨
        ∃ e, s1.historyHostname = s.historyHostname ++ [e] ∧
          e.Hostname = metadata.Hostname ∧ metadata.Hostname ≠ "") ∧
      (s1.historyLocalname = s.historyLocalname ∨
        ∃ e, s1.historyLocalname = s.historyLocalname ++ [e] ∧
          e.Localname = metadata.Localname ∧ metadata.Localname ≠ "") ∧
      (s1.historyIPAddress.map (fun e => (e.ID, e.UUID, e.IPAddress)) =
          s.historyIPAddress.map (fun e => (e.ID, e.UUID, e.IPAddress)) ∨
        ∃ e, s1.historyIPAddress = s.historyIPAddress ++ [e] ∧
          e.IPAddress = metadata.IPAddress ∧ metadata.IPAddress ≠ "") := by
  have h1 : (UpdateMetadataByUUID now uuid metadata s).1 = .ok () := by rw [hok]
  have h2 : (UpdateMetadataByUUID now uuid metadata s).2 = s1 := by rw [hok]
  obtain ⟨hU, hH, hL, hIpos, hIneg, hIerr, hN, -⟩ :=
    UpdateMetadataByUUID_run s now uuid metadata node hnode
  rw [h2] at hU hH hL hIpos hIneg hIerr hN
  have hN1 := hN h1
  have hmem := (GetByUUID_ok s uuid node hnode).1
  have hget := GetByUUID_Updates s s1 now uuid node _ hnode rfl hN1
  have hpick := updates_picked node _ now
    (metadata.Username ≠ "" ∧ metadata.Username ≠ node.Username)
    (metadata.OsqueryUser ≠ "" ∧ metadata.OsqueryUser ≠ node.OsqueryUser)
    (metadata.Hostname ≠ "" ∧ metadata.Hostname ≠ node.Hostname)
    (metadata.Localname ≠ "" ∧ metadata.Localname ≠ node.Localname)
    (metadata.IPAddress ≠ "" ∧ metadata.IPAddress ≠ node.IPAddress)
    (metadata.ConfigHash ≠ "" ∧ metadata.ConfigHash ≠ node.ConfigHash)
    (metadata.DaemonHash ≠ "" ∧ metadata.DaemonHash ≠ node.DaemonHash)
    (metadata.OsqueryVersion ≠ "" ∧ metadata.OsqueryVersion ≠ node.OsqueryVersion)
    metadata.Username metadata.OsqueryUser metadata.Hostname metadata.Localname
    metadata.IPAddress metadata.ConfigHash metadata.DaemonHash metadata.OsqueryVersion
    (fun h => h.1) (fun h => h.1) (fun h => h.1) (fun h => h.1) (fun h => h.1) (fun h => h.1)
    (fun h => h.1) (fun h => h.1) rfl
  refine ⟨_, hget, ?_, ?_, ?_, ?_, ?_, ?_, ?_⟩
  · rw [hpick]
  · rw [hpick]
    split
    · right; rfl
    · next h =>
      left
      simp only [not_or] at h
      obtain ⟨n1, n2, n3, n4, n5, n6, n7, n8⟩ := h
      simp only [if_neg n1, if_neg n2, if_neg n3, if_neg n4, if_neg n5, if_neg n6, if_neg n7,
        if_neg n8]
  · rw [hN1]
    exact Updates_nodes s hwf now node _ hmem
  · rw [hU]
    split
    · next h => exact Or.inr ⟨_, rfl, rfl, h.1⟩
    · exact Or.inl rfl
  · rw [hH]
    split
    · next h => exact Or.inr ⟨_, rfl, rfl, h.1⟩
    · exact Or.inl rfl
  · rw [hL]
    split
    · next h => exact Or.inr ⟨_, rfl, rfl, h.1⟩
    · exact Or.inl rfl
  · by_cases hI : metadata.IPAddress ≠ "" ∧ metadata.IPAddress ≠ node.IPAddress
    · exact Or.inr ⟨_, (hIpos hI).2, rfl, hI.1⟩
    · left
      cases hg : GetHistoryIPAddress s node.UUID metadata.IPAddress with
      | ok e =>
        rw [(hIneg hI e hg).2, List.map_map]
        apply List.map_congr_left
        intro r _
        simp only [Function.comp]
        split <;> rfl
      | error err =>
        have he := GetHistoryIPAddress_error _ _ _ _ hg
        subst he
        have := (hIerr hI hg).1
        rw [h1] at this
        cases this

/-- Witness of C29: the report of hostname host2 with the unchanged address, on the
registry that holds N1. -/
theorem C29_empty_value_keeps_stored_witness :
    ∃ node1, GetByUUID sampleRenamed "N1" = .ok node1 ∧
      (node1 = sampleStored ∨ node1.UpdatedAt = 200) ∧
      sampleRenamed.nodes =
        sampleEnrolled.nodes.map (fun r => if r.ID = sampleStored.ID then node1 else r) :=
  (C29_empty_value_keeps_stored sampleEnrolled (by decide) 200 "N1" sampleReport sampleStored
    sampleRenamed (by rfl) (by rfl)).elim
    (fun node1 h => ⟨node1, h.1, h.2.2.1, h.2.2.2.1⟩)

end Nodes

end Osctrl
